import Mathlib

/-!
# grofer: container metrics aggregation, the table widget and the process page controller

A shallow embedding of

* `pkg/metrics/container/overall.go` (`GetOverallMetrics`, `getMetrics`),
* `pkg/utils/visualization/table.go` (`Table.calcPos`, the scroll methods and `Table.Draw`),
* `pkg/sink/tui/process/all_procs.go` (the event loop of `AllProcVisuals`),
* `pkg/sink/tui/misc/help.go` (`HelpMenu.Resize`, `HelpMenu.Draw`),
* `pkgtop/src/pkgtop.go` (the reversal of the package list),

followed by the properties proved about them.
-/

namespace Grofer

/-! ## Machine numbers -/

/-- Go's `uint64` addition: the sum modulo `2^64`. -/
def addU64 (a b : Nat) : Nat := (a + b) % 2 ^ 64

/-- Go's `int` (64 bit, two's complement): the representative of `x` in
`[-2^63, 2^63)`. Every `int` addition and subtraction below goes through it. -/
def wrapInt (x : Int) : Int := (x + 9223372036854775808) % 18446744073709551616 - 9223372036854775808

/-- Go's conversion `int32(x)`: the representative of `x` in `[-2^31, 2^31)`. -/
def wrapInt32 (x : Int) : Int := (x + 2147483648) % 4294967296 - 2147483648

/-- The `float64` operations that the metrics code uses. No law is assumed of them:
what is proved for every instance holds for IEEE 754 arithmetic in particular. -/
class GoFloat (F : Type) where
  /-- The zero value of a `float64` variable, `+0`. -/
  zero : F
  /-- The operator `+`. -/
  add : F → F → F
  /-- The operator `*`. -/
  mul : F → F → F
  /-- The operator `/`. -/
  div : F → F → F
  /-- The conversions `float64(n)` from `int` and from `uint64`. -/
  ofInt : Int → F

/-- IEEE 754 binary64 values. A finite value is `(-1)^neg * k * 2^(-1074)`: every finite
double is a whole multiple of the smallest subnormal, and `k` is that multiple. -/
inductive Binary64 where
  | nan : Binary64
  | inf (neg : Bool) : Binary64
  | fin (neg : Bool) (k : Nat) : Binary64
  deriving DecidableEq, Repr

namespace Binary64

/-- Round-to-nearest, ties-to-even, of the exact value `n * 2^(-t)` (in units of `2^(-1074)`)
to the nearest value with at most 53 significant bits that is a whole number of units. -/
def roundShift (n t : Nat) : Nat :=
  let s := max (Nat.log2 n - 52) t
  let q := n / 2 ^ s
  let r := n % 2 ^ s
  let h := 2 ^ (s - 1)
  if r > h ∨ (r = h ∧ q % 2 = 1) then (q + 1) * 2 ^ (s - t) else q * 2 ^ (s - t)

/-- The rounded result, or an infinity when it reaches `2^1024`. -/
def rnd (neg : Bool) (n t : Nat) : Binary64 :=
  if 2 ^ 2098 ≤ roundShift n t then inf neg else fin neg (roundShift n t)

/-- The sum of two doubles. -/
def add : Binary64 → Binary64 → Binary64
  | nan, _ => nan
  | _, nan => nan
  | inf a, inf b => if a = b then inf a else nan
  | inf a, fin _ _ => inf a
  | fin _ _, inf b => inf b
  | fin s1 k1, fin s2 k2 =>
    if s1 = s2 then rnd s1 (k1 + k2) 0
    else if k1 = k2 then fin false 0
    else if k2 < k1 then rnd s1 (k1 - k2) 0
    else rnd s2 (k2 - k1) 0

/-- The product of two doubles. -/
def mul : Binary64 → Binary64 → Binary64
  | nan, _ => nan
  | _, nan => nan
  | inf a, inf b => inf (a != b)
  | inf a, fin s k => if k = 0 then nan else inf (a != s)
  | fin s k, inf b => if k = 0 then nan else inf (s != b)
  | fin s1 k1, fin s2 k2 => rnd (s1 != s2) (k1 * k2) 1074

/-- The quotient of two doubles. The exact quotient is cut after 2200 further binary
places and a last bit records whether anything was cut off, which is enough to round it. -/
def div : Binary64 → Binary64 → Binary64
  | nan, _ => nan
  | _, nan => nan
  | inf _, inf _ => nan
  | inf a, fin s _ => inf (a != s)
  | fin s _, inf b => fin (s != b) 0
  | fin s1 k1, fin s2 k2 =>
    if k2 = 0 then (if k1 = 0 then nan else inf (s1 != s2))
    else
      rnd (s1 != s2)
        (2 * (k1 * 2 ^ 3274 / k2) + (if k1 * 2 ^ 3274 % k2 = 0 then 0 else 1)) 2201

/-- The conversion of an integer to the nearest double. -/
def ofInt (n : Int) : Binary64 := rnd (decide (n < 0)) (n.natAbs * 2 ^ 1074) 0

/-- The double `+0`. -/
def posZero : Binary64 := fin false 0

/-- The double `-0`. -/
def negZero : Binary64 := fin true 0

/-- A running total: not `-0`, and unchanged by the addition of `+0`. -/
def Settled (x : Binary64) : Prop := x ≠ negZero ∧ add x posZero = x

end Binary64

instance : GoFloat Binary64 where
  zero := Binary64.posZero
  add := Binary64.add
  mul := Binary64.mul
  div := Binary64.div
  ofInt := Binary64.ofInt

/-! ## `pkg/metrics/container`: per-container metrics and their aggregation -/

/-- Go type `netStat`: received and transmitted bytes, as `float64`. -/
structure netStat (F : Type) where
  Rx : F
  Tx : F
  deriving DecidableEq, Repr

/-- Go type `blkStat`: bytes read and written, as `uint64`. -/
structure blkStat where
  Read : Nat
  Write : Nat
  deriving DecidableEq, Repr

/-- Go type `PerContainerMetrics`. -/
structure PerContainerMetrics (F : Type) where
  ID : String
  Image : String
  Name : String
  Status : String
  State : String
  CPU : F
  Mem : F
  Net : netStat F
  Blk : blkStat
  deriving DecidableEq, Repr

/-- Go type `OverallMetrics`. -/
structure OverallMetrics (F : Type) where
  TotalCPU : F
  TotalMem : F
  TotalNet : netStat F
  TotalBlk : blkStat
  PerContainer : List (PerContainerMetrics F)
  deriving DecidableEq, Repr

/-- The zero value `PerContainerMetrics{}`. -/
def PerContainerMetrics.zeroValue (F : Type) [GoFloat F] : PerContainerMetrics F :=
  { ID := "", Image := "", Name := "", Status := "", State := "",
    CPU := GoFloat.zero, Mem := GoFloat.zero,
    Net := { Rx := GoFloat.zero, Tx := GoFloat.zero }, Blk := { Read := 0, Write := 0 } }

/-- The zero value `OverallMetrics{}`. -/
def OverallMetrics.zeroValue (F : Type) [GoFloat F] : OverallMetrics F :=
  { TotalCPU := GoFloat.zero, TotalMem := GoFloat.zero,
    TotalNet := { Rx := GoFloat.zero, Tx := GoFloat.zero },
    TotalBlk := { Read := 0, Write := 0 }, PerContainer := [] }

/-- The local variables of the aggregation loop of `GetOverallMetrics` (lines 55-57 and
the slice `metrics.PerContainer`). -/
structure Totals (F : Type) where
  totalCPU : F
  totalMem : F
  totalNet : netStat F
  totalBlk : blkStat
  perContainer : List (PerContainerMetrics F)

/-- The loop variables before the first iteration. -/
def Totals.init (F : Type) [GoFloat F] : Totals F :=
  { totalCPU := GoFloat.zero, totalMem := GoFloat.zero,
    totalNet := { Rx := GoFloat.zero, Tx := GoFloat.zero },
    totalBlk := { Read := 0, Write := 0 }, perContainer := [] }

/-- One iteration of the loop (lines 61-73) on the value `metric` read from the channel. -/
def Totals.step {F : Type} [GoFloat F] (t : Totals F) (metric : PerContainerMetrics F) :
    Totals F :=
  { totalCPU := GoFloat.add t.totalCPU metric.CPU
    totalMem := GoFloat.add t.totalMem metric.Mem
    totalNet := { Rx := GoFloat.add t.totalNet.Rx metric.Net.Rx,
                  Tx := GoFloat.add t.totalNet.Tx metric.Net.Tx }
    totalBlk := { Read := addU64 t.totalBlk.Read metric.Blk.Read,
                  Write := addU64 t.totalBlk.Write metric.Blk.Write }
    perContainer := t.perContainer ++ [metric] }

/-- Lines 55-82 of `GetOverallMetrics`: the values `received` are read from the channel
one after the other, in the order in which the goroutines delivered them, and the totals
are stored; `numCores` is `runtime.NumCPU()`. -/
def aggregate {F : Type} [GoFloat F] (received : List (PerContainerMetrics F))
    (numCores : Int) : OverallMetrics F :=
  let t := received.foldl Totals.step (Totals.init F)
  { TotalCPU := GoFloat.div t.totalCPU (GoFloat.ofInt numCores)
    TotalMem := t.totalMem
    TotalNet := t.totalNet
    TotalBlk := t.totalBlk
    PerContainer := t.perContainer }

/-- The fields of docker's `types.Container` that `getMetrics` reads. -/
structure Container where
  ID : String
  Image : String
  Names : List String
  Status : String
  State : String
  deriving DecidableEq, Repr

/-- One entry of `BlkioStats.IoServiceBytesRecursive`. -/
structure BlkioStatEntry where
  Op : String
  Value : Nat
  deriving DecidableEq, Repr

/-- One value of the map `Networks`. -/
structure NetworkStats where
  RxBytes : Nat
  TxBytes : Nat
  deriving DecidableEq, Repr

/-- The fields of docker's `types.StatsJSON` that `getMetrics` reads. `CPU` stands for the
CPU counters, which only the helper `getCPUPercent` looks at; `Networks` lists the values
of the map in the order in which the `range` loop visits them. -/
structure StatsJSON (C : Type) where
  CPU : C
  MemoryUsage : Nat
  MemoryLimit : Nat
  IoServiceBytesRecursive : List BlkioStatEntry
  Networks : List NetworkStats

/-- What the two calls at the head of `getMetrics` give for one container. -/
inductive FetchResult (C : Type) where
  /-- The call `cli.ContainerStats` returned an error. -/
  | statsError : FetchResult C
  /-- The call `Decode` returned an error. -/
  | decodeError : FetchResult C
  /-- Both calls succeeded, with these decoded statistics. -/
  | ok (data : StatsJSON C) : FetchResult C

/-- Whether a fetch failed. -/
def FetchResult.failed {C : Type} : FetchResult C → Bool
  | .ok _ => false
  | _ => true

/-- Go's `unicode.ToLower` on the code points whose lower case is an ASCII letter: `A` to
`Z`, U+0130 (whose lower case is `i`) and U+212A (whose lower case is `k`). Every other code
point has its lower case outside ASCII, or none, and is left as it is. -/
def lowerRune (c : Char) : Char :=
  if c = Char.ofNat 304 then Char.ofNat 105
  else if c = Char.ofNat 8490 then Char.ofNat 107
  else c.toLower

/-- Whether `strings.ToLower(s) == word`, for a word of lower-case ASCII letters. Where
`lowerRune` differs from Go, on a code point with a lower case outside ASCII, both give a code
point outside ASCII, which is no letter of `word`. -/
def lowersTo (s word : String) : Bool :=
  s.toList.map lowerRune == word.toList

/-- The block IO loop of `getMetrics` (lines 117-125): `(blkRead, blkWrite)` after the
entries. -/
def blkTotals (entries : List BlkioStatEntry) : Nat × Nat :=
  entries.foldl
    (fun acc bioEntry =>
      if lowersTo bioEntry.Op "read" then (addU64 acc.1 bioEntry.Value, acc.2)
      else if lowersTo bioEntry.Op "write" then (acc.1, addU64 acc.2 bioEntry.Value)
      else acc)
    (0, 0)

/-- The network loop of `getMetrics` (lines 128-133): `(rx, tx)` after the entries. -/
def netTotals {F : Type} [GoFloat F] (nets : List NetworkStats) : F × F :=
  nets.foldl
    (fun acc v =>
      (GoFloat.add acc.1 (GoFloat.ofInt (v.RxBytes : Int)),
       GoFloat.add acc.2 (GoFloat.ofInt (v.TxBytes : Int))))
    (GoFloat.zero, GoFloat.zero)

/-- The value that `getMetrics` sends on the channel for container `c`; `none` when the
goroutine panics, which happens on the slice `c.ID[:10]` of an ID shorter than 10 bytes.
The helper `getCPUPercent` is not among the sources and is a parameter. -/
def getMetrics {F C : Type} [GoFloat F] (getCPUPercent : StatsJSON C → F) (c : Container) :
    FetchResult C → Option (PerContainerMetrics F)
  | .statsError => some (PerContainerMetrics.zeroValue F)
  | .decodeError => some (PerContainerMetrics.zeroValue F)
  | .ok data =>
    let cpuPercent := getCPUPercent data
    let memPercent : F :=
      if data.MemoryLimit > 0 then
        GoFloat.mul
          (GoFloat.div (GoFloat.ofInt (data.MemoryUsage : Int))
            (GoFloat.ofInt (data.MemoryLimit : Int)))
          (GoFloat.ofInt 100)
      else GoFloat.zero
    let blk := blkTotals data.IoServiceBytesRecursive
    let net : F × F := netTotals data.Networks
    if c.ID.utf8ByteSize < 10 then none
    else some
      { ID := c.ID.extract 0 ⟨10⟩
        Image := c.Image
        Name := (String.intercalate "," c.Names).dropWhile (fun ch => ch == '/')
        Status := c.Status
        State := c.State
        CPU := cpuPercent
        Mem := memPercent
        Net := { Rx := net.1, Tx := net.2 }
        Blk := { Read := blk.1, Write := blk.2 } }

/-- The goroutines started for `containers` send the values `sent`, one per container. -/
def Sent {F C : Type} [GoFloat F] (getCPUPercent : StatsJSON C → F)
    (stats : Container → FetchResult C) (containers : List Container)
    (sent : List (PerContainerMetrics F)) : Prop :=
  List.Forall₂ (fun c m => getMetrics getCPUPercent c (stats c) = some m) containers sent

/-- Go function `GetOverallMetrics`: `containerList` is what `cli.ContainerList` returns,
`received` are the values read from the channel, in the order of their arrival, and
`numCores` is `runtime.NumCPU()`. The result is the pair `(metrics, err)`. -/
def GetOverallMetrics {F : Type} [GoFloat F] (containerList : Except String (List Container))
    (received : List (PerContainerMetrics F)) (numCores : Int) :
    OverallMetrics F × Option String :=
  match containerList with
  | .error err => (OverallMetrics.zeroValue F, some err)
  | .ok _ => (aggregate received numCores, none)

/-- The list of the CPU (or other `float64`) values summed from left to right, from `+0`. -/
def sumF {F : Type} [GoFloat F] (xs : List F) : F := xs.foldl GoFloat.add GoFloat.zero

/-- The list of `uint64` values summed from left to right, from `0`. -/
def sumU64 (xs : List Nat) : Nat := xs.foldl addU64 0

/-- The decimal values 0.1, 0.2 and 0.3 as doubles. -/
def d01 : Binary64 := .fin false (3602879701896397 * 2 ^ 1019)
/-- The double nearest to 0.2. -/
def d02 : Binary64 := .fin false (3602879701896397 * 2 ^ 1020)
/-- The double nearest to 0.3. -/
def d03 : Binary64 := .fin false (5404319552844595 * 2 ^ 1020)

/-- A container entry with memory percentage `mem` and everything else zero. -/
def memOnly (id : String) (mem : Binary64) : PerContainerMetrics Binary64 :=
  { PerContainerMetrics.zeroValue Binary64 with ID := id, Mem := mem }

/-- Three containers with 10-byte IDs. -/
def cA : Container := { ID := "aaaaaaaaaa", Image := "", Names := [], Status := "", State := "" }
/-- The second container. -/
def cB : Container := { cA with ID := "bbbbbbbbbb" }
/-- The third container. -/
def cC : Container := { cA with ID := "cccccccccc" }

/-- Their metrics with memory percentages 0.1, 0.2 and 0.3, received in the order a, b, c. -/
def memABC : List (PerContainerMetrics Binary64) :=
  [memOnly "aaaaaaaaaa" d01, memOnly "bbbbbbbbbb" d02, memOnly "cccccccccc" d03]

/-- The same three values, received in the order c, b, a. -/
def memCBA : List (PerContainerMetrics Binary64) :=
  [memOnly "cccccccccc" d03, memOnly "bbbbbbbbbb" d02, memOnly "aaaaaaaaaa" d01]

/-- The entries of `received` that are not the zero value, in the order received. -/
def realEntries (received : List (PerContainerMetrics Binary64)) :
    List (PerContainerMetrics Binary64) :=
  received.filter (fun m => decide (m ≠ PerContainerMetrics.zeroValue Binary64))

/-- Statistics without any memory, block IO or network entry. -/
def emptyStats : StatsJSON Unit :=
  { CPU := (), MemoryUsage := 0, MemoryLimit := 0, IoServiceBytesRecursive := [],
    Networks := [] }

/-- A fetch that fails for the container `bbbbbbbbbb` and succeeds for every other one. -/
def failB (c : Container) : FetchResult Unit :=
  if c.ID = "bbbbbbbbbb" then .statsError else .ok emptyStats

/-- A CPU helper that reports 0.1 percent for every container. -/
def cpu01 (_ : StatsJSON Unit) : Binary64 := d01

/-- The entry that `getMetrics` sends for `c` under `failB` and `cpu01`. -/
def entryOf (c : Container) : PerContainerMetrics Binary64 :=
  (getMetrics cpu01 c (failB c)).getD (PerContainerMetrics.zeroValue Binary64)

/-! ## `pkg/utils/visualization`: the table widget -/

/-- The colours of termui that the pages use. -/
inductive Color where
  | clear | cyan | white | magenta | other (n : Nat)
  deriving DecidableEq, Repr

/-- Go type `Table`, without its drawing attributes (styles, column widths, colour map).
`InnerDy` is `t.Inner.Dy()`, the height of the inner rectangle of the embedded block, and
`BorderFg` is `t.BorderStyle.Fg`. -/
structure Table where
  Header : List String
  Rows : List (List String)
  ShowCursor : Bool
  CursorColor : Color
  UniqueCol : Int
  SelectedItem : String
  SelectedRow : Int
  TopRow : Int
  IsHelp : Bool
  DefaultBorderColor : Color
  ActiveBorderColor : Color
  BorderFg : Color
  InnerDy : Int
  deriving DecidableEq, Repr

namespace Table

/-- The number of rows the widget shows, `t.Inner.Dy() - 1` (see the loop of `Draw`). -/
def visibleHeight (t : Table) : Int := t.InnerDy - 1

/-- Go method `calcPos`: the cursor position and the view into the table. -/
def calcPos (t : Table) : Table :=
  let t := { t with SelectedItem := "" }
  let t := if t.SelectedRow < 0 then { t with SelectedRow := 0 } else t
  let t := if t.SelectedRow < t.TopRow then { t with TopRow := t.SelectedRow } else t
  let t :=
    if t.SelectedRow > (t.Rows.length : Int) - 1 then
      { t with SelectedRow := (t.Rows.length : Int) - 1 }
    else t
  if t.SelectedRow > wrapInt (t.TopRow + wrapInt (t.InnerDy - 2)) then
    { t with TopRow := wrapInt (t.SelectedRow - wrapInt (t.InnerDy - 2)) }
  else t

/-- Go method `ScrollUp`. -/
def ScrollUp (t : Table) : Table :=
  calcPos { t with SelectedRow := wrapInt (t.SelectedRow - 1) }

/-- Go method `ScrollDown`. -/
def ScrollDown (t : Table) : Table :=
  calcPos { t with SelectedRow := wrapInt (t.SelectedRow + 1) }

/-- Go method `ScrollTop`. -/
def ScrollTop (t : Table) : Table :=
  calcPos { t with SelectedRow := 0 }

/-- Go method `ScrollBottom`. -/
def ScrollBottom (t : Table) : Table :=
  calcPos { t with SelectedRow := (t.Rows.length : Int) - 1 }

/-- Go method `ScrollHalfPageUp`; Go's `/` on `int` rounds towards zero. -/
def ScrollHalfPageUp (t : Table) : Table :=
  calcPos { t with SelectedRow := wrapInt (t.SelectedRow - Int.tdiv (wrapInt (t.InnerDy - 2)) 2) }

/-- Go method `ScrollHalfPageDown`. -/
def ScrollHalfPageDown (t : Table) : Table :=
  calcPos { t with SelectedRow := wrapInt (t.SelectedRow + Int.tdiv (wrapInt (t.InnerDy - 2)) 2) }

/-- Go method `ScrollPageUp`. -/
def ScrollPageUp (t : Table) : Table :=
  calcPos { t with SelectedRow := wrapInt (t.SelectedRow - wrapInt (t.InnerDy - 2)) }

/-- Go method `ScrollPageDown`. -/
def ScrollPageDown (t : Table) : Table :=
  calcPos { t with SelectedRow := wrapInt (t.SelectedRow + wrapInt (t.InnerDy - 2)) }

/-- Go method `ScrollToIndex`. -/
def ScrollToIndex (t : Table) (idx : Int) : Table :=
  if idx < 0 ∨ idx ≥ (t.Rows.length : Int) then t
  else calcPos { t with SelectedRow := idx }

/-- Go method `DisableCursor`. -/
def DisableCursor (t : Table) : Table :=
  { t with ShowCursor := false, BorderFg := t.DefaultBorderColor }

/-- Go method `EnableCursor`. -/
def EnableCursor (t : Table) : Table :=
  { t with ShowCursor := true, BorderFg := t.ActiveBorderColor }

/-- The fields `SelectedRow`, `TopRow` and `Inner.Dy()` hold values of Go's `int`, and the
slice `Rows` has a length that an `int` can hold. -/
def IntFields (t : Table) : Prop :=
  -9223372036854775808 ≤ t.SelectedRow ∧ t.SelectedRow < 9223372036854775808 ∧
  -9223372036854775808 ≤ t.TopRow ∧ t.TopRow < 9223372036854775808 ∧
  -9223372036854775808 ≤ t.InnerDy ∧ t.InnerDy < 9223372036854775808 ∧
  (t.Rows.length : Int) < 9223372036854775808

instance (t : Table) : Decidable t.IntFields := by
  unfold IntFields; infer_instance

end Table

/-- The scroll operations of the interface `ScrollableWidget`. -/
inductive Scroll where
  | up | down | top | bottom | halfPageUp | halfPageDown | pageUp | pageDown
  | toIndex (idx : Int)
  deriving DecidableEq, Repr

/-- The table after the scroll operation `op`. -/
def Table.scroll (t : Table) : Scroll → Table
  | .up => t.ScrollUp
  | .down => t.ScrollDown
  | .top => t.ScrollTop
  | .bottom => t.ScrollBottom
  | .halfPageUp => t.ScrollHalfPageUp
  | .halfPageDown => t.ScrollHalfPageDown
  | .pageUp => t.ScrollPageUp
  | .pageDown => t.ScrollPageDown
  | .toIndex idx => t.ScrollToIndex idx

/-- A table with the given rows, cursor position, top row and inner height. -/
def Table.mk4 (rows : List (List String)) (selectedRow topRow innerDy : Int) : Table :=
  { Header := [], Rows := rows, ShowCursor := true, CursorColor := .cyan, UniqueCol := 0,
    SelectedItem := "", SelectedRow := selectedRow, TopRow := topRow, IsHelp := false,
    DefaultBorderColor := .cyan, ActiveBorderColor := .white, BorderFg := .white,
    InnerDy := innerDy }

/-! ## `pkg/sink/tui/process`: the process page -/

/-- The utilities of package `core` that the process page selects. -/
inductive Utility where
  | None | Help | Kill | Error
  deriving DecidableEq, Repr

/-- The table that the variable `scrollableWidget` points to. -/
inductive Widget where
  | procTable | helpTable | signalsTable
  deriving DecidableEq, Repr

/-- The answers of one `*proc.Process` to the queries of `getData`. A query that returns an
error is `none`; the percentages are given as `fmt.Sprintf("%.2f%%", v)` renders them and
the creation time as `utils.GetDateFromUnix` renders it. -/
structure ProcessInfo where
  Pid : Int
  Exe : Option String
  CPUPercent : Option String
  MemoryPercent : Option String
  Status : String
  Foreground : Bool
  CreateTime : Option String
  NumThreads : Int
  deriving DecidableEq, Repr

/-- The last element of `strings.Split(exe, "/")`: what follows the last `/` of `exe`, or
all of `exe` when it has none. -/
def lastSegment (exe : String) : String :=
  String.mk (exe.toList.reverse.takeWhile (fun c => c != '/')).reverse

/-- Go function `getData`: one row per process whose executable can be read. -/
def getData (procs : List ProcessInfo) : List (List String) :=
  procs.filterMap fun p =>
    match p.Exe with
    | none => none
    | some exe =>
      some [toString p.Pid, lastSegment exe, p.CPUPercent.getD "",
        p.MemoryPercent.getD "", p.Status, toString p.Foreground, p.CreateTime.getD "",
        toString p.NumThreads]

/-- Go's `strconv.Atoi`: an optional sign followed by decimal digits, within the range of
`int`; `none` stands for an error. -/
def Atoi (s : String) : Option Int :=
  let digits : List Char := match s.toList with
    | '-' :: r => r
    | '+' :: r => r
    | r => r
  let n : Int := (digits.foldl (fun a c => 10 * a + (c.toNat - 48)) 0 : Nat)
  let v : Int := if s.toList.head? = some '-' then -n else n
  if digits = [] ∨ ¬ digits.all Char.isDigit then none
  else if v < -9223372036854775808 ∨ 9223372036854775808 ≤ v then none
  else some v

/-- The local variable `header` of `AllProcVisuals`. -/
def header : List String :=
  ["PID", "Command", "CPU", "Memory", "Status", "Foreground", "Creation Time", "Thread Count"]

/-- The constant `UpArrow`. -/
def UpArrow : String := "▲"

/-- The constant `DownArrow`. -/
def DownArrow : String := "▼"

/-- The number of `syscall.SIGTERM`. -/
def SIGTERM : Int := 15

/-- The local variables of `AllProcVisuals` and the widgets they point to. `errorBox` holds
the arguments of the last call of `SetErrorString`, `onceDone` whether the `sync.Once` has
fired, `selectedStyle` the cursor colour read from the page when the function starts. -/
structure State where
  utilitySelected : Utility
  scrollableWidget : Widget
  procTable : Table
  helpTable : Table
  signalsTable : Table
  errorBox : Option (String × String)
  sortIdx : Int
  sortAsc : Bool
  previousKey : String
  runAllProc : Bool
  pidToKill : Int
  onceDone : Bool
  selectedStyle : Color
  deriving DecidableEq, Repr

/-- The helpers of the repository that are not among the sources: `utils.SortData` (the rows
sorted by a column, ascending or descending, for the case `"PROCS"`) and
`SignalTable.SelectedSignal` (the signal of the selected row of the signal list). -/
structure Deps where
  SortData : List (List String) → Int → Bool → List (List String)
  SelectedSignal : Table → Int

/-- What the operating system answers during one iteration of the loop: the error of
`proc.NewProcess(pidToKill)` (`none` when the process is found), the error of `SendSignal`,
the result of `proc.Processes()` and the first result of `proc.PidExists(pidToKill)`. -/
structure World where
  newProcess : Option String
  sendSignal : Option String
  processes : Except String (List ProcessInfo)
  pidExists : Bool

/-- What the `select` statement receives. -/
inductive Event where
  /-- The context is done. -/
  | done : Event
  /-- A UI event with this `ID`. -/
  | key (id : String) : Event
  /-- A batch of processes on the data channel. -/
  | data (procs : List ProcessInfo) : Event
  /-- A tick of the refresh timer. -/
  | tick : Event
  deriving DecidableEq, Repr

/-- The calls to the outside that an iteration makes, in order. Drawing is one of them: the
handlers are modelled up to the calls of `updateUI` and `ui.Render`, not inside them; what
these calls write back into the tables is added by `stepDrawn`. -/
inductive Effect where
  /-- A call of `updateUI`. -/
  | updateUI : Effect
  /-- The call `ui.Render(signals)`. -/
  | renderSignals : Effect
  /-- The call `ui.Render(page.Grid)`. -/
  | renderGrid : Effect
  /-- The call `proc.NewProcess(pid)`. -/
  | lookup (pid : Int) : Effect
  /-- The call `SendSignal(sig)` on the process `pid`. -/
  | signal (pid sig : Int) : Effect
  /-- The call `proc.Processes()`. -/
  | listProcesses : Effect
  /-- The call `proc.PidExists(pid)`. -/
  | pidExists (pid : Int) : Effect
  deriving DecidableEq, Repr

/-- How an iteration of the loop ends. -/
inductive Outcome where
  /-- The loop goes on in this state, after these calls. -/
  | running (s : State) (log : List Effect) : Outcome
  /-- The function returns `core.ErrCanceledByUser`. -/
  | canceled : Outcome
  /-- The function returns `ctx.Err()`. -/
  | contextDone : Outcome
  /-- The function returns the error `failed to get PID of process`. -/
  | pidError : Outcome
  /-- An index is out of range and the function panics. -/
  | panicked : Outcome
  deriving DecidableEq, Repr

namespace State

/-- The table `scrollableWidget` points to. -/
def scrollable (s : State) : Table :=
  match s.scrollableWidget with
  | .procTable => s.procTable
  | .helpTable => s.helpTable
  | .signalsTable => s.signalsTable

/-- A method with pointer receiver called on `scrollableWidget`. -/
def onScrollable (s : State) (f : Table → Table) : State :=
  match s.scrollableWidget with
  | .procTable => { s with procTable := f s.procTable }
  | .helpTable => { s with helpTable := f s.helpTable }
  | .signalsTable => { s with signalsTable := f s.signalsTable }

/-- The assignment `scrollableWidget = w` followed by `scrollableWidget.EnableCursor()`. -/
def pointTo (s : State) (w : Widget) : State :=
  ({ s with scrollableWidget := w } : State).onScrollable Table.EnableCursor

/-- The state changes of the closure `updateUI` (lines 130-158) before it renders: the
cursor colour of the process table. What the rendering writes back into the tables,
`SelectedRow` and `SelectedItem`, is `State.draw`. -/
def updateUI (s : State) : State :=
  match s.utilitySelected with
  | .Help => s
  | .Error => s
  | .Kill => { s with procTable := { s.procTable with CursorColor := .magenta } }
  | .None => { s with procTable := { s.procTable with CursorColor := s.selectedStyle } }

/-- The closure `updateProcs` (lines 173-180). -/
def updateProcs (s : State) (w : World) : State × List Effect :=
  if s.runAllProc then
    match w.processes with
    | .ok procs => ({ s with procTable := { s.procTable with Rows := getData procs } },
        [.listProcesses])
    | .error _ => (s, [.listProcesses])
  else (s, [])

/-- Lines 269-280 and, with the selected signal, lines 337-348: look the process up, reset
the cursor colour, send the signal, and report a failure in the error box. -/
def kill (s : State) (w : World) (sig : Int) : State × List Effect :=
  let s1 : State := { s with procTable := { s.procTable with CursorColor := s.selectedStyle } }
  match w.newProcess with
  | none =>
    match w.sendSignal with
    | some err =>
      ({ s1 with
          errorBox := some ("Error killing process: " ++ toString s.pidToKill, err),
          utilitySelected := .Error },
        [.lookup s.pidToKill, .signal s.pidToKill sig])
    | none => (s1, [.lookup s.pidToKill, .signal s.pidToKill sig])
  | some err =>
    ({ s1 with
        errorBox := some ("Process not found: " ++ toString s.pidToKill, err),
        utilitySelected := .Error },
      [.lookup s.pidToKill])

/-- The state at the head of the loop: `page`, `help` and `signals` are the tables of the
freshly built widgets. -/
def init (page help signals : Table) : State :=
  { utilitySelected := .None
    scrollableWidget := .procTable
    procTable := { page.EnableCursor with CursorColor := page.CursorColor }
    helpTable := help
    signalsTable := signals
    errorBox := none
    sortIdx := -1
    sortAsc := false
    previousKey := ""
    runAllProc := true
    pidToKill := 0
    onceDone := false
    selectedStyle := page.CursorColor }

end State

/-- What the `switch e.ID` leaves behind. -/
inductive KeyResult where
  /-- The switch is left normally, with the flag `handledPreviousKey`. -/
  | handled (s : State) (log : List Effect) (handledPreviousKey : Bool) : KeyResult
  /-- A `return` or a panic inside the switch. -/
  | stop (o : Outcome) : KeyResult

/-- The cases `K` and `<F9>` (lines 248-286). -/
def killKey (s : State) (w : World) : KeyResult :=
  match s.utilitySelected with
  | .None =>
    if s.procTable.SelectedRow < (s.procTable.Rows.length : Int) then
      if s.procTable.SelectedRow < 0 then .stop .panicked
      else
        match s.procTable.Rows.get? s.procTable.SelectedRow.toNat with
        | none => .stop .panicked
        | some row =>
          match row.head? with
          | none => .stop .panicked
          | some cell =>
            match Atoi cell with
            | none => .stop .pidError
            | some pid =>
              .handled
                (({ s with pidToKill := wrapInt32 pid, runAllProc := false,
                           utilitySelected := .Kill } : State).pointTo .signalsTable)
                [] false
    else .handled s [] false
  | .Kill =>
    let r := s.kill w SIGTERM
    let s2 := ({ r.1.pointTo .procTable with runAllProc := true } : State)
    let u := s2.updateProcs w
    .handled u.1 (r.2 ++ u.2) false
  | _ => .handled s [] false

/-- The case of the digit keys (lines 288-321). -/
def digitKey (d : Deps) (s : State) (id : String) : KeyResult :=
  match s.utilitySelected with
  | .Kill =>
    let scrollIdx := (Atoi id).getD 0
    let checkPrev : Bool := decide (s.previousKey ∈ ["1", "2", "3"])
    let scrollIdx :=
      if checkPrev then wrapInt (wrapInt (10 * (Atoi s.previousKey).getD 0) + scrollIdx)
      else scrollIdx
    .handled
      { s with signalsTable := s.signalsTable.ScrollToIndex (wrapInt (scrollIdx - 1)) }
      [.renderSignals] checkPrev
  | .None =>
    if id ∈ ["1", "2", "3", "4", "5", "6", "7", "8"] then
      let sortIdx := wrapInt ((Atoi id).getD 0 - 1)
      .handled
        { s with
          sortIdx := sortIdx
          sortAsc := true
          procTable :=
            { s.procTable with
              Header := header.set sortIdx.toNat (header.getD sortIdx.toNat "" ++ " " ++ UpArrow)
              Rows := d.SortData s.procTable.Rows sortIdx true } }
        [] false
    else if id = "0" then
      .handled { s with sortIdx := -1, procTable := { s.procTable with Header := header } }
        [] false
    else .handled s [] false
  | _ => .handled s [] false

/-- The case of the keys `<F1>` to `<F8>` (lines 324-332). -/
def functionKey (d : Deps) (s : State) (id : String) : KeyResult :=
  match s.utilitySelected with
  | .None =>
    let sortIdx := wrapInt ((Atoi (id.extract ⟨2⟩ ⟨3⟩)).getD 0 - 1)
    .handled
      { s with
        sortIdx := sortIdx
        sortAsc := false
        procTable :=
          { s.procTable with
            Header := header.set sortIdx.toNat (header.getD sortIdx.toNat "" ++ " " ++ DownArrow)
            Rows := d.SortData s.procTable.Rows sortIdx false } }
      [] false
  | _ => .handled s [] false

/-- The case `<Enter>` (lines 334-356). -/
def enterKey (d : Deps) (s : State) (w : World) : KeyResult :=
  match s.utilitySelected with
  | .Kill =>
    let r := s.kill w (d.SelectedSignal s.signalsTable)
    let s2 := ({ r.1 with runAllProc := true, utilitySelected := .None } : State)
    let u := s2.updateProcs w
    .handled (u.1.pointTo .procTable) (r.2 ++ u.2) false
  | _ => .handled (s.pointTo .procTable) [] false

/-- The statement `switch e.ID` (lines 193-357). -/
def keySwitch (d : Deps) (s : State) (w : World) (id : String) : KeyResult :=
  if id = "q" ∨ id = "<C-c>" then .stop .canceled
  else if id = "<Resize>" then .handled s.updateUI [.updateUI] false
  else if id = "?" then
    .handled
      ({ (s.onScrollable Table.DisableCursor).pointTo .helpTable with
          utilitySelected := .Help } : State).updateUI
      [.updateUI] false
  else if id = "p" then .handled { s with runAllProc := !s.runAllProc } [] false
  else if id = "<Escape>" then
    .handled
      ((({ s with utilitySelected := .None } : State).onScrollable
        Table.DisableCursor).pointTo .procTable).updateUI
      [.updateUI] false
  else if id = "j" ∨ id = "<Down>" then .handled (s.onScrollable Table.ScrollDown) [] false
  else if id = "k" ∨ id = "<Up>" then .handled (s.onScrollable Table.ScrollUp) [] false
  else if id = "<C-d>" then .handled (s.onScrollable Table.ScrollHalfPageDown) [] false
  else if id = "<C-u>" then .handled (s.onScrollable Table.ScrollHalfPageUp) [] false
  else if id = "<C-f>" then .handled (s.onScrollable Table.ScrollPageDown) [] false
  else if id = "<C-b>" then .handled (s.onScrollable Table.ScrollPageUp) [] false
  else if id = "g" then
    if s.previousKey = "g" then .handled (s.onScrollable Table.ScrollTop) [] false
    else .handled s [] false
  else if id = "<Home>" then .handled (s.onScrollable Table.ScrollTop) [] false
  else if id = "G" ∨ id = "<End>" then .handled (s.onScrollable Table.ScrollBottom) [] false
  else if id = "K" ∨ id = "<F9>" then killKey s w
  else if id ∈ ["0", "1", "2", "3", "4", "5", "6", "7", "8", "9"] then digitKey d s id
  else if id ∈ ["<F1>", "<F2>", "<F3>", "<F4>", "<F5>", "<F6>", "<F7>", "<F8>"] then
    functionKey d s id
  else if id = "<Enter>" then enterKey d s w
  else .handled s [] false

/-- The case `e := <-uiEvents` (lines 192-364): the switch, then `updateUI` and the update
of `previousKey`. -/
def onKey (d : Deps) (s : State) (w : World) (id : String) : Outcome :=
  match keySwitch d s w id with
  | .stop o => o
  | .handled s1 log handledPreviousKey =>
    .running { s1.updateUI with previousKey := if handledPreviousKey then "" else id }
      (log ++ [.updateUI])

/-- The case `data := <-dataChannel` (lines 366-375). -/
def onData (d : Deps) (s : State) (data : List ProcessInfo) : Outcome :=
  if s.runAllProc then
    let rows := getData data
    let rows := if s.sortIdx ≠ -1 then d.SortData rows s.sortIdx s.sortAsc else rows
    let s1 : State :=
      { s with procTable := { s.procTable with CursorColor := s.selectedStyle, Rows := rows } }
    if s1.onceDone then .running s1 []
    else .running { s1.updateUI with onceDone := true } [.updateUI]
  else .running s []

/-- The case `<-tick` (lines 377-394). -/
def onTick (s : State) (w : World) : Outcome :=
  let r : State × List Effect :=
    if s.utilitySelected = .Kill then
      if w.pidExists then (s, [.pidExists s.pidToKill])
      else
        let u := ({ s with runAllProc := true, utilitySelected := .None } : State).updateProcs w
        (u.1, .pidExists s.pidToKill :: u.2)
    else ({ s with procTable := { s.procTable with CursorColor := s.selectedStyle } }, [])
  let renders : List Effect :=
    if r.1.utilitySelected ≠ .Help then
      (if r.1.utilitySelected = .Kill then [.renderSignals] else []) ++ [.renderGrid]
    else []
  .running r.1 (r.2 ++ renders)

/-- One iteration of the loop of `AllProcVisuals` (lines 186-396), up to its drawing calls,
which are logged; `stepDrawn` is the iteration with their write-back. -/
def step (d : Deps) (s : State) (w : World) : Event → Outcome
  | .done => .contextDone
  | .key id => onKey d s w id
  | .data procs => onData d s procs
  | .tick => onTick s w

/-- The state of an outcome in which the loop goes on. -/
def Outcome.state? : Outcome → Option State
  | .running s _ => some s
  | _ => none

/-- The calls of an outcome in which the loop goes on. -/
def Outcome.log : Outcome → List Effect
  | .running _ log => log
  | _ => []

/-- The iterations of the loop on a sequence of events, each with the answers of the
operating system at that moment; the run ends early when an iteration returns or panics. -/
def run (d : Deps) (s : State) : List (World × Event) → Outcome
  | [] => .running s []
  | (w, e) :: rest =>
    match step d s w e with
    | .running s1 _ => run d s1 rest
    | o => o

/-- The name of the key of the digit `n`. -/
def digit (n : Nat) : String := ["0", "1", "2", "3", "4", "5", "6", "7", "8", "9"].getD n ""

/-- An event that, while the kill prompt is active, neither toggles the pause flag (`p`)
nor asks for a second kill (`K`, `<F9>`); outside the kill prompt every event does. -/
def Event.keepsPause (s : State) (e : Event) : Prop :=
  s.utilitySelected = .Kill → e ≠ .key "p" ∧ e ≠ .key "K" ∧ e ≠ .key "<F9>"

instance (s : State) (e : Event) : Decidable (e.keepsPause s) := by
  unfold Event.keepsPause; infer_instance

/-- The states that the loop reaches from its start through events that keep the pause:
any events outside the kill prompt and, inside it, any but `p`, `K` and `<F9>`. -/
inductive ReachableKeepingPause (d : Deps) (page help signals : Table) : State → Prop where
  | start : ReachableKeepingPause d page help signals (State.init page help signals)
  | next (s s1 : State) (w : World) (e : Event) (log : List Effect) :
      ReachableKeepingPause d page help signals s → e.keepsPause s →
      step d s w e = .running s1 log → ReachableKeepingPause d page help signals s1

/-- Whether every event of a run keeps the pause in the state in which it arrives. -/
def keepsPauseAlong (d : Deps) (s : State) : List (World × Event) → Bool
  | [] => true
  | (w, e) :: rest =>
    decide (e.keepsPause s) &&
      match step d s w e with
      | .running s1 _ => keepsPauseAlong d s1 rest
      | _ => true

/-- Helpers that do nothing: rows are left as they are, and the signal is the row number. -/
def plainDeps : Deps :=
  { SortData := fun rows _ _ => rows, SelectedSignal := fun t => t.SelectedRow + 1 }

/-- A process table without rows. -/
def emptyPage : Table := Table.mk4 [] 0 0 20

/-- A help table. -/
def someHelp : Table := (Table.mk4 [["Quit: q"]] 0 0 20).DisableCursor

/-- A signal list of 31 entries. -/
def someSignals : Table := (Table.mk4 (List.replicate 31 ["SIG"]) 0 0 40).DisableCursor

/-- A process with this pid. -/
def procWithPid (pid : Int) : ProcessInfo :=
  { Pid := pid, Exe := some "/bin/sh", CPUPercent := some "0.00%", MemoryPercent := some "0.10%",
    Status := "S", Foreground := false, CreateTime := some "now", NumThreads := 1 }

/-- An operating system in which `pidToKill` exists and every call succeeds. -/
def calmWorld : World :=
  { newProcess := none, sendSignal := none, processes := .ok [procWithPid 42], pidExists := true }

/-- An operating system in which the process to kill is gone; `proc.Processes()` lists the
processes 2 and 1, in this order. -/
def goneWorld : World :=
  { newProcess := some "process does not exist", sendSignal := none,
    processes := .ok [procWithPid 2, procWithPid 1], pidExists := false }

/-- The state after a first batch with the process 42. -/
def loadedState : State :=
  ((step plainDeps (State.init emptyPage someHelp someSignals) calmWorld
    (.data [procWithPid 42])).state?).getD (State.init emptyPage someHelp someSignals)

/-- The state after the key `K` on the row of the process 42: the kill prompt. -/
def killState : State :=
  ((step plainDeps loadedState calmWorld (.key "K")).state?).getD loadedState

/-- The kill prompt reached by a batch, the pause key twice and the key `K`. -/
def pausedTwiceKillState : State :=
  ((run plainDeps (State.init emptyPage someHelp someSignals)
    [(calmWorld, .data [procWithPid 42]), (calmWorld, .key "p"), (calmWorld, .key "p"),
      (calmWorld, .key "K")]).state?).getD (State.init emptyPage someHelp someSignals)

/-- An operating system in which the process is found and the signal cannot be sent. -/
def deniedWorld : World :=
  { newProcess := none, sendSignal := some "operation not permitted",
    processes := .ok [procWithPid 42], pidExists := true }

/-- The kill prompt while the table is sorted by its first column, ascending. -/
def sortedKillState : State := { killState with sortIdx := 0, sortAsc := true }

/-- The normal state with a row while the table is sorted by its first column, ascending. -/
def sortedLoadedState : State := { loadedState with sortIdx := 0, sortAsc := true }

/-- The switch leaves behind a state in which the kill prompt implies paused refresh. -/
def KeyResult.pausedInKill : KeyResult → Prop
  | .handled s _ _ => s.utilitySelected = .Kill → s.runAllProc = false
  | .stop o => o.state? = none

/-- The containers for which `GetOverallMetrics` starts a goroutine `getMetrics` (lines 43-53):
none when the enumeration fails, since the function returns before the loop. -/
def fetchedContainers (containerList : Except String (List Container)) : List Container :=
  match containerList with
  | .error _ => []
  | .ok containers => containers

/-- The ID of the entry that `getMetrics` sends for `c`: empty when the fetch fails, the
first 10 bytes of the container ID when it succeeds. -/
def entryId {C : Type} (stats : Container → FetchResult C) (c : Container) : String :=
  if (stats c).failed then "" else c.ID.extract 0 ⟨10⟩

/-- A container with every identity field filled in. -/
def cFull : Container :=
  { ID := "abcdefghij", Image := "nginx", Names := ["/web"], Status := "Up 2 hours",
    State := "running" }

/-- Two containers whose IDs differ only after the tenth byte. -/
def cLong1 : Container := { cA with ID := "0123456789a" }
/-- The second of them. -/
def cLong2 : Container := { cA with ID := "0123456789b" }

/-- A fetch that succeeds for every container. -/
def okAll (_ : Container) : FetchResult Unit := .ok emptyStats

/-- A fetch that fails for every container. -/
def failAll (_ : Container) : FetchResult Unit := .statsError

/-- The entry that `getMetrics` sends for `c` when the fetch succeeds. -/
def okEntry (c : Container) : PerContainerMetrics Binary64 :=
  (getMetrics cpu01 c (okAll c)).getD (PerContainerMetrics.zeroValue Binary64)

/-- Lines 56 and 80 of `system_wide_metrics.go`: `uint64(4 * swm.refreshRate / 5)`, the
product being taken in `uint64`. -/
def alteredRefreshRate (refreshRate : Nat) : Nat := (4 * refreshRate % 2 ^ 64) / 5

/-- The name of the key `<F1>` ... `<F9>` of the digit `n`. -/
def fkey (n : Nat) : String := "<F" ++ digit n ++ ">"

/-- The key that sorts by column `n` (counted from 1): the digit for ascending order, the
function key for descending order. -/
def sortKey (asc : Bool) (n : Nat) : String := if asc then digit n else fkey n

/-- The cell of `row` in column `sortIdx`, empty when there is none. -/
def cellAt (sortIdx : Int) (row : List String) : String := row.getD sortIdx.toNat ""

/-- Whether the characters `a` come before the characters `b` in lexicographic order. -/
def charsLess : List Char → List Char → Bool
  | _, [] => false
  | [], _ :: _ => true
  | x :: xs, y :: ys =>
    if x.toNat < y.toNat then true
    else if y.toNat < x.toNat then false
    else charsLess xs ys

/-- Whether the cell `a` comes before the cell `b`. -/
def cellLess (a b : String) : Bool := charsLess a.toList b.toList

/-- The row `row` put into the sorted list `sorted`, behind the rows whose cell is equal. -/
def insertByColumn (sortIdx : Int) (sortAsc : Bool) (row : List String) :
    List (List String) → List (List String)
  | [] => [row]
  | r :: rest =>
    if (if sortAsc then cellLess (cellAt sortIdx row) (cellAt sortIdx r)
        else cellLess (cellAt sortIdx r) (cellAt sortIdx row)) then row :: r :: rest
    else r :: insertByColumn sortIdx sortAsc row rest

/-- Modelled from the spec: `utils.SortData` for the case `PROCS`, which is not among the
sources: the rows ordered by the cells of one column, ascending or descending. The cells are
compared as strings here, and rows with equal cells keep their order, as they do under the
insertion sort that Go's `sort.Slice` applies to short slices. -/
def stableSortData (rows : List (List String)) (sortIdx : Int) (sortAsc : Bool) :
    List (List String) :=
  rows.foldl (fun sorted row => insertByColumn sortIdx sortAsc row sorted) []

/-- The helpers with `stableSortData` for `utils.SortData`. -/
def stableDeps : Deps :=
  { SortData := stableSortData, SelectedSignal := fun t => t.SelectedRow + 1 }

/-- The state after a first batch with the processes 2 and 1, in this order, both running
the command `sh`. -/
def twoState : State :=
  ((step stableDeps (State.init emptyPage someHelp someSignals) calmWorld
    (.data [procWithPid 2, procWithPid 1])).state?).getD
      (State.init emptyPage someHelp someSignals)

/-- A page whose process table starts with the base header. -/
def basePage : Table := { emptyPage with Header := header }

/-- The states that the loop reaches from its start, through any events. -/
inductive Reachable (d : Deps) (page help signals : Table) : State → Prop where
  | start : Reachable d page help signals (State.init page help signals)
  | next (s s1 : State) (w : World) (e : Event) (log : List Effect) :
      Reachable d page help signals s → step d s w e = .running s1 log →
      Reachable d page help signals s1

/-- The header of the process table agrees with the sort column: it is the base header when
the sort is cleared, and otherwise the base header with the sort column alone annotated. -/
def HeaderOK (s : State) : Prop :=
  (s.sortIdx = -1 ∧ s.procTable.Header = header) ∨
    ∃ n : Nat, 1 ≤ n ∧ n ≤ 8 ∧ s.sortIdx = (n : Int) - 1 ∧
      ∃ arrow : String,
        s.procTable.Header = header.set (n - 1) (header.getD (n - 1) "" ++ " " ++ arrow)

/-- The state left behind by the switch has the property `P`. -/
def KeyResult.all (P : State → Prop) : KeyResult → Prop
  | .handled s _ _ => P s
  | .stop o => o.state? = none

/-- The scroll methods that the key handlers call on `scrollableWidget`. -/
def IsScrollMethod (f : Table → Table) : Prop :=
  f = Table.ScrollDown ∨ f = Table.ScrollUp ∨ f = Table.ScrollHalfPageDown ∨
    f = Table.ScrollHalfPageUp ∨ f = Table.ScrollPageDown ∨ f = Table.ScrollPageUp ∨
    f = Table.ScrollTop ∨ f = Table.ScrollBottom

/-- The state after the key `3` at the start, on a page with the base header: the table is
sorted by its third column, ascending. -/
def cpuSortedState : State :=
  ((step plainDeps (State.init basePage someHelp someSignals) calmWorld (.key "3")).state?).getD
    (State.init basePage someHelp someSignals)

/-! ## The write-back of the drawing -/

namespace Table

/-- The expression `row[t.UniqueCol]`; `none` when the index is out of range. -/
def uniqueCell (t : Table) (row : List String) : Option String :=
  if t.UniqueCol < 0 then none else row.get? t.UniqueCol.toNat

/-- One pass of the loop of `Draw` (lines 127-183) over the row `rowNum`, as far as it
changes the table: the row under the cursor becomes the selected one. A help table reads
`Rows[rowNum][0]`, which panics on a row without columns; `none` stands for a panic. The
output into the buffer, which indexes the row with the column widths, is not modelled. -/
def drawRow (t : Table) (rowNum : Int) (row : List String) : Option Table :=
  if t.IsHelp = true ∧ row = [] then none
  else if t.ShowCursor = true then
    if t.SelectedItem = "" then
      if rowNum = t.SelectedRow then
        match t.uniqueCell row with
        | none => none
        | some cell => some { t with SelectedItem := cell, SelectedRow := rowNum }
      else some t
    else
      match t.uniqueCell row with
      | none => none
      | some cell =>
        if t.SelectedItem = cell then some { t with SelectedItem := cell, SelectedRow := rowNum }
        else some t
  else some t

/-- The passes of the loop over the rows `rows`, the first of which has the index `rowNum`. -/
def drawFrom (t : Table) : Int → List (List String) → Option Table
  | _, [] => some t
  | rowNum, row :: rest =>
    match t.drawRow rowNum row with
    | none => none
    | some t1 => t1.drawFrom (rowNum + 1) rest

/-- Go method `Draw` (lines 87-184), as far as it changes the table: nothing when `TopRow` is
negative, and otherwise the loop over the rows `TopRow <= rowNum < TopRow + Inner.Dy() - 1`
that exist. The output into the buffer (the header and the cells, laid out by `ColWidths`)
is not modelled. -/
def Draw (t : Table) : Option Table :=
  if t.TopRow < 0 then some t
  else
    t.drawFrom t.TopRow
      ((t.Rows.drop t.TopRow.toNat).take
        (wrapInt (wrapInt (t.TopRow + t.InnerDy) - 1) - t.TopRow).toNat)

end Table

/-- Go method `HelpMenu.Draw` (help.go, lines 73-83), as far as it changes the table: the
rows become the key bindings and the border cyan, then the table is drawn. -/
def HelpMenu.Draw (keybindings : List (List String)) (t : Table) : Option Table :=
  ({ t with Rows := keybindings, BorderFg := .cyan } : Table).Draw

/-- What the drawing needs besides the state: the key bindings of the help menu, which
`getHelpKeybindingsForCommand` returns, and what the method `Draw` of `misc.SignalTable`
makes of the table of the signal list. Neither is among the sources. -/
structure DrawDeps where
  keybindings : List (List String)
  DrawSignals : Table → Option Table

/-- The write-back of one drawing call of the log: `updateUI` (lines 130-156) renders the
help menu, the error box, the signal list and then the grid, or the grid alone; the grid
holds the process table. The rectangles that `updateUI` sets are those of its last call: the
terminal keeps its size, so that every `InnerDy` stays what it is. -/
def State.draw (dr : DrawDeps) (s : State) : Effect → Option State
  | .updateUI =>
    match s.utilitySelected with
    | .Help =>
      match HelpMenu.Draw dr.keybindings s.helpTable with
      | none => none
      | some t => some { s with helpTable := t }
    | .Error => some s
    | .Kill =>
      match dr.DrawSignals s.signalsTable with
      | none => none
      | some sig =>
        match s.procTable.Draw with
        | none => none
        | some t => some { s with signalsTable := sig, procTable := t }
    | .None =>
      match s.procTable.Draw with
      | none => none
      | some t => some { s with procTable := t }
  | .renderSignals =>
    match dr.DrawSignals s.signalsTable with
    | none => none
    | some sig => some { s with signalsTable := sig }
  | .renderGrid =>
    match s.procTable.Draw with
    | none => none
    | some t => some { s with procTable := t }
  | _ => some s

/-- The write-back of the drawing calls of a log, in their order. -/
def State.drawAll (dr : DrawDeps) (s : State) : List Effect → Option State
  | [] => some s
  | e :: rest =>
    match s.draw dr e with
    | none => none
    | some s1 => s1.drawAll dr rest

/-- One iteration of the loop of `AllProcVisuals` with the write-back of its drawing calls.
In every case of the loop the drawing calls come after the last statement that reads or
writes a table or `utilitySelected`, so their write-back applies to the state that `step`
leaves, call by call in the order of the log; a panic inside `Draw` ends the function. -/
def stepDrawn (dr : DrawDeps) (d : Deps) (s : State) (w : World) (e : Event) : Outcome :=
  match step d s w e with
  | .running s1 log =>
    match s1.drawAll dr log with
    | none => .panicked
    | some s2 => .running s2 log
  | o => o

/-- The iterations of the loop with the write-back of the drawing, on a sequence of events. -/
def runDrawn (dr : DrawDeps) (d : Deps) (s : State) : List (World × Event) → Outcome
  | [] => .running s []
  | (w, e) :: rest =>
    match stepDrawn dr d s w e with
    | .running s1 _ => runDrawn dr d s1 rest
    | o => o

/-- The state at the head of the loop, after the call `updateUI()` of line 158. -/
def State.initDrawn (dr : DrawDeps) (page help signals : Table) : Option State :=
  (State.init page help signals).draw dr .updateUI

/-- A help menu as `NewHelpMenu` builds it, before it is drawn. -/
def newHelp : Table := { (Table.mk4 [] 0 0 20).DisableCursor with IsHelp := true }

/-- A signal list of three entries. -/
def threeSignals : Table :=
  (Table.mk4 [["1", "SIGHUP"], ["2", "SIGINT"], ["3", "SIGQUIT"]] 0 0 40).DisableCursor

/-- Drawing with one key binding and a signal list that is drawn as a table is. -/
def plainDrawing : DrawDeps :=
  { keybindings := [["Quit: q"]], DrawSignals := Table.Draw }

/-- The state at the head of the loop on an empty page. -/
def drawnStart : State := State.init emptyPage newHelp threeSignals

/-- The state after a first batch with the process 42, drawn. -/
def drawnLoadedState : State :=
  ((runDrawn plainDrawing plainDeps drawnStart [(calmWorld, .data [procWithPid 42])]).state?).getD
    drawnStart

/-- The state after a second batch, with the processes 7 and 42, which is not drawn. -/
def staleState : State :=
  ((runDrawn plainDrawing plainDeps drawnStart
    [(calmWorld, .data [procWithPid 42]),
      (calmWorld, .data [procWithPid 7, procWithPid 42])]).state?).getD drawnStart

/-- The state after the next tick, which draws the two rows. -/
def redrawnState : State :=
  ((stepDrawn plainDrawing plainDeps staleState calmWorld .tick).state?).getD staleState

/-- The help overlay, opened by the key `?` over the table with the process 42, drawn. -/
def drawnHelpState : State :=
  ((runDrawn plainDrawing plainDeps drawnStart
    [(calmWorld, .data [procWithPid 42]), (calmWorld, .key "?")]).state?).getD drawnStart

/-! ## `pkg/sink/tui/misc`: the size of the help menu -/

/-- The loop of `HelpMenu.Resize` (lines 52-57): `textWidth` after the key bindings; `none`
when a key binding has no column, so that `line[0]` panics. Lengths are counted in bytes. -/
def helpTextWidth (keybindings : List (List String)) : Option Int :=
  keybindings.foldl
    (fun acc line =>
      match acc, line.head? with
      | some textWidth, some cell =>
        if textWidth < (cell.utf8ByteSize : Int) then
          some (wrapInt ((cell.utf8ByteSize : Int) + 2))
        else some textWidth
      | _, _ => none)
    (some 50)

/-- Go method `HelpMenu.Resize`: the arguments `(x0, y0, x1, y1)` of the call `SetRect`.
Go's `/` on `int` rounds towards zero. -/
def helpResize (keybindings : List (List String)) (termWidth termHeight : Int) :
    Option (Int × Int × Int × Int) :=
  match helpTextWidth keybindings with
  | none => none
  | some textWidth =>
    let textHeight := wrapInt ((keybindings.length : Int) + 3)
    let x := Int.tdiv (wrapInt (termWidth - textWidth)) 2
    let y := Int.tdiv (wrapInt (termHeight - textHeight)) 2
    let textWidth := if x < 0 then termWidth else textWidth
    let x := if x < 0 then 0 else x
    let textHeight := if y < 0 then termHeight else textHeight
    let y := if y < 0 then 0 else y
    some (x, y, wrapInt (textWidth + x), wrapInt (textHeight + y))

/-! ## `pkgtop`: the reversal of the package list -/

/-- The iterations `i = k - 1, ..., 0` of the loop of lines 364-367 of `pkgtop.go` on the
slice `pkgs`; `none` when an index is out of range and the program panics. -/
def reverseLoop : Nat → List String → Option (List String)
  | 0, pkgs => some pkgs
  | i + 1, pkgs =>
    let opp : Int := (pkgs.length : Int) - 3 - (i : Int)
    if opp < 0 ∨ (pkgs.length : Int) ≤ opp ∨ pkgs.length ≤ i then none
    else
      reverseLoop i
        ((pkgs.set i (pkgs.getD opp.toNat "")).set opp.toNat (pkgs.getD i ""))

/-- Lines 363-368 of `pkgtop.go`: the slice `pkgs` after the reversal that the option `-r`
asks for; the loop starts at `i = len(pkgs)/2 - 1`. -/
def reversePackages (pkgs : List String) : Option (List String) :=
  reverseLoop (pkgs.length / 2) pkgs

/-- Modelled from the spec: the package lines, all but the last two lines, in reverse
order, followed by the last two lines. -/
def reversedPackageLines (pkgs : List String) : List String :=
  (pkgs.take (pkgs.length - 2)).reverse ++ pkgs.drop (pkgs.length - 2)

/-- The number of units `2^(-1074)` in a finite double, 0 for the others. -/
def Binary64.magnitude : Binary64 → Nat
  | .fin _ k => k
  | _ => 0

/-- The values `xs` are non-negative whole multiples of one unit `2^(e - 1074)` and add up to
at most `2^53` units: a sum of some of them is again a double, so that no addition of
them rounds or overflows. -/
def Binary64.ExactIn (e : Nat) (xs : List Binary64) : Prop :=
  e ≤ 2044 ∧ ∃ ms : List Nat, xs = ms.map (fun m => Binary64.fin false (m * 2 ^ e)) ∧
    ms.sum ≤ 2 ^ 53

/-- The doubles 0.25, 0.5 and 1.75, in units of `2^(-2)`. -/
def quarter : Binary64 := .fin false (1 * 2 ^ 1072)
/-- The double 0.5. -/
def half : Binary64 := .fin false (2 * 2 ^ 1072)
/-- The double 1.75. -/
def sevenQuarters : Binary64 := .fin false (7 * 2 ^ 1072)

/-- A container entry with these four `float64` values and these block IO counters. -/
def exactEntry (id : String) (cpu mem rx tx : Binary64) (read write : Nat) :
    PerContainerMetrics Binary64 :=
  { PerContainerMetrics.zeroValue Binary64 with
    ID := id, CPU := cpu, Mem := mem, Net := { Rx := rx, Tx := tx },
    Blk := { Read := read, Write := write } }

/-- Three entries whose `float64` values are multiples of 0.25, received in the order a, b, c. -/
def exactABC : List (PerContainerMetrics Binary64) :=
  [exactEntry "aaaaaaaaaa" half quarter sevenQuarters half 5 7,
   exactEntry "bbbbbbbbbb" quarter sevenQuarters half quarter 11 13,
   exactEntry "cccccccccc" sevenQuarters half quarter sevenQuarters 17 19]

/-- The same three entries, received in the order c, b, a. -/
def exactCBA : List (PerContainerMetrics Binary64) :=
  [exactEntry "cccccccccc" sevenQuarters half quarter sevenQuarters 17 19,
   exactEntry "bbbbbbbbbb" quarter sevenQuarters half quarter 11 13,
   exactEntry "aaaaaaaaaa" half quarter sevenQuarters half 5 7]

/-! ## Properties of the arithmetic -/

theorem log2_eq_of_bounds {n k : Nat} (h1 : 2 ^ k ≤ n) (h2 : n < 2 ^ (k + 1)) :
    Nat.log2 n = k := by
  have hn : n ≠ 0 := by
    have : 0 < 2 ^ k := Nat.two_pow_pos _
    omega
  have hle : k ≤ Nat.log2 n := (Nat.le_log2 hn).2 h1
  have hlt : Nat.log2 n < k + 1 := (Nat.log2_lt hn).2 h2
  omega

namespace Binary64

/-- Rounding a value `q * 2^e + r` whose leading part `q` has exactly 53 bits. -/
theorem roundShift_eval (q e r : Nat) (hq1 : 2 ^ 52 ≤ q) (hq2 : q < 2 ^ 53) (hr : r < 2 ^ e) :
    roundShift (q * 2 ^ e + r) 0 =
      if r > 2 ^ (e - 1) ∨ (r = 2 ^ (e - 1) ∧ q % 2 = 1) then (q + 1) * 2 ^ e else q * 2 ^ e := by
  have hpos : 0 < 2 ^ e := Nat.two_pow_pos _
  have hlog : Nat.log2 (q * 2 ^ e + r) = 52 + e := by
    apply log2_eq_of_bounds
    · calc 2 ^ (52 + e) = 2 ^ 52 * 2 ^ e := by rw [pow_add]
        _ ≤ q * 2 ^ e := Nat.mul_le_mul_right _ hq1
        _ ≤ q * 2 ^ e + r := Nat.le_add_right _ _
    · calc q * 2 ^ e + r < q * 2 ^ e + 2 ^ e := by omega
        _ = (q + 1) * 2 ^ e := by ring
        _ ≤ 2 ^ 53 * 2 ^ e := Nat.mul_le_mul_right _ hq2
        _ = 2 ^ (52 + e + 1) := by rw [← pow_add]; congr 1; omega
  have hs : max (Nat.log2 (q * 2 ^ e + r) - 52) 0 = e := by rw [hlog]; simp
  have hdiv : (q * 2 ^ e + r) / 2 ^ e = q := by
    rw [Nat.add_comm, Nat.add_mul_div_right _ _ hpos, Nat.div_eq_of_lt hr]; simp
  have hmod : (q * 2 ^ e + r) % 2 ^ e = r := by
    rw [Nat.add_comm, Nat.add_mul_mod_self_right, Nat.mod_eq_of_lt hr]
  unfold roundShift
  simp only [hs, hdiv, hmod, Nat.sub_zero]

/-- A value with at most 53 significant bits is left unchanged by rounding. -/
theorem roundShift_repr (m e : Nat) (hm : m ≤ 2 ^ 53) :
    roundShift (m * 2 ^ e) 0 = m * 2 ^ e := by
  have h2 : ∀ k : Nat, 0 < 2 ^ k := fun k => Nat.two_pow_pos _
  by_cases hn : m * 2 ^ e = 0
  · rw [hn]; simp [roundShift, Nat.log2]
  · have hdvd : 2 ^ (Nat.log2 (m * 2 ^ e) - 52) ∣ m * 2 ^ e := by
      by_cases hlt : m < 2 ^ 53
      · have : m * 2 ^ e < 2 ^ (53 + e) := by
          rw [pow_add]; exact Nat.mul_lt_mul_of_pos_right hlt (h2 e)
        have hl : Nat.log2 (m * 2 ^ e) < 53 + e := (Nat.log2_lt hn).2 this
        exact Dvd.dvd.mul_left (Nat.pow_dvd_pow 2 (by omega)) m
      · have hm2 : m = 2 ^ 53 := by omega
        have hl : Nat.log2 (m * 2 ^ e) = 53 + e := by
          apply log2_eq_of_bounds
          · rw [hm2, pow_add]
          · rw [hm2, ← pow_add]; exact Nat.pow_lt_pow_right (by norm_num) (by omega)
        rw [hl, hm2, ← pow_add]
        exact Nat.pow_dvd_pow 2 (by omega)
    unfold roundShift
    simp only [Nat.zero_le, max_eq_left, Nat.sub_zero]
    rw [Nat.mod_eq_zero_of_dvd hdvd]
    have hh : ¬ (0 > 2 ^ (Nat.log2 (m * 2 ^ e) - 52 - 1) ∨
        (0 = 2 ^ (Nat.log2 (m * 2 ^ e) - 52 - 1) ∧
          m * 2 ^ e / 2 ^ (Nat.log2 (m * 2 ^ e) - 52) % 2 = 1)) := by
      have := h2 (Nat.log2 (m * 2 ^ e) - 52 - 1)
      omega
    rw [if_neg hh]
    exact Nat.div_mul_cancel hdvd

/-- The result of rounding has at most 53 significant bits. -/
theorem roundShift_form (n : Nat) :
    ∃ m e, m ≤ 2 ^ 53 ∧ roundShift n 0 = m * 2 ^ e ∧ (n ≠ 0 → m ≠ 0) := by
  have h2 : ∀ k : Nat, 0 < 2 ^ k := fun k => Nat.two_pow_pos _
  have hq : n / 2 ^ (Nat.log2 n - 52) < 2 ^ 53 := by
    apply Nat.div_lt_of_lt_mul
    have h1 : n < 2 ^ (Nat.log2 n + 1) := Nat.lt_log2_self
    have h3 : 2 ^ (Nat.log2 n + 1) ≤ 2 ^ (Nat.log2 n - 52) * 2 ^ 53 := by
      rw [← pow_add]; exact Nat.pow_le_pow_right (by norm_num) (by omega)
    omega
  have hq0 : n ≠ 0 → n / 2 ^ (Nat.log2 n - 52) ≠ 0 := by
    intro hn
    have h1 : 2 ^ Nat.log2 n ≤ n := Nat.log2_self_le hn
    have h3 : 2 ^ (Nat.log2 n - 52) ≤ 2 ^ Nat.log2 n :=
      Nat.pow_le_pow_right (by norm_num) (by omega)
    have : 0 < n / 2 ^ (Nat.log2 n - 52) := Nat.div_pos (le_trans h3 h1) (h2 _)
    omega
  unfold roundShift
  simp only [Nat.zero_le, max_eq_left, Nat.sub_zero]
  split
  · exact ⟨n / 2 ^ (Nat.log2 n - 52) + 1, Nat.log2 n - 52, by omega, rfl,
      fun _ => Nat.succ_ne_zero _⟩
  · exact ⟨n / 2 ^ (Nat.log2 n - 52), Nat.log2 n - 52, by omega, rfl, hq0⟩

theorem roundShift_idem (n : Nat) : roundShift (roundShift n 0) 0 = roundShift n 0 := by
  obtain ⟨m, e, hm, h, _⟩ := roundShift_form n
  rw [h]; exact roundShift_repr m e hm

theorem roundShift_ne_zero {n : Nat} (hn : n ≠ 0) : roundShift n 0 ≠ 0 := by
  obtain ⟨m, e, _, h, hm0⟩ := roundShift_form n
  rw [h]
  have : 0 < 2 ^ e := Nat.two_pow_pos _
  exact Nat.mul_ne_zero (hm0 hn) (by omega)

/-- The sum of two non-negative doubles whose exact sum is `q * 2^e + r`. -/
theorem add_eval (k1 k2 q e r : Nat) (hsum : k1 + k2 = q * 2 ^ e + r) (hq1 : 2 ^ 52 ≤ q)
    (hq2 : q < 2 ^ 53) (hr : r < 2 ^ e) (he : e + 53 < 2098) :
    add (fin false k1) (fin false k2) =
      fin false
        (if r > 2 ^ (e - 1) ∨ (r = 2 ^ (e - 1) ∧ q % 2 = 1) then (q + 1) * 2 ^ e
         else q * 2 ^ e) := by
  have hbound : (q + 1) * 2 ^ e < 2 ^ 2098 := by
    calc (q + 1) * 2 ^ e ≤ 2 ^ 53 * 2 ^ e := Nat.mul_le_mul_right _ hq2
      _ = 2 ^ (53 + e) := by rw [pow_add]
      _ < 2 ^ 2098 := Nat.pow_lt_pow_right (by norm_num) (by omega)
  have hbound2 : q * 2 ^ e < 2 ^ 2098 :=
    lt_of_le_of_lt (Nat.mul_le_mul_right _ (Nat.le_succ q)) hbound
  simp only [add, if_true, rnd, hsum, roundShift_eval q e r hq1 hq2 hr]
  split <;> rw [if_neg (by omega)]

theorem settled_posZero : Settled posZero := by
  refine ⟨by decide, ?_⟩
  have h := roundShift_repr 0 0 (by norm_num)
  simp only [Nat.zero_mul] at h
  simp [posZero, add, rnd, h]

theorem settled_rnd (s : Bool) (n : Nat) (h : n ≠ 0 ∨ s = false) : Settled (rnd s n 0) := by
  unfold rnd
  split
  · exact ⟨by simp [negZero], by simp [add, posZero]⟩
  · rename_i hlt
    have hid := roundShift_idem n
    refine ⟨?_, ?_⟩
    · intro hz
      simp only [negZero, fin.injEq] at hz
      rcases h with h | h
      · exact roundShift_ne_zero h hz.2
      · rw [h] at hz; exact absurd hz.1 (by decide)
    · cases s with
      | false => simp [add, posZero, rnd, hid, hlt]
      | true =>
        have hne : roundShift n 0 ≠ 0 := by
          rcases h with h | h
          · exact roundShift_ne_zero h
          · exact absurd h (by decide)
        have hpos : 0 < roundShift n 0 := Nat.pos_of_ne_zero hne
        simp [add, posZero, rnd, hid, hlt, hne, hpos]

theorem settled_add (a x : Binary64) (ha : Settled a) : Settled (add a x) := by
  cases a with
  | nan => cases x <;> exact ⟨by simp [add, negZero], by simp [add, posZero]⟩
  | inf sa =>
    cases x with
    | nan => exact ⟨by simp [add, negZero], by simp [add, posZero]⟩
    | inf sb =>
      by_cases hs : sa = sb
      · exact ⟨by simp [add, negZero, hs], by simp [add, posZero, hs]⟩
      · exact ⟨by simp [add, negZero, hs], by simp [add, posZero, hs]⟩
    | fin sb kb => exact ⟨by simp [add, negZero], by simp [add, posZero]⟩
  | fin s1 k1 =>
    cases x with
    | nan => exact ⟨by simp [add, negZero], by simp [add, posZero]⟩
    | inf sb => exact ⟨by simp [add, negZero], by simp [add, posZero]⟩
    | fin s2 k2 =>
      simp only [add]
      split
      · apply settled_rnd
        by_cases hk : k1 + k2 = 0
        · right
          cases s1 with
          | false => rfl
          | true =>
            exfalso
            apply ha.1
            have : k1 = 0 := by omega
            simp [negZero, this]
        · left; exact hk
      · split
        · exact settled_posZero
        · split
          · exact settled_rnd _ _ (Or.inl (by omega))
          · exact settled_rnd _ _ (Or.inl (by omega))

end Binary64

/-! ## Properties of the aggregation -/

/-- An operation spelled with U+0130 counts as a write, one spelled with other letters as
neither. -/
theorem lowersTo_examples :
    lowersTo "WRİTE" "write" = true ∧ lowersTo "Read" "read" = true ∧
      lowersTo "Sync" "read" = false ∧ lowersTo "Sync" "write" = false ∧
      blkTotals [{ Op := "WRİTE", Value := 7 }, { Op := "Read", Value := 5 },
        { Op := "Sync", Value := 3 }] = (5, 7) := by
  decide

theorem addU64_right_comm (a b c : Nat) : addU64 (addU64 a b) c = addU64 (addU64 a c) b := by
  unfold addU64; omega

theorem foldl_addU64_lt (xs : List Nat) (a : Nat) (ha : a < 2 ^ 64) :
    xs.foldl addU64 a < 2 ^ 64 := by
  induction xs generalizing a with
  | nil => simpa using ha
  | cons x xs ih =>
    simp only [List.foldl_cons]
    exact ih _ (Nat.mod_lt _ (by norm_num))

/-- The loop variables after the loop, field by field. -/
theorem foldl_step_eq {F : Type} [GoFloat F] (l : List (PerContainerMetrics F))
    (t : Totals F) :
    l.foldl Totals.step t =
      { totalCPU := (l.map (fun m => m.CPU)).foldl GoFloat.add t.totalCPU
        totalMem := (l.map (fun m => m.Mem)).foldl GoFloat.add t.totalMem
        totalNet :=
          { Rx := (l.map (fun m => m.Net.Rx)).foldl GoFloat.add t.totalNet.Rx
            Tx := (l.map (fun m => m.Net.Tx)).foldl GoFloat.add t.totalNet.Tx }
        totalBlk :=
          { Read := (l.map (fun m => m.Blk.Read)).foldl addU64 t.totalBlk.Read
            Write := (l.map (fun m => m.Blk.Write)).foldl addU64 t.totalBlk.Write }
        perContainer := t.perContainer ++ l } := by
  induction l generalizing t with
  | nil => simp
  | cons m l ih => simp [ih, Totals.step]

/-- The result of `aggregate`, field by field. -/
theorem aggregate_eq {F : Type} [GoFloat F] (l : List (PerContainerMetrics F)) (n : Int) :
    aggregate l n =
      { TotalCPU := GoFloat.div (sumF (l.map (fun m => m.CPU))) (GoFloat.ofInt n)
        TotalMem := sumF (l.map (fun m => m.Mem))
        TotalNet := { Rx := sumF (l.map (fun m => m.Net.Rx)),
                      Tx := sumF (l.map (fun m => m.Net.Tx)) }
        TotalBlk := { Read := sumU64 (l.map (fun m => m.Blk.Read)),
                      Write := sumU64 (l.map (fun m => m.Blk.Write)) }
        PerContainer := l } := by
  simp [aggregate, foldl_step_eq, Totals.init, sumF, sumU64]

theorem sumF_drop_zero {α : Type} (f : α → Binary64) (p : α → Bool) (l : List α)
    (hp : ∀ m ∈ l, p m = false → f m = Binary64.posZero) (acc : Binary64)
    (hacc : Binary64.Settled acc) :
    (l.map f).foldl Binary64.add acc = ((l.filter p).map f).foldl Binary64.add acc := by
  induction l generalizing acc with
  | nil => rfl
  | cons m l ih =>
    have hl : ∀ x ∈ l, p x = false → f x = Binary64.posZero :=
      fun x hx => hp x (List.mem_cons_of_mem _ hx)
    by_cases hm : p m = true
    · simp only [List.map_cons, List.foldl_cons, List.filter_cons, hm, if_true]
      exact ih hl _ (Binary64.settled_add _ _ hacc)
    · have hm2 : p m = false := by simpa using hm
      have hz := hp m (List.mem_cons_self _ _) hm2
      simp only [List.map_cons, List.foldl_cons, List.filter_cons, hm2, hz, hacc.2]
      exact ih hl _ hacc

theorem sumU64_drop_zero {α : Type} (f : α → Nat) (p : α → Bool) (l : List α)
    (hp : ∀ m ∈ l, p m = false → f m = 0) (acc : Nat) (hacc : acc < 2 ^ 64) :
    (l.map f).foldl addU64 acc = ((l.filter p).map f).foldl addU64 acc := by
  induction l generalizing acc with
  | nil => rfl
  | cons m l ih =>
    have hl : ∀ x ∈ l, p x = false → f x = 0 :=
      fun x hx => hp x (List.mem_cons_of_mem _ hx)
    by_cases hm : p m = true
    · simp only [List.map_cons, List.foldl_cons, List.filter_cons, hm, if_true]
      exact ih hl _ (Nat.mod_lt _ (by norm_num))
    · have hm2 : p m = false := by simpa using hm
      have hz := hp m (List.mem_cons_self _ _) hm2
      have h0 : addU64 acc 0 = acc := by unfold addU64; omega
      simp only [List.map_cons, List.foldl_cons, List.filter_cons, hm2, hz, h0]
      exact ih hl _ hacc

/-- Claim C1: whatever values are received and whatever the core count (in particular every
count of at least 1), `GetOverallMetrics` sets `TotalCPU` to the sum of the per-container
CPU percentages, taken in the order of arrival, divided by `float64(numCores)`. -/
theorem GetOverallMetrics_totalCPU {F : Type} [GoFloat F] (containers : List Container)
    (received : List (PerContainerMetrics F)) (numCores : Int) :
    (GetOverallMetrics (.ok containers) received numCores).1.TotalCPU =
      GoFloat.div (sumF (received.map (fun m => m.CPU))) (GoFloat.ofInt numCores) := by
  simp [GetOverallMetrics, aggregate_eq]

theorem add_zero_d01 : Binary64.add Binary64.posZero d01 = d01 := by
  unfold Binary64.posZero d01
  rw [Binary64.add_eval 0 (3602879701896397 * 2 ^ 1019) 7205759403792794 1018 0 (by norm_num) (by norm_num) (by norm_num)
    (by norm_num) (by norm_num)]
  norm_num

theorem add_d01_d02 :
    Binary64.add d01 d02 = .fin false (5404319552844596 * 2 ^ 1020) := by
  unfold d01 d02
  rw [Binary64.add_eval (3602879701896397 * 2 ^ 1019) (3602879701896397 * 2 ^ 1020) 5404319552844595 1020 (2 ^ 1019) (by norm_num) (by norm_num)
    (by norm_num) (by norm_num) (by norm_num)]
  norm_num

theorem add_d01_d02_d03 :
    Binary64.add (.fin false (5404319552844596 * 2 ^ 1020)) d03 =
      .fin false (5404319552844596 * 2 ^ 1021) := by
  unfold d03
  rw [Binary64.add_eval (5404319552844596 * 2 ^ 1020) (5404319552844595 * 2 ^ 1020) 5404319552844595 1021
    (2 ^ 1020) (by norm_num) (by norm_num)
    (by norm_num) (by norm_num) (by norm_num)]
  norm_num

theorem add_zero_d03 : Binary64.add Binary64.posZero d03 = d03 := by
  unfold Binary64.posZero d03
  rw [Binary64.add_eval 0 (5404319552844595 * 2 ^ 1020) 5404319552844595 1020 0 (by norm_num) (by norm_num) (by norm_num)
    (by norm_num) (by norm_num)]
  norm_num

theorem add_d03_d02 :
    Binary64.add d03 d02 = .fin false (4503599627370496 * 2 ^ 1021) := by
  unfold d03 d02
  rw [Binary64.add_eval (5404319552844595 * 2 ^ 1020) (3602879701896397 * 2 ^ 1020) 4503599627370496 1021 0 (by norm_num) (by norm_num)
    (by norm_num) (by norm_num) (by norm_num)]
  norm_num

theorem add_d03_d02_d01 :
    Binary64.add (.fin false (4503599627370496 * 2 ^ 1021)) d01 =
      .fin false (5404319552844595 * 2 ^ 1021) := by
  unfold d01
  rw [Binary64.add_eval (4503599627370496 * 2 ^ 1021) (3602879701896397 * 2 ^ 1019) 5404319552844595 1021
    (2 ^ 1019) (by norm_num) (by norm_num)
    (by norm_num) (by norm_num) (by norm_num)]
  norm_num

theorem memABC_perm : memABC.Perm memCBA := by
  unfold memABC memCBA
  exact (List.reverse_perm _).symm

theorem goFloat_add_eq (a b : Binary64) : GoFloat.add a b = Binary64.add a b := rfl

theorem goFloat_zero_eq : (GoFloat.zero : Binary64) = Binary64.posZero := rfl

theorem totalMem_three (cs : List Container) (ia ib ic : String) (a b c : Binary64) :
    (GetOverallMetrics (.ok cs) [memOnly ia a, memOnly ib b, memOnly ic c] 1).1.TotalMem =
      Binary64.add (Binary64.add (Binary64.add Binary64.posZero a) b) c := by
  simp only [GetOverallMetrics, aggregate_eq, memOnly, sumF, List.map_cons,
    List.map_nil, List.foldl_cons, List.foldl_nil, goFloat_add_eq, goFloat_zero_eq]

/-- Claim C2, counterexample: the memory percentages 0.1, 0.2 and 0.3 received in the order
a, b, c give `TotalMem = 0.6000000000000001`, and received in the order c, b, a they give
`TotalMem = 0.6`: the `float64` totals depend on the order of arrival. -/
theorem GetOverallMetrics_totalMem_order_dependent :
    memABC.Perm memCBA ∧
      (GetOverallMetrics (.ok [cA, cB, cC]) memABC 1).1.TotalMem =
        .fin false (5404319552844596 * 2 ^ 1021) ∧
      (GetOverallMetrics (.ok [cA, cB, cC]) memCBA 1).1.TotalMem =
        .fin false (5404319552844595 * 2 ^ 1021) ∧
      (GetOverallMetrics (.ok [cA, cB, cC]) memABC 1).1.TotalMem ≠
        (GetOverallMetrics (.ok [cA, cB, cC]) memCBA 1).1.TotalMem := by
  have h1 : (GetOverallMetrics (.ok [cA, cB, cC]) memABC 1).1.TotalMem =
      .fin false (5404319552844596 * 2 ^ 1021) := by
    rw [memABC, totalMem_three, add_zero_d01, add_d01_d02, add_d01_d02_d03]
  have h2 : (GetOverallMetrics (.ok [cA, cB, cC]) memCBA 1).1.TotalMem =
      .fin false (5404319552844595 * 2 ^ 1021) := by
    rw [memCBA, totalMem_three, add_zero_d03, add_d03_d02, add_d03_d02_d01]
  refine ⟨memABC_perm, h1, h2, ?_⟩
  rw [h1, h2]
  intro h
  have h3 := (Binary64.fin.inj h).2
  have h4 : (0 : Nat) < 2 ^ 1021 := Nat.two_pow_pos _
  have h5 := Nat.eq_of_mul_eq_mul_right h4 h3
  omega

theorem foldl_map_perm {α β : Type} (g : β → β → β) (f : α → β)
    (hg : ∀ a b c : β, g (g a b) c = g (g a c) b) {l1 l2 : List α} (h : l1.Perm l2) (z : β) :
    (l1.map f).foldl g z = (l2.map f).foldl g z :=
  (h.map f).foldl_eq' (fun x _ y _ w => hg w x y) z

theorem goFloat_add_fun : (GoFloat.add : Binary64 → Binary64 → Binary64) = Binary64.add := rfl

/-- Doubles that are whole multiples of one unit and add up to at most `2^53` units are
summed without rounding, from any exact running total. -/
theorem exact_foldl (e : Nat) (he : e ≤ 2044) :
    ∀ (xs : List Binary64) (a : Nat),
      (∀ x ∈ xs, ∃ m, x = Binary64.fin false (m * 2 ^ e)) →
      a * 2 ^ e + (xs.map Binary64.magnitude).sum ≤ 2 ^ 53 * 2 ^ e →
      xs.foldl Binary64.add (Binary64.fin false (a * 2 ^ e)) =
        Binary64.fin false (a * 2 ^ e + (xs.map Binary64.magnitude).sum) := by
  have hpos : 0 < 2 ^ e := Nat.two_pow_pos _
  intro xs
  induction xs with
  | nil => intro a _ _; simp
  | cons x rest ih =>
    intro a hx hsum
    obtain ⟨m, rfl⟩ := hx _ (List.mem_cons_self _ _)
    simp only [List.map_cons, Binary64.magnitude, List.sum_cons] at hsum ⊢
    have ham : (a + m) * 2 ^ e ≤ 2 ^ 53 * 2 ^ e := by
      rw [Nat.add_mul]; omega
    have ham2 : a + m ≤ 2 ^ 53 := Nat.le_of_mul_le_mul_right ham hpos
    have hlt : (a + m) * 2 ^ e < 2 ^ 2098 := by
      calc (a + m) * 2 ^ e ≤ 2 ^ 53 * 2 ^ e := ham
        _ = 2 ^ (53 + e) := by rw [pow_add]
        _ < 2 ^ 2098 := Nat.pow_lt_pow_right (by norm_num) (by omega)
    have hadd : Binary64.add (Binary64.fin false (a * 2 ^ e)) (Binary64.fin false (m * 2 ^ e)) =
        Binary64.fin false ((a + m) * 2 ^ e) := by
      simp only [Binary64.add, if_true, Binary64.rnd, ← Nat.add_mul,
        Binary64.roundShift_repr (a + m) e ham2, if_neg (not_le.2 hlt)]
    rw [List.foldl_cons, hadd, ih (a + m) (fun y hy => hx y (List.mem_cons_of_mem _ hy))
      (by rw [Nat.add_mul]; omega), Nat.add_mul, Nat.add_assoc]

/-- The total of such values is their exact sum, whatever the order of arrival. -/
theorem sumF_exact_perm (e : Nat) (xs ys : List Binary64) (hx : Binary64.ExactIn e xs)
    (h : xs.Perm ys) :
    sumF xs = Binary64.fin false (xs.map Binary64.magnitude).sum ∧ sumF ys = sumF xs := by
  obtain ⟨he, ms, rfl, hms⟩ := hx
  have hmem : ∀ x ∈ ms.map (fun m => Binary64.fin false (m * 2 ^ e)),
      ∃ m, x = Binary64.fin false (m * 2 ^ e) := by
    intro x hxm
    obtain ⟨m, _, rfl⟩ := List.mem_map.1 hxm
    exact ⟨m, rfl⟩
  have hmag : ((ms.map (fun m => Binary64.fin false (m * 2 ^ e))).map Binary64.magnitude).sum =
      ms.sum * 2 ^ e := by
    clear hms hmem h
    induction ms with
    | nil => simp
    | cons m rest ih =>
      simp only [List.map_cons, List.sum_cons, Binary64.magnitude] at ih ⊢
      rw [ih, Nat.add_mul]
  have hbound : 0 * 2 ^ e +
      ((ms.map (fun m => Binary64.fin false (m * 2 ^ e))).map Binary64.magnitude).sum ≤
        2 ^ 53 * 2 ^ e := by
    rw [hmag, Nat.zero_mul, Nat.zero_add]
    exact Nat.mul_le_mul_right _ hms
  have hysum : (ys.map Binary64.magnitude).sum =
      ((ms.map (fun m => Binary64.fin false (m * 2 ^ e))).map Binary64.magnitude).sum :=
    ((h.map Binary64.magnitude).sum_eq).symm
  have h1 := exact_foldl e he _ 0 hmem hbound
  have h2 := exact_foldl e he ys 0 (fun y hy => hmem y (h.mem_iff.2 hy)) (by rw [hysum]; exact hbound)
  simp only [Nat.zero_mul, Nat.zero_add] at h1 h2
  have hz : (GoFloat.zero : Binary64) = Binary64.fin false 0 := rfl
  refine ⟨?_, ?_⟩
  · simp only [sumF, hz, goFloat_add_fun]
    exact h1
  · simp only [sumF, hz, goFloat_add_fun]
    rw [h1, h2, hysum]


/-- Claim C2, as amended: for every permutation of the order of arrival the `uint64` totals
`TotalBlk.Read` and `TotalBlk.Write` are the same and `PerContainer` holds the same entries.
Each of the `float64` totals `TotalCPU`, `TotalMem`, `TotalNet.Rx` and `TotalNet.Tx` is the
same whenever no addition of the values of its field rounds: when these values are
non-negative whole multiples of one unit `2^(e - 1074)` adding up to at most `2^53` units. -/
theorem GetOverallMetrics_perm (containers : List Container)
    (l1 l2 : List (PerContainerMetrics Binary64)) (numCores : Int) (h : l1.Perm l2) :
    (GetOverallMetrics (.ok containers) l1 numCores).1.TotalBlk =
        (GetOverallMetrics (.ok containers) l2 numCores).1.TotalBlk ∧
      (GetOverallMetrics (.ok containers) l1 numCores).1.PerContainer.Perm
        (GetOverallMetrics (.ok containers) l2 numCores).1.PerContainer ∧
      (∀ e, Binary64.ExactIn e (l1.map (fun m => m.CPU)) →
        (GetOverallMetrics (.ok containers) l1 numCores).1.TotalCPU =
          (GetOverallMetrics (.ok containers) l2 numCores).1.TotalCPU) ∧
      (∀ e, Binary64.ExactIn e (l1.map (fun m => m.Mem)) →
        (GetOverallMetrics (.ok containers) l1 numCores).1.TotalMem =
          (GetOverallMetrics (.ok containers) l2 numCores).1.TotalMem) ∧
      (∀ e, Binary64.ExactIn e (l1.map (fun m => m.Net.Rx)) →
        (GetOverallMetrics (.ok containers) l1 numCores).1.TotalNet.Rx =
          (GetOverallMetrics (.ok containers) l2 numCores).1.TotalNet.Rx) ∧
      (∀ e, Binary64.ExactIn e (l1.map (fun m => m.Net.Tx)) →
        (GetOverallMetrics (.ok containers) l1 numCores).1.TotalNet.Tx =
          (GetOverallMetrics (.ok containers) l2 numCores).1.TotalNet.Tx) := by
  simp only [GetOverallMetrics, aggregate_eq]
  refine ⟨?_, h, fun e he => ?_, fun e he => ?_, fun e he => ?_, fun e he => ?_⟩
  · simp only [sumU64]
    rw [foldl_map_perm addU64 _ addU64_right_comm h, foldl_map_perm addU64 _ addU64_right_comm h]
  · rw [(sumF_exact_perm e _ _ he (h.map _)).2]
  · exact (sumF_exact_perm e _ _ he (h.map _)).2.symm
  · exact (sumF_exact_perm e _ _ he (h.map _)).2.symm
  · exact (sumF_exact_perm e _ _ he (h.map _)).2.symm

theorem exactABC_perm : exactABC.Perm exactCBA := by
  unfold exactABC exactCBA
  exact (List.reverse_perm _).symm

/-- Claim C2, witness: three entries with the values 0.5, 0.25 and 1.75 in every `float64`
field and block IO counters that are not zero, received in the orders a, b, c and c, b, a. -/
theorem GetOverallMetrics_perm_witness :
    exactABC.Perm exactCBA ∧ exactABC ≠ exactCBA ∧
      Binary64.ExactIn 1072 (exactABC.map (fun m => m.CPU)) ∧
      Binary64.ExactIn 1072 (exactABC.map (fun m => m.Mem)) ∧
      (GetOverallMetrics (.ok [cA, cB, cC]) exactABC 4).1.TotalBlk =
        (GetOverallMetrics (.ok [cA, cB, cC]) exactCBA 4).1.TotalBlk ∧
      (GetOverallMetrics (.ok [cA, cB, cC]) exactABC 4).1.TotalBlk =
        { Read := 33, Write := 39 } ∧
      (GetOverallMetrics (.ok [cA, cB, cC]) exactABC 4).1.TotalCPU =
        (GetOverallMetrics (.ok [cA, cB, cC]) exactCBA 4).1.TotalCPU ∧
      (GetOverallMetrics (.ok [cA, cB, cC]) exactABC 4).1.TotalMem =
        (GetOverallMetrics (.ok [cA, cB, cC]) exactCBA 4).1.TotalMem :=
  ⟨exactABC_perm, by decide, ⟨by decide, [2, 1, 7], rfl, by decide⟩,
    ⟨by decide, [1, 7, 2], rfl, by decide⟩,
    (GetOverallMetrics_perm [cA, cB, cC] exactABC exactCBA 4 exactABC_perm).1,
    by decide,
    (GetOverallMetrics_perm [cA, cB, cC] exactABC exactCBA 4 exactABC_perm).2.2.1 1072
      ⟨by decide, [2, 1, 7], rfl, by decide⟩,
    (GetOverallMetrics_perm [cA, cB, cC] exactABC exactCBA 4 exactABC_perm).2.2.2.1 1072
      ⟨by decide, [1, 7, 2], rfl, by decide⟩⟩

theorem extract_ne_empty (s : String) (h : ¬ s.utf8ByteSize < 10) : s.extract 0 ⟨10⟩ ≠ "" := by
  obtain ⟨data⟩ := s
  cases data with
  | nil => exact absurd (by decide) h
  | cons c cs =>
    intro he
    have := congrArg String.data he
    simp [String.extract, String.extract.go₁, String.extract.go₂] at this
    exact absurd this (by decide)

theorem getMetrics_failed {C : Type} (getCPUPercent : StatsJSON C → Binary64) (c : Container)
    (r : FetchResult C) (h : r.failed = true) :
    getMetrics getCPUPercent c r = some (PerContainerMetrics.zeroValue Binary64) := by
  cases r with
  | statsError => rfl
  | decodeError => rfl
  | ok data => simp [FetchResult.failed] at h

theorem getMetrics_ok_ne_zero {C : Type} (getCPUPercent : StatsJSON C → Binary64)
    (c : Container) (r : FetchResult C) (m : PerContainerMetrics Binary64)
    (h : r.failed = false) (hm : getMetrics getCPUPercent c r = some m) :
    m ≠ PerContainerMetrics.zeroValue Binary64 := by
  cases r with
  | statsError => simp [FetchResult.failed] at h
  | decodeError => simp [FetchResult.failed] at h
  | ok data =>
    simp only [getMetrics] at hm
    split at hm
    · exact absurd hm (by simp)
    · rename_i hlen
      intro hz
      have hid := congrArg PerContainerMetrics.ID ((Option.some.inj hm).trans hz)
      exact extract_ne_empty c.ID hlen hid

theorem sent_filter {C : Type} (getCPUPercent : StatsJSON C → Binary64)
    (stats : Container → FetchResult C) (containers : List Container)
    (sent : List (PerContainerMetrics Binary64))
    (hs : Sent getCPUPercent stats containers sent) :
    realEntries sent =
      (containers.filter (fun c => !(stats c).failed)).filterMap
        (fun c => getMetrics getCPUPercent c (stats c)) := by
  unfold Sent at hs
  induction hs with
  | nil => rfl
  | cons hcm _ ih =>
    rename_i c m cs ms hrest
    unfold realEntries at ih ⊢
    by_cases hf : (stats c).failed = true
    · have hz := getMetrics_failed getCPUPercent c (stats c) hf
      have hm : m = PerContainerMetrics.zeroValue Binary64 :=
        Option.some.inj (hcm.symm.trans hz)
      simpa [List.filter_cons, hf, hm] using ih
    · have hf2 : (stats c).failed = false := by simpa using hf
      have hne := getMetrics_ok_ne_zero getCPUPercent c (stats c) m hf2 hcm
      simpa [List.filter_cons, hf2, hne, hcm] using ih

theorem sumF_realEntries (f : PerContainerMetrics Binary64 → Binary64)
    (hf : f (PerContainerMetrics.zeroValue Binary64) = Binary64.posZero)
    (received : List (PerContainerMetrics Binary64)) :
    sumF (received.map f) = sumF ((realEntries received).map f) := by
  refine sumF_drop_zero f _ received ?_ Binary64.posZero Binary64.settled_posZero
  intro m _ hm
  have : m = PerContainerMetrics.zeroValue Binary64 := by simpa using hm
  rw [this, hf]

theorem sumU64_realEntries (f : PerContainerMetrics Binary64 → Nat)
    (hf : f (PerContainerMetrics.zeroValue Binary64) = 0)
    (received : List (PerContainerMetrics Binary64)) :
    sumU64 (received.map f) = sumU64 ((realEntries received).map f) := by
  refine sumU64_drop_zero f _ received ?_ 0 (by norm_num)
  intro m _ hm
  have : m = PerContainerMetrics.zeroValue Binary64 := by simpa using hm
  rw [this, hf]

/-- Claim C3: a container whose fetch fails (stats call or decoding) contributes the zero
value, whose six numeric fields are zero; `PerContainer` has one entry per enumerated
container; the entries other than those zero values are exactly the entries of the
containers whose fetch succeeded, and every total equals the total over these alone. -/
theorem GetOverallMetrics_failed_fetch {C : Type} (getCPUPercent : StatsJSON C → Binary64)
    (stats : Container → FetchResult C) (containers : List Container)
    (sent received : List (PerContainerMetrics Binary64)) (numCores : Int)
    (hs : Sent getCPUPercent stats containers sent) (hp : received.Perm sent) :
    (∀ c, (stats c).failed = true →
        getMetrics getCPUPercent c (stats c) = some (PerContainerMetrics.zeroValue Binary64)) ∧
      ((PerContainerMetrics.zeroValue Binary64).CPU = Binary64.posZero ∧
        (PerContainerMetrics.zeroValue Binary64).Mem = Binary64.posZero ∧
        (PerContainerMetrics.zeroValue Binary64).Net.Rx = Binary64.posZero ∧
        (PerContainerMetrics.zeroValue Binary64).Net.Tx = Binary64.posZero ∧
        (PerContainerMetrics.zeroValue Binary64).Blk.Read = 0 ∧
        (PerContainerMetrics.zeroValue Binary64).Blk.Write = 0) ∧
      (GetOverallMetrics (.ok containers) received numCores).1.PerContainer.length =
        containers.length ∧
      (realEntries received).Perm
        ((containers.filter (fun c => !(stats c).failed)).filterMap
          (fun c => getMetrics getCPUPercent c (stats c))) ∧
      (GetOverallMetrics (.ok containers) received numCores).1.TotalCPU =
        (GetOverallMetrics (.ok containers) (realEntries received) numCores).1.TotalCPU ∧
      (GetOverallMetrics (.ok containers) received numCores).1.TotalMem =
        (GetOverallMetrics (.ok containers) (realEntries received) numCores).1.TotalMem ∧
      (GetOverallMetrics (.ok containers) received numCores).1.TotalNet =
        (GetOverallMetrics (.ok containers) (realEntries received) numCores).1.TotalNet ∧
      (GetOverallMetrics (.ok containers) received numCores).1.TotalBlk =
        (GetOverallMetrics (.ok containers) (realEntries received) numCores).1.TotalBlk := by
  refine ⟨fun c hc => getMetrics_failed getCPUPercent c (stats c) hc,
    ⟨rfl, rfl, rfl, rfl, rfl, rfl⟩, ?_, ?_, ?_, ?_, ?_, ?_⟩
  · simp only [GetOverallMetrics, aggregate_eq]
    rw [hp.length_eq]
    exact (List.Forall₂.length_eq hs).symm
  · rw [← sent_filter getCPUPercent stats containers sent hs]
    exact hp.filter _
  · simp only [GetOverallMetrics, aggregate_eq]
    rw [sumF_realEntries (fun m => m.CPU) rfl received]
  · simp only [GetOverallMetrics, aggregate_eq]
    rw [sumF_realEntries (fun m => m.Mem) rfl received]
  · simp only [GetOverallMetrics, aggregate_eq]
    rw [sumF_realEntries (fun m => m.Net.Rx) rfl received,
      sumF_realEntries (fun m => m.Net.Tx) rfl received]
  · simp only [GetOverallMetrics, aggregate_eq]
    rw [sumU64_realEntries (fun m => m.Blk.Read) rfl received,
      sumU64_realEntries (fun m => m.Blk.Write) rfl received]

theorem sent_failB : Sent cpu01 failB [cA, cB, cC] [entryOf cA, entryOf cB, entryOf cC] := by
  unfold Sent
  refine List.Forall₂.cons ?_ (List.Forall₂.cons ?_ (List.Forall₂.cons ?_ List.Forall₂.nil))
  · have h : ¬ (cA.ID.utf8ByteSize < 10) := by decide
    have hne : cA.ID ≠ "bbbbbbbbbb" := by decide
    simp only [entryOf, failB, if_neg hne, getMetrics, if_neg h, Option.getD_some]
  · have he : cB.ID = "bbbbbbbbbb" := by decide
    simp only [entryOf, failB, if_pos he, getMetrics, Option.getD_some]
  · have h : ¬ (cC.ID.utf8ByteSize < 10) := by decide
    have hne : cC.ID ≠ "bbbbbbbbbb" := by decide
    simp only [entryOf, failB, if_neg hne, getMetrics, if_neg h, Option.getD_some]

/-- Claim C3, witness: three containers of which the second fails; the three values arrive
in reverse order. There are three entries, and the totals are those of the real ones. -/
theorem GetOverallMetrics_failed_fetch_witness :
    Sent cpu01 failB [cA, cB, cC] [entryOf cA, entryOf cB, entryOf cC] ∧
      [entryOf cC, entryOf cB, entryOf cA].Perm [entryOf cA, entryOf cB, entryOf cC] ∧
      (GetOverallMetrics (.ok [cA, cB, cC]) [entryOf cC, entryOf cB, entryOf cA]
        4).1.PerContainer.length = [cA, cB, cC].length ∧
      (GetOverallMetrics (.ok [cA, cB, cC]) [entryOf cC, entryOf cB, entryOf cA] 4).1.TotalCPU =
        (GetOverallMetrics (.ok [cA, cB, cC])
          (realEntries [entryOf cC, entryOf cB, entryOf cA]) 4).1.TotalCPU :=
  ⟨sent_failB, List.reverse_perm [entryOf cA, entryOf cB, entryOf cC],
    (GetOverallMetrics_failed_fetch cpu01 failB [cA, cB, cC] _ _ 4 sent_failB
      (List.reverse_perm [entryOf cA, entryOf cB, entryOf cC])).2.2.1,
    (GetOverallMetrics_failed_fetch cpu01 failB [cA, cB, cC] _ _ 4 sent_failB
      (List.reverse_perm [entryOf cA, entryOf cB, entryOf cC])).2.2.2.2.1⟩

/-! ## Properties of the table widget -/

theorem wrapInt_range (x : Int) :
    -9223372036854775808 ≤ wrapInt x ∧ wrapInt x < 9223372036854775808 := by
  unfold wrapInt; omega

theorem calcPos_rows (t : Table) : t.calcPos.Rows = t.Rows ∧ t.calcPos.InnerDy = t.InnerDy := by
  unfold Table.calcPos
  simp only []
  split_ifs <;> simp

theorem calcPos_selectedRow (t : Table) (h : 1 ≤ t.Rows.length) :
    0 ≤ t.calcPos.SelectedRow ∧ t.calcPos.SelectedRow < (t.Rows.length : Int) := by
  have h1 : (1 : Int) ≤ (t.Rows.length : Int) := by exact_mod_cast h
  unfold Table.calcPos
  dsimp only
  split_ifs <;> dsimp only at * <;> omega

theorem calcPos_window (t : Table) (h : 1 ≤ t.Rows.length)
    (hlen : (t.Rows.length : Int) < 9223372036854775808)
    (ht1 : -9223372036854775808 ≤ t.TopRow) (ht2 : t.TopRow < (t.Rows.length : Int))
    (hd1 : 2 ≤ t.InnerDy) (hd2 : t.InnerDy < 9223372036854775808) :
    t.calcPos.TopRow ≤ t.calcPos.SelectedRow ∧
      t.calcPos.SelectedRow ≤ t.calcPos.TopRow + (t.InnerDy - 1) - 1 := by
  have h1 : (1 : Int) ≤ (t.Rows.length : Int) := by exact_mod_cast h
  unfold Table.calcPos wrapInt
  dsimp only
  split_ifs <;> dsimp only at * <;> omega

theorem calcPos_with_selectedRow (t : Table) (x : Int) (h : 1 ≤ t.Rows.length) :
    0 ≤ (Table.calcPos { t with SelectedRow := x }).SelectedRow ∧
      (Table.calcPos { t with SelectedRow := x }).SelectedRow <
        ((Table.calcPos { t with SelectedRow := x }).Rows.length : Int) := by
  rw [(calcPos_rows _).1]
  exact calcPos_selectedRow { t with SelectedRow := x } h

/-- Claim C4, counterexample: a table of one row whose `SelectedRow` is 5 (the rows were
replaced by a shorter list); `ScrollToIndex(7)` returns at its guard and leaves the
selection at 5, outside the table. -/
theorem scrollToIndex_leaves_selection_out_of_range :
    1 ≤ (Table.mk4 [["a"]] 5 0 3).Rows.length ∧
      ((Table.mk4 [["a"]] 5 0 3).scroll (.toIndex 7)).SelectedRow = 5 ∧
      ¬ (0 ≤ ((Table.mk4 [["a"]] 5 0 3).scroll (.toIndex 7)).SelectedRow ∧
        ((Table.mk4 [["a"]] 5 0 3).scroll (.toIndex 7)).SelectedRow <
          (((Table.mk4 [["a"]] 5 0 3).scroll (.toIndex 7)).Rows.length : Int)) := by
  decide

/-- Claim C4, as amended: for every table with at least one row, whatever `SelectedRow` and
`TopRow` were, after any scroll operation - `ScrollToIndex` with an index inside the table -
`0 <= SelectedRow < len(Rows)`; `ScrollToIndex` with an index outside the table leaves the
table as it was. -/
theorem scroll_selectedRow_in_range (t : Table) (op : Scroll) (h : 1 ≤ t.Rows.length)
    (hidx : ∀ idx, op = .toIndex idx → 0 ≤ idx ∧ idx < (t.Rows.length : Int)) :
    (0 ≤ (t.scroll op).SelectedRow ∧
        (t.scroll op).SelectedRow < ((t.scroll op).Rows.length : Int)) ∧
      ∀ idx : Int, idx < 0 ∨ (t.Rows.length : Int) ≤ idx → t.scroll (.toIndex idx) = t := by
  refine ⟨?_, ?_⟩
  · cases op with
    | toIndex idx =>
      have hi := hidx idx rfl
      have hg : ¬ (idx < 0 ∨ idx ≥ (t.Rows.length : Int)) := by omega
      simp only [Table.scroll, Table.ScrollToIndex, if_neg hg]
      exact calcPos_with_selectedRow t idx h
    | _ => exact calcPos_with_selectedRow t _ h
  · intro idx hi
    have hg : idx < 0 ∨ idx ≥ (t.Rows.length : Int) := by omega
    simp only [Table.scroll, Table.ScrollToIndex, if_pos hg]

/-- Claim C4, witness: scrolling down in a table of two rows whose selection was 5. -/
theorem scroll_selectedRow_in_range_witness :
    1 ≤ (Table.mk4 [["a"], ["b"]] 5 0 3).Rows.length ∧
      0 ≤ ((Table.mk4 [["a"], ["b"]] 5 0 3).scroll .down).SelectedRow ∧
      ((Table.mk4 [["a"], ["b"]] 5 0 3).scroll .down).SelectedRow <
        (((Table.mk4 [["a"], ["b"]] 5 0 3).scroll .down).Rows.length : Int) :=
  ⟨by decide,
    (scroll_selectedRow_in_range (Table.mk4 [["a"], ["b"]] 5 0 3) .down (by decide)
      (fun idx hop => by cases hop)).1⟩

theorem calcPos_with_window (t : Table) (x : Int) (hint : t.IntFields) (h : 1 ≤ t.Rows.length)
    (hvis : 1 ≤ t.visibleHeight) (htop : t.TopRow < (t.Rows.length : Int)) :
    (Table.calcPos { t with SelectedRow := x }).TopRow ≤
        (Table.calcPos { t with SelectedRow := x }).SelectedRow ∧
      (Table.calcPos { t with SelectedRow := x }).SelectedRow ≤
        (Table.calcPos { t with SelectedRow := x }).TopRow +
          (Table.calcPos { t with SelectedRow := x }).visibleHeight - 1 := by
  obtain ⟨_, _, ht1, _, _, hd2, hlen⟩ := hint
  unfold Table.visibleHeight at hvis ⊢
  rw [(calcPos_rows _).2]
  exact calcPos_window { t with SelectedRow := x } h hlen ht1 htop (by dsimp only; omega) hd2

/-- Claim C5, counterexample: a table of one row with `SelectedRow = 5`, `TopRow = 0` and two
visible rows; `ScrollToIndex(7)` returns at its guard, and the selection stays below the
window. -/
theorem scrollToIndex_leaves_selection_outside_window :
    1 ≤ (Table.mk4 [["a"]] 5 0 3).Rows.length ∧
      1 ≤ (Table.mk4 [["a"]] 5 0 3).visibleHeight ∧
      ¬ (((Table.mk4 [["a"]] 5 0 3).scroll (.toIndex 7)).TopRow ≤
          ((Table.mk4 [["a"]] 5 0 3).scroll (.toIndex 7)).SelectedRow ∧
        ((Table.mk4 [["a"]] 5 0 3).scroll (.toIndex 7)).SelectedRow ≤
          ((Table.mk4 [["a"]] 5 0 3).scroll (.toIndex 7)).TopRow +
            ((Table.mk4 [["a"]] 5 0 3).scroll (.toIndex 7)).visibleHeight - 1) := by
  decide

/-- The behaviour of `calcPos` that the amended claim C5 leaves out: three rows, five visible
rows, `SelectedRow = 9` and `TopRow = 8` left over from a longer list. `ScrollDown` clamps
the selection to row 2 after the first window adjustment, and `TopRow` stays at 8. -/
theorem scrollDown_after_shrink :
    ((Table.mk4 [["a"], ["b"], ["c"]] 9 8 6).scroll .down).SelectedRow = 2 ∧
      ((Table.mk4 [["a"], ["b"], ["c"]] 9 8 6).scroll .down).TopRow = 8 := by
  decide

/-- Claim C5, as amended: for every table with at least one row, a visible height of at least
one row and `TopRow < len(Rows)`, whatever `SelectedRow` was, after any scroll operation -
`ScrollToIndex` with an index inside the table -
`TopRow <= SelectedRow <= TopRow + visibleHeight - 1`. -/
theorem scroll_window (t : Table) (op : Scroll) (hint : t.IntFields) (h : 1 ≤ t.Rows.length)
    (hvis : 1 ≤ t.visibleHeight) (htop : t.TopRow < (t.Rows.length : Int))
    (hidx : ∀ idx, op = .toIndex idx → 0 ≤ idx ∧ idx < (t.Rows.length : Int)) :
    (t.scroll op).TopRow ≤ (t.scroll op).SelectedRow ∧
      (t.scroll op).SelectedRow ≤ (t.scroll op).TopRow + (t.scroll op).visibleHeight - 1 := by
  cases op with
  | toIndex idx =>
    have hi := hidx idx rfl
    have hg : ¬ (idx < 0 ∨ idx ≥ (t.Rows.length : Int)) := by omega
    simp only [Table.scroll, Table.ScrollToIndex, if_neg hg]
    exact calcPos_with_window t idx hint h hvis htop
  | _ => exact calcPos_with_window t _ hint h hvis htop

/-- Claim C5, witness: scrolling down in a table of two rows whose selection was 5. -/
theorem scroll_window_witness :
    (Table.mk4 [["a"], ["b"]] 5 0 3).IntFields ∧
      1 ≤ (Table.mk4 [["a"], ["b"]] 5 0 3).visibleHeight ∧
      ((Table.mk4 [["a"], ["b"]] 5 0 3).scroll .down).TopRow ≤
        ((Table.mk4 [["a"], ["b"]] 5 0 3).scroll .down).SelectedRow ∧
      ((Table.mk4 [["a"], ["b"]] 5 0 3).scroll .down).SelectedRow ≤
        ((Table.mk4 [["a"], ["b"]] 5 0 3).scroll .down).TopRow +
          ((Table.mk4 [["a"], ["b"]] 5 0 3).scroll .down).visibleHeight - 1 :=
  ⟨by decide, by decide,
    scroll_window (Table.mk4 [["a"], ["b"]] 5 0 3) .down (by decide) (by decide) (by decide)
      (by decide) (fun idx hop => by cases hop)⟩

/-! ## Properties of the process page -/

theorem killState_fields :
    killState.utilitySelected = .Kill ∧ killState.runAllProc = false ∧
      killState.pidToKill = 42 ∧ killState.scrollableWidget = .signalsTable ∧
      killState.previousKey = "K" ∧ killState.procTable.Rows.length = 1 ∧
      killState.signalsTable.Rows.length = 31 := by
  decide

theorem wrapInt_of_small (x : Int) (h1 : -9223372036854775808 ≤ x)
    (h2 : x < 9223372036854775808) : wrapInt x = x := by
  unfold wrapInt; omega

theorem atoi_digit (n : Nat) (hn : n ≤ 9) : Atoi (digit n) = some (n : Int) := by
  interval_cases n <;> decide

theorem keySwitch_digit (d : Deps) (s : State) (w : World) (n : Nat) (hn : n ≤ 9) :
    keySwitch d s w (digit n) = digitKey d s (digit n) := by
  interval_cases n <;> simp [keySwitch, digit]

theorem digit_mem_123 (p : Nat) (h1 : 1 ≤ p) (h3 : p ≤ 3) : digit p ∈ ["1", "2", "3"] := by
  interval_cases p <;> decide

theorem scrollToIndex_selectedRow (t : Table) (i : Int) (h0 : 0 ≤ i)
    (h1 : i < (t.Rows.length : Int)) : (t.ScrollToIndex i).SelectedRow = i := by
  have hg : ¬ (i < 0 ∨ i ≥ (t.Rows.length : Int)) := by omega
  unfold Table.ScrollToIndex
  rw [if_neg hg]
  unfold Table.calcPos
  dsimp only
  split_ifs <;> dsimp only at * <;> omega

theorem scrollToIndex_outside (t : Table) (i : Int)
    (h : i < 0 ∨ (t.Rows.length : Int) ≤ i) : t.ScrollToIndex i = t := by
  have hg : i < 0 ∨ i ≥ (t.Rows.length : Int) := by omega
  unfold Table.ScrollToIndex
  rw [if_pos hg]

/-- The state and the calls after a digit key in the kill prompt. -/
theorem step_digit_in_kill (d : Deps) (s : State) (w : World) (n : Nat) (hn : n ≤ 9)
    (hk : s.utilitySelected = .Kill) :
    step d s w (.key (digit n)) =
      .running
        { (({ s with
              signalsTable :=
                s.signalsTable.ScrollToIndex
                  (wrapInt ((if decide (s.previousKey ∈ ["1", "2", "3"]) = true then
                      wrapInt (wrapInt (10 * (Atoi s.previousKey).getD 0) + (n : Int))
                    else (n : Int)) - 1)) } : State).updateUI) with
          previousKey :=
            if decide (s.previousKey ∈ ["1", "2", "3"]) = true then "" else digit n }
        [.renderSignals, .updateUI] := by
  simp only [step, onKey, keySwitch_digit d s w n hn, digitKey, hk, atoi_digit n hn,
    Option.getD_some, List.singleton_append]

theorem updateUI_signalsTable (s : State) : s.updateUI.signalsTable = s.signalsTable := by
  unfold State.updateUI
  split <;> rfl

/-- Claim C6, counterexample: in the kill prompt with 31 signals the key `0` (no qualifying
previous key) leaves the selection on row 0 instead of moving it to entry 0, and the keys
`3`, `9` leave it on row 2 (entry 3) instead of moving it to entry 39: `ScrollToIndex`
ignores an index outside the list. -/
theorem digit_key_outside_signal_list :
    killState.utilitySelected = .Kill ∧ killState.previousKey ∉ ["1", "2", "3"] ∧
      (run plainDeps killState [(calmWorld, .key "0")]).state?.map
        (fun s => s.signalsTable.SelectedRow) = some 0 ∧
      (run plainDeps killState [(calmWorld, .key "0")]).state?.map
        (fun s => s.signalsTable.SelectedRow) ≠ some (0 - 1) ∧
      (run plainDeps killState [(calmWorld, .key "3"), (calmWorld, .key "9")]).state?.map
        (fun s => s.signalsTable.SelectedRow) = some 2 ∧
      (run plainDeps killState [(calmWorld, .key "3"), (calmWorld, .key "9")]).state?.map
        (fun s => s.signalsTable.SelectedRow) ≠ some (39 - 1) := by
  decide

/-- Claim C6, as amended: a digit key `n` in the kill prompt. If the previous key is `1`, `2`
or `3` (value `p`), `ScrollToIndex(10*p + n - 1)` is called on the signal list and the
previous key becomes empty; otherwise `ScrollToIndex(n - 1)` is called and the digit
becomes the previous key. The call selects the row when the entry exists
(`1 <= entry <= len(Rows)`) and leaves the list as it was when it does not. -/
theorem digit_key_in_kill_prompt (d : Deps) (s : State) (w : World) (n : Nat) (hn : n ≤ 9)
    (hk : s.utilitySelected = .Kill) :
    (∀ p : Nat, 1 ≤ p → p ≤ 3 → s.previousKey = digit p →
      ∃ s1 log, step d s w (.key (digit n)) = .running s1 log ∧ s1.previousKey = "" ∧
        s1.signalsTable = s.signalsTable.ScrollToIndex (((10 * p + n : Nat) : Int) - 1) ∧
        (10 * p + n ≤ s.signalsTable.Rows.length →
          s1.signalsTable.SelectedRow = ((10 * p + n : Nat) : Int) - 1) ∧
        (s.signalsTable.Rows.length < 10 * p + n → s1.signalsTable = s.signalsTable)) ∧
      (s.previousKey ∉ ["1", "2", "3"] →
        ∃ s1 log, step d s w (.key (digit n)) = .running s1 log ∧ s1.previousKey = digit n ∧
          s1.signalsTable = s.signalsTable.ScrollToIndex ((n : Int) - 1) ∧
          (1 ≤ n → n ≤ s.signalsTable.Rows.length →
            s1.signalsTable.SelectedRow = (n : Int) - 1) ∧
          (n = 0 ∨ s.signalsTable.Rows.length < n → s1.signalsTable = s.signalsTable)) := by
  have hstep := step_digit_in_kill d s w n hn hk
  refine ⟨fun p h1 h3 hprev => ?_, fun hnot => ?_⟩
  · have hmem : decide (s.previousKey ∈ ["1", "2", "3"]) = true := by
      rw [hprev]; exact decide_eq_true (digit_mem_123 p h1 h3)
    have hat : (Atoi s.previousKey).getD 0 = (p : Int) := by
      rw [hprev, atoi_digit p (by omega)]; rfl
    have hidx : wrapInt (wrapInt (wrapInt (10 * (p : Int)) + (n : Int)) - 1) =
        ((10 * p + n : Nat) : Int) - 1 := by
      unfold wrapInt; push_cast; omega
    simp only [hmem, hat, if_true, hidx] at hstep
    refine ⟨_, _, hstep, rfl, ?_, ?_, ?_⟩
    · exact updateUI_signalsTable _
    · intro hle
      show (State.updateUI _).signalsTable.SelectedRow = _
      rw [updateUI_signalsTable]
      exact scrollToIndex_selectedRow _ _ (by push_cast; omega) (by push_cast; omega)
    · intro hlt
      show (State.updateUI _).signalsTable = _
      rw [updateUI_signalsTable]
      exact scrollToIndex_outside _ _ (Or.inr (by push_cast; omega))
  · have hmem : decide (s.previousKey ∈ ["1", "2", "3"]) = false := decide_eq_false hnot
    have hidx : wrapInt ((n : Int) - 1) = (n : Int) - 1 := by
      unfold wrapInt; omega
    simp only [hmem, Bool.false_eq_true, if_false, hidx] at hstep
    refine ⟨_, _, hstep, rfl, ?_, ?_, ?_⟩
    · exact updateUI_signalsTable _
    · intro h1 hle
      show (State.updateUI _).signalsTable.SelectedRow = _
      rw [updateUI_signalsTable]
      exact scrollToIndex_selectedRow _ _ (by omega) (by omega)
    · intro hlt
      show (State.updateUI _).signalsTable = _
      rw [updateUI_signalsTable]
      exact scrollToIndex_outside _ _ (by omega)

/-- Claim C6, witness: the key `9` in the kill prompt reached by `K`. -/
theorem digit_key_in_kill_prompt_witness :
    killState.utilitySelected = .Kill ∧ killState.previousKey ∉ ["1", "2", "3"] ∧
      ∃ s1 log, step plainDeps killState calmWorld (.key (digit 9)) = .running s1 log ∧
        s1.previousKey = digit 9 ∧
        s1.signalsTable = killState.signalsTable.ScrollToIndex (((9 : Nat) : Int) - 1) ∧
        (1 ≤ 9 → 9 ≤ killState.signalsTable.Rows.length →
          s1.signalsTable.SelectedRow = ((9 : Nat) : Int) - 1) ∧
        (9 = 0 ∨ killState.signalsTable.Rows.length < 9 →
          s1.signalsTable = killState.signalsTable) :=
  ⟨by decide, by decide,
    (digit_key_in_kill_prompt plainDeps killState calmWorld 9 (by decide) (by decide)).2
      (by decide)⟩

/-- The key sequences named by claim C6, on a list of 31 signals: `2`, `5` selects entry 25;
`9` selects entry 9; `5`, `5` selects entry 5 twice; `1`, `2`, `3` selects 1, 12, then 3. -/
theorem kill_prompt_digit_sequences :
    (run plainDeps killState [(calmWorld, .key "2"), (calmWorld, .key "5")]).state?.map
        (fun s => s.signalsTable.SelectedRow) = some 24 ∧
      (run plainDeps killState [(calmWorld, .key "9")]).state?.map
        (fun s => s.signalsTable.SelectedRow) = some 8 ∧
      (run plainDeps killState [(calmWorld, .key "5")]).state?.map
        (fun s => s.signalsTable.SelectedRow) = some 4 ∧
      (run plainDeps killState [(calmWorld, .key "5"), (calmWorld, .key "5")]).state?.map
        (fun s => s.signalsTable.SelectedRow) = some 4 ∧
      (run plainDeps killState [(calmWorld, .key "1")]).state?.map
        (fun s => s.signalsTable.SelectedRow) = some 0 ∧
      (run plainDeps killState [(calmWorld, .key "1"), (calmWorld, .key "2")]).state?.map
        (fun s => s.signalsTable.SelectedRow) = some 11 ∧
      (run plainDeps killState
          [(calmWorld, .key "1"), (calmWorld, .key "2"), (calmWorld, .key "3")]).state?.map
        (fun s => s.signalsTable.SelectedRow) = some 2 := by
  decide

/-- Claim C7, the code at the failing inputs: in the kill prompt, `<Enter>` with the target
process not found, or with a signal that cannot be sent, fills the error box and ends in
the state `None`, not `Error`; the sibling case `K` ends in `Error`. -/
theorem enter_after_failed_kill_ends_in_none :
    killState.utilitySelected = .Kill ∧
      (step plainDeps killState goneWorld (.key "<Enter>")).state?.map
          (fun s => (s.utilitySelected, s.errorBox)) =
        some (.None, some ("Process not found: 42", "process does not exist")) ∧
      (step plainDeps killState deniedWorld (.key "<Enter>")).state?.map
          (fun s => (s.utilitySelected, s.errorBox)) =
        some (.None, some ("Error killing process: 42", "operation not permitted")) ∧
      (step plainDeps killState goneWorld (.key "K")).state?.map
          (fun s => (s.utilitySelected, s.errorBox)) =
        some (.Error, some ("Process not found: 42", "process does not exist")) := by
  decide

@[simp] theorem onScrollable_utilitySelected (s : State) (f : Table → Table) :
    (s.onScrollable f).utilitySelected = s.utilitySelected := by
  unfold State.onScrollable; split <;> rfl

@[simp] theorem onScrollable_runAllProc (s : State) (f : Table → Table) :
    (s.onScrollable f).runAllProc = s.runAllProc := by
  unfold State.onScrollable; split <;> rfl

@[simp] theorem pointTo_utilitySelected (s : State) (v : Widget) :
    (s.pointTo v).utilitySelected = s.utilitySelected := by
  unfold State.pointTo; simp

@[simp] theorem pointTo_runAllProc (s : State) (v : Widget) :
    (s.pointTo v).runAllProc = s.runAllProc := by
  unfold State.pointTo; simp

@[simp] theorem updateUI_utilitySelected (s : State) :
    s.updateUI.utilitySelected = s.utilitySelected := by
  unfold State.updateUI; split <;> simp_all

@[simp] theorem updateUI_runAllProc (s : State) : s.updateUI.runAllProc = s.runAllProc := by
  unfold State.updateUI; split <;> rfl

@[simp] theorem updateProcs_utilitySelected (s : State) (w : World) :
    (s.updateProcs w).1.utilitySelected = s.utilitySelected := by
  unfold State.updateProcs; split
  · split <;> rfl
  · rfl

@[simp] theorem updateProcs_runAllProc (s : State) (w : World) :
    (s.updateProcs w).1.runAllProc = s.runAllProc := by
  unfold State.updateProcs; split
  · split <;> rfl
  · rfl

/-- The state and the calls after `<Enter>` in the kill prompt. -/
theorem step_enter_in_kill (d : Deps) (s : State) (w : World)
    (hk : s.utilitySelected = .Kill) :
    step d s w (.key "<Enter>") =
      .running
        { (((({ (s.kill w (d.SelectedSignal s.signalsTable)).1 with
                runAllProc := true, utilitySelected := .None } : State).updateProcs w).1.pointTo
              .procTable).updateUI) with previousKey := "<Enter>" }
        (((s.kill w (d.SelectedSignal s.signalsTable)).2 ++
          (({ (s.kill w (d.SelectedSignal s.signalsTable)).1 with
                runAllProc := true, utilitySelected := .None } : State).updateProcs w).2) ++
          [.updateUI]) := by
  simp [step, onKey, keySwitch, enterKey, hk]

/-- For every kill-prompt state `<Enter>` ends in the state `None`, whatever the lookup and
the signal did. -/
theorem enter_in_kill_ends_in_none (d : Deps) (s : State) (w : World)
    (hk : s.utilitySelected = .Kill) :
    ∃ s1 log, step d s w (.key "<Enter>") = .running s1 log ∧ s1.utilitySelected = .None :=
  ⟨_, _, step_enter_in_kill d s w hk, by simp⟩

theorem kill_runAllProc (s : State) (w : World) (sig : Int) :
    (s.kill w sig).1.runAllProc = s.runAllProc := by
  unfold State.kill
  dsimp only
  split
  · split <;> rfl
  · rfl

theorem killKey_keeps_pause (s : State) (w : World)
    (hK : s.utilitySelected ≠ .Kill) : (killKey s w).pausedInKill := by
  unfold killKey
  split
  · split
    · split
      · rfl
      · split
        · rfl
        · split
          · rfl
          · split
            · rfl
            · simp [KeyResult.pausedInKill]
    · simp only [KeyResult.pausedInKill]
      intro hk
      exact absurd hk hK
  · rename_i hu
    exact absurd hu hK
  · rename_i hu1 hu2
    simp only [KeyResult.pausedInKill]
    intro hk
    exact absurd hk hK

theorem digitKey_keeps_pause (d : Deps) (s : State) (id : String)
    (hinv : s.utilitySelected = .Kill → s.runAllProc = false) :
    (digitKey d s id).pausedInKill := by
  unfold digitKey
  split
  · simpa [KeyResult.pausedInKill] using hinv
  · rename_i hu
    split_ifs <;> simp [KeyResult.pausedInKill, hu]
  · exact hinv

theorem functionKey_keeps_pause (d : Deps) (s : State) (id : String)
    (hinv : s.utilitySelected = .Kill → s.runAllProc = false) :
    (functionKey d s id).pausedInKill := by
  unfold functionKey
  split
  · rename_i hu
    simp [KeyResult.pausedInKill, hu]
  · exact hinv

theorem enterKey_keeps_pause (d : Deps) (s : State) (w : World)
    (hinv : s.utilitySelected = .Kill → s.runAllProc = false) :
    (enterKey d s w).pausedInKill := by
  unfold enterKey
  split
  · simp [KeyResult.pausedInKill]
  · simpa [KeyResult.pausedInKill] using hinv

theorem keySwitch_keeps_pause (d : Deps) (s : State) (w : World) (id : String)
    (hp1 : s.utilitySelected = .Kill → id ≠ "p")
    (hK : s.utilitySelected = .Kill → id ≠ "K" ∧ id ≠ "<F9>")
    (hinv : s.utilitySelected = .Kill → s.runAllProc = false) :
    (keySwitch d s w id).pausedInKill := by
  unfold keySwitch
  by_cases hc : id = "q" ∨ id = "<C-c>"
  · rw [if_pos hc]
    rfl
  rw [if_neg hc]
  clear hc
  by_cases hc : id = "<Resize>"
  · rw [if_pos hc]
    simpa [KeyResult.pausedInKill] using hinv
  rw [if_neg hc]
  clear hc
  by_cases hc : id = "?"
  · rw [if_pos hc]
    simp only [KeyResult.pausedInKill, updateUI_utilitySelected]
    intro h
    cases h
  rw [if_neg hc]
  clear hc
  by_cases hc : id = "p"
  · rw [if_pos hc]
    intro hk
    exact absurd hc (hp1 hk)
  rw [if_neg hc]
  clear hc
  by_cases hc : id = "<Escape>"
  · rw [if_pos hc]
    simp only [KeyResult.pausedInKill, updateUI_utilitySelected, pointTo_utilitySelected,
      onScrollable_utilitySelected]
    intro h
    cases h
  rw [if_neg hc]
  clear hc
  by_cases hc : id = "j" ∨ id = "<Down>"
  · rw [if_pos hc]
    simpa [KeyResult.pausedInKill] using hinv
  rw [if_neg hc]
  clear hc
  by_cases hc : id = "k" ∨ id = "<Up>"
  · rw [if_pos hc]
    simpa [KeyResult.pausedInKill] using hinv
  rw [if_neg hc]
  clear hc
  by_cases hc : id = "<C-d>"
  · rw [if_pos hc]
    simpa [KeyResult.pausedInKill] using hinv
  rw [if_neg hc]
  clear hc
  by_cases hc : id = "<C-u>"
  · rw [if_pos hc]
    simpa [KeyResult.pausedInKill] using hinv
  rw [if_neg hc]
  clear hc
  by_cases hc : id = "<C-f>"
  · rw [if_pos hc]
    simpa [KeyResult.pausedInKill] using hinv
  rw [if_neg hc]
  clear hc
  by_cases hc : id = "<C-b>"
  · rw [if_pos hc]
    simpa [KeyResult.pausedInKill] using hinv
  rw [if_neg hc]
  clear hc
  by_cases hc : id = "g"
  · rw [if_pos hc]
    by_cases hg : s.previousKey = "g"
    · rw [if_pos hg]; simpa [KeyResult.pausedInKill] using hinv
    · rw [if_neg hg]; exact hinv
  rw [if_neg hc]
  clear hc
  by_cases hc : id = "<Home>"
  · rw [if_pos hc]
    simpa [KeyResult.pausedInKill] using hinv
  rw [if_neg hc]
  clear hc
  by_cases hc : id = "G" ∨ id = "<End>"
  · rw [if_pos hc]
    simpa [KeyResult.pausedInKill] using hinv
  rw [if_neg hc]
  clear hc
  by_cases hc : id = "K" ∨ id = "<F9>"
  · rw [if_pos hc]
    apply killKey_keeps_pause
    intro hk
    have := hK hk
    rcases hc with h | h
    · exact this.1 h
    · exact this.2 h
  rw [if_neg hc]
  clear hc
  by_cases hc : id ∈ ["0", "1", "2", "3", "4", "5", "6", "7", "8", "9"]
  · rw [if_pos hc]
    exact digitKey_keeps_pause d s id hinv
  rw [if_neg hc]
  clear hc
  by_cases hc : id ∈ ["<F1>", "<F2>", "<F3>", "<F4>", "<F5>", "<F6>", "<F7>", "<F8>"]
  · rw [if_pos hc]
    exact functionKey_keeps_pause d s id hinv
  rw [if_neg hc]
  clear hc
  by_cases hc : id = "<Enter>"
  · rw [if_pos hc]
    exact enterKey_keeps_pause d s w hinv
  rw [if_neg hc]
  clear hc
  exact hinv

theorem onData_keeps (d : Deps) (s : State) (procs : List ProcessInfo) (s1 : State)
    (log : List Effect) (h : onData d s procs = .running s1 log) :
    s1.utilitySelected = s.utilitySelected ∧ s1.runAllProc = s.runAllProc := by
  unfold onData at h
  dsimp only at h
  split_ifs at h <;> simp only [Outcome.running.injEq] at h <;> obtain ⟨rfl, _⟩ := h <;> simp

theorem step_keeps_pause (d : Deps) (s : State) (w : World) (e : Event) (s1 : State)
    (log : List Effect) (hstep : step d s w e = .running s1 log) (hkeep : e.keepsPause s)
    (hinv : s.utilitySelected = .Kill → s.runAllProc = false) :
    s1.utilitySelected = .Kill → s1.runAllProc = false := by
  cases e with
  | done => simp [step] at hstep
  | key id =>
    have hp1 : s.utilitySelected = .Kill → id ≠ "p" := fun hk h => (hkeep hk).1 (by rw [h])
    have hK : s.utilitySelected = .Kill → id ≠ "K" ∧ id ≠ "<F9>" := fun hk =>
      ⟨fun h => (hkeep hk).2.1 (by rw [h]), fun h => (hkeep hk).2.2 (by rw [h])⟩
    have hks := keySwitch_keeps_pause d s w id hp1 hK hinv
    simp only [step, onKey] at hstep
    cases hr : keySwitch d s w id with
    | stop o =>
      rw [hr] at hstep hks
      simp only at hstep
      rw [hstep] at hks
      simp [KeyResult.pausedInKill, Outcome.state?] at hks
    | handled s2 log2 hp =>
      rw [hr] at hstep hks
      simp only [Outcome.running.injEq] at hstep
      obtain ⟨rfl, _⟩ := hstep
      simpa [KeyResult.pausedInKill] using hks
  | data procs =>
    obtain ⟨h1, h2⟩ := onData_keeps d s procs s1 log hstep
    rw [h1, h2]
    exact hinv
  | tick =>
    simp only [step, onTick, Outcome.running.injEq] at hstep
    obtain ⟨rfl, _⟩ := hstep
    split_ifs <;> simp_all

/-- Claim C8, the code at the failing inputs: from the start, a batch with the process 42,
then `K`, then the pause key `p`: the kill prompt is active and `runAllProc` is true, and the
next batch replaces the rows of the process table. The same holds after `K`, `K` (a second
kill key whose signal is delivered). -/
theorem kill_prompt_with_refresh_running :
    (run plainDeps (State.init emptyPage someHelp someSignals)
        [(calmWorld, .data [procWithPid 42]), (calmWorld, .key "K"),
          (calmWorld, .key "p")]).state?.map
        (fun s => (s.utilitySelected, s.runAllProc, s.procTable.Rows)) =
        some (.Kill, true, getData [procWithPid 42]) ∧
      (run plainDeps (State.init emptyPage someHelp someSignals)
        [(calmWorld, .data [procWithPid 42]), (calmWorld, .key "K"),
          (calmWorld, .key "p"), (calmWorld, .data [procWithPid 7])]).state?.map
        (fun s => (s.utilitySelected, s.runAllProc, s.procTable.Rows)) =
        some (.Kill, true, getData [procWithPid 7]) ∧
      getData [procWithPid 7] ≠ getData [procWithPid 42] ∧
      (run plainDeps (State.init emptyPage someHelp someSignals)
        [(calmWorld, .data [procWithPid 42]), (calmWorld, .key "K"),
          (calmWorld, .key "K")]).state?.map
        (fun s => (s.utilitySelected, s.runAllProc)) = some (.Kill, true) := by
  decide

/-- The kill prompt pauses the refresh unless it is undone inside the prompt: in every state
reached from the start through events that, while the kill prompt is active, include neither
the pause key `p` nor the keys `K` and `<F9>`, an active kill prompt implies
`runAllProc = false`, and an arriving batch then leaves the whole state, the rows of the
process table included, unchanged. -/
theorem kill_prompt_pauses_refresh (d : Deps) (page help signals : Table) (s : State)
    (hr : ReachableKeepingPause d page help signals s) (hk : s.utilitySelected = .Kill) :
    s.runAllProc = false ∧
      ∀ (w : World) (procs : List ProcessInfo), step d s w (.data procs) = .running s [] := by
  have hrun : s.runAllProc = false := by
    induction hr with
    | start => simp [State.init] at hk
    | next s0 s1 w e log _ hkeep hstep ih =>
      exact step_keeps_pause d s0 w e s1 log hstep hkeep ih hk
  refine ⟨hrun, fun w procs => ?_⟩
  simp [step, onData, hrun]

/-- A run whose events keep the pause leads from a state reached in this way to another. -/
theorem reachableKeepingPause_run (d : Deps) (page help signals : Table)
    (evs : List (World × Event)) :
    ∀ (s s1 : State), ReachableKeepingPause d page help signals s →
      keepsPauseAlong d s evs = true → (run d s evs).state? = some s1 →
      ReachableKeepingPause d page help signals s1 := by
  induction evs with
  | nil =>
    intro s s1 hs _ h
    simp only [run, Outcome.state?, Option.some.injEq] at h
    exact h ▸ hs
  | cons we rest ih =>
    intro s s1 hs hk h
    obtain ⟨w, e⟩ := we
    simp only [keepsPauseAlong, Bool.and_eq_true, decide_eq_true_eq] at hk
    cases hstep : step d s w e with
    | running s2 log =>
      rw [hstep] at hk
      simp only [run, hstep] at h
      exact ih s2 s1 (.next s s2 w e log hs hk.1 hstep) hk.2 h
    | canceled => simp [run, hstep, Outcome.state?] at h
    | contextDone => simp [run, hstep, Outcome.state?] at h
    | pidError => simp [run, hstep, Outcome.state?] at h
    | panicked => simp [run, hstep, Outcome.state?] at h

/-- The pause key outside the kill prompt keeps the pause: after a batch, `p`, `p` and `K`
the kill prompt is active, in a state reached through events that keep the pause, and the
refresh is paused. -/
theorem pause_keys_before_kill_prompt :
    ReachableKeepingPause plainDeps emptyPage someHelp someSignals pausedTwiceKillState ∧
      pausedTwiceKillState.utilitySelected = .Kill ∧
      pausedTwiceKillState.runAllProc = false :=
  ⟨reachableKeepingPause_run plainDeps emptyPage someHelp someSignals
      [(calmWorld, .data [procWithPid 42]), (calmWorld, .key "p"), (calmWorld, .key "p"),
        (calmWorld, .key "K")]
      (State.init emptyPage someHelp someSignals) pausedTwiceKillState .start
      (by decide) (by decide),
    by decide, by decide⟩

theorem reachable_loadedState :
    ReachableKeepingPause plainDeps emptyPage someHelp someSignals loadedState :=
  .next (State.init emptyPage someHelp someSignals) loadedState calmWorld
    (.data [procWithPid 42]) [.updateUI] .start (by decide) (by decide)

theorem reachable_killState :
    ReachableKeepingPause plainDeps emptyPage someHelp someSignals killState :=
  .next loadedState killState calmWorld (.key "K") [.updateUI] reachable_loadedState
    (by decide) (by decide)

/-- The kill prompt reached by a batch and the key `K`, as an instance. -/
theorem kill_prompt_pauses_refresh_witness :
    ReachableKeepingPause plainDeps emptyPage someHelp someSignals killState ∧
      killState.utilitySelected = .Kill ∧ killState.runAllProc = false ∧
      step plainDeps killState calmWorld (.data [procWithPid 7]) = .running killState [] :=
  ⟨reachable_killState, by decide,
    (kill_prompt_pauses_refresh plainDeps emptyPage someHelp someSignals killState
      reachable_killState (by decide)).1,
    (kill_prompt_pauses_refresh plainDeps emptyPage someHelp someSignals killState
      reachable_killState (by decide)).2 calmWorld [procWithPid 7]⟩

/-- The state and the calls after a tick in the kill prompt whose target is gone. -/
theorem step_tick_gone (d : Deps) (s : State) (w : World) (hk : s.utilitySelected = .Kill)
    (hgone : w.pidExists = false) :
    step d s w .tick =
      .running (({ s with runAllProc := true, utilitySelected := .None } : State).updateProcs w).1
        ([.pidExists s.pidToKill] ++
          (({ s with runAllProc := true, utilitySelected := .None } : State).updateProcs w).2 ++
          [.renderGrid]) := by
  simp [step, onTick, hk, hgone]

/-- Claim C9: in the kill prompt, a tick at which the target pid no longer exists sets the
state to `None` and `runAllProc` to true and calls `proc.Processes()` exactly once, the rows
being replaced by its result (and kept when it fails); a tick at which the pid exists
leaves the whole state unchanged. -/
theorem tick_in_kill_prompt (d : Deps) (s : State) (w : World)
    (hk : s.utilitySelected = .Kill) :
    (w.pidExists = false →
      ∃ s1, step d s w .tick =
          .running s1 [.pidExists s.pidToKill, .listProcesses, .renderGrid] ∧
        [Effect.pidExists s.pidToKill, .listProcesses, .renderGrid].count .listProcesses = 1 ∧
        s1.utilitySelected = .None ∧ s1.runAllProc = true ∧
        s1.procTable.Rows =
          (match w.processes with
            | .ok procs => getData procs
            | .error _ => s.procTable.Rows)) ∧
      (w.pidExists = true →
        step d s w .tick = .running s [.pidExists s.pidToKill, .renderSignals, .renderGrid]) := by
  refine ⟨fun hgone => ?_, fun hex => ?_⟩
  · have h := step_tick_gone d s w hk hgone
    cases hp : w.processes with
    | ok procs =>
      simp only [State.updateProcs, hp, if_true, List.singleton_append, List.cons_append,
        List.nil_append] at h
      exact ⟨_, h, by simp, rfl, rfl, rfl⟩
    | error err =>
      simp only [State.updateProcs, hp, if_true, List.singleton_append, List.cons_append,
        List.nil_append] at h
      exact ⟨_, h, by simp, rfl, rfl, rfl⟩
  · simp [step, onTick, hk, hex]

/-- Claim C9, witness: the kill prompt for the process 42, once with the process gone and
once with the process still there. -/
theorem tick_in_kill_prompt_witness :
    killState.utilitySelected = .Kill ∧
      (∃ s1, step plainDeps killState goneWorld .tick =
          .running s1 [.pidExists killState.pidToKill, .listProcesses, .renderGrid] ∧
        [Effect.pidExists killState.pidToKill, .listProcesses, .renderGrid].count
          .listProcesses = 1 ∧
        s1.utilitySelected = .None ∧ s1.runAllProc = true ∧
        s1.procTable.Rows =
          (match goneWorld.processes with
            | .ok procs => getData procs
            | .error _ => killState.procTable.Rows)) ∧
      step plainDeps killState calmWorld .tick =
        .running killState [.pidExists killState.pidToKill, .renderSignals, .renderGrid] :=
  ⟨by decide, (tick_in_kill_prompt plainDeps killState goneWorld (by decide)).1 (by decide),
    (tick_in_kill_prompt plainDeps killState calmWorld (by decide)).2 (by decide)⟩

/-- Claim C10, the code at the failing input: with the sort set to the first column,
ascending, the refresh forced by the tick that finds the target gone, and the refresh forced
by `<Enter>`, store the rows of `proc.Processes()` in their order of arrival, whatever
`SortData` does; the arrival of the same processes on the data channel stores
`SortData(rows, 0, true)`. -/
theorem forced_refresh_does_not_sort (d : Deps) :
    sortedKillState.utilitySelected = .Kill ∧ sortedKillState.sortIdx ≠ -1 ∧
      (step d sortedKillState goneWorld .tick).state?.map (fun s => s.procTable.Rows) =
        some (getData [procWithPid 2, procWithPid 1]) ∧
      (step d sortedKillState goneWorld (.key "<Enter>")).state?.map
          (fun s => s.procTable.Rows) =
        some (getData [procWithPid 2, procWithPid 1]) ∧
      (step d sortedLoadedState calmWorld (.data [procWithPid 2, procWithPid 1])).state?.map
          (fun s => s.procTable.Rows) =
        some (d.SortData (getData [procWithPid 2, procWithPid 1]) 0 true) := by
  refine ⟨by decide, by decide, rfl, rfl, rfl⟩

/-! ## Further properties of the aggregation -/

theorem sumU64_eq_sum_mod (xs : List Nat) : sumU64 xs = xs.sum % 2 ^ 64 := by
  have h : ∀ (l : List Nat) (a : Nat), l.foldl addU64 a % 2 ^ 64 = (a + l.sum) % 2 ^ 64 := by
    intro l
    induction l with
    | nil => intro a; simp
    | cons x l ih =>
      intro a
      simp only [List.foldl_cons, List.sum_cons]
      rw [ih]
      unfold addU64
      omega
  have h2 : xs.foldl addU64 0 < 2 ^ 64 := foldl_addU64_lt xs 0 (by norm_num)
  have h3 := h xs 0
  unfold sumU64
  rw [Nat.mod_eq_of_lt h2] at h3
  simpa using h3

/-- Claim C14: `TotalMem` is the sum of the memory percentages, not divided by anything,
`TotalNet.Rx` and `TotalNet.Tx` are the sums of the `Rx` and `Tx` fields (each a `float64`
sum from left to right in the order of arrival), and `TotalBlk.Read` and `TotalBlk.Write`
are the sums of the `Read` and `Write` fields modulo `2^64`. -/
theorem GetOverallMetrics_plain_sums {F : Type} [GoFloat F] (containers : List Container)
    (received : List (PerContainerMetrics F)) (numCores : Int) :
    (GetOverallMetrics (.ok containers) received numCores).1.TotalMem =
        sumF (received.map (fun m => m.Mem)) ∧
      (GetOverallMetrics (.ok containers) received numCores).1.TotalNet.Rx =
        sumF (received.map (fun m => m.Net.Rx)) ∧
      (GetOverallMetrics (.ok containers) received numCores).1.TotalNet.Tx =
        sumF (received.map (fun m => m.Net.Tx)) ∧
      (GetOverallMetrics (.ok containers) received numCores).1.TotalBlk.Read =
        (received.map (fun m => m.Blk.Read)).sum % 2 ^ 64 ∧
      (GetOverallMetrics (.ok containers) received numCores).1.TotalBlk.Write =
        (received.map (fun m => m.Blk.Write)).sum % 2 ^ 64 := by
  refine ⟨?_, ?_, ?_, ?_, ?_⟩ <;>
    simp only [GetOverallMetrics, aggregate_eq, sumU64_eq_sum_mod]

/-- Claim C15, counterexample: the container `abcdefghij` (image `nginx`, name `/web`) whose
stats call fails gets an entry whose ID, image, name, status and state are all empty. -/
theorem failed_entry_has_no_identity :
    (failAll cFull).failed = true ∧ cFull.ID ≠ "" ∧ cFull.Image ≠ "" ∧
      (getMetrics cpu01 cFull (failAll cFull)).map
          (fun m => (m.ID, m.Image, m.Name, m.Status, m.State)) =
        some ("", "", "", "", "") := by
  decide

/-- Claim C15, as amended: for every container whose fetch fails, `getMetrics` sends the zero
value `PerContainerMetrics{}`: the measurements are zero and the identity fields (ID, image,
name, status, state) are empty. -/
theorem failed_entry_is_zero_value {F C : Type} [GoFloat F] (getCPUPercent : StatsJSON C → F)
    (c : Container) (r : FetchResult C) (h : r.failed = true) :
    ∃ m, getMetrics getCPUPercent c r = some m ∧
      m.ID = "" ∧ m.Image = "" ∧ m.Name = "" ∧ m.Status = "" ∧ m.State = "" ∧
      m.CPU = GoFloat.zero ∧ m.Mem = GoFloat.zero ∧ m.Net.Rx = GoFloat.zero ∧
      m.Net.Tx = GoFloat.zero ∧ m.Blk.Read = 0 ∧ m.Blk.Write = 0 := by
  cases r with
  | statsError => exact ⟨_, rfl, rfl, rfl, rfl, rfl, rfl, rfl, rfl, rfl, rfl, rfl, rfl⟩
  | decodeError => exact ⟨_, rfl, rfl, rfl, rfl, rfl, rfl, rfl, rfl, rfl, rfl, rfl, rfl⟩
  | ok data => simp [FetchResult.failed] at h

/-- Claim C15, witness: the container `abcdefghij` with a failing stats call. -/
theorem failed_entry_is_zero_value_witness :
    (failAll cFull).failed = true ∧
      ∃ m, getMetrics cpu01 cFull (failAll cFull) = some m ∧
        m.ID = "" ∧ m.Image = "" ∧ m.Name = "" ∧ m.Status = "" ∧ m.State = "" ∧
        m.CPU = GoFloat.zero ∧ m.Mem = GoFloat.zero ∧ m.Net.Rx = GoFloat.zero ∧
        m.Net.Tx = GoFloat.zero ∧ m.Blk.Read = 0 ∧ m.Blk.Write = 0 :=
  ⟨by decide, failed_entry_is_zero_value cpu01 cFull (failAll cFull) (by decide)⟩

/-- Claim C17: when the enumeration fails, `GetOverallMetrics` returns the zero value of
`OverallMetrics` (every total zero, no entry) with that error, and starts no fetch; when it
succeeds the error returned is nil, whatever values the fetches deliver. -/
theorem GetOverallMetrics_enumeration {F : Type} [GoFloat F] :
    (∀ (err : String) (received : List (PerContainerMetrics F)) (numCores : Int),
        GetOverallMetrics (.error err) received numCores =
          (OverallMetrics.zeroValue F, some err) ∧
        fetchedContainers (.error err) = []) ∧
      ((OverallMetrics.zeroValue F).TotalCPU = GoFloat.zero ∧
        (OverallMetrics.zeroValue F).TotalMem = GoFloat.zero ∧
        (OverallMetrics.zeroValue F).TotalNet.Rx = GoFloat.zero ∧
        (OverallMetrics.zeroValue F).TotalNet.Tx = GoFloat.zero ∧
        (OverallMetrics.zeroValue F).TotalBlk.Read = 0 ∧
        (OverallMetrics.zeroValue F).TotalBlk.Write = 0 ∧
        (OverallMetrics.zeroValue F).PerContainer = []) ∧
      (∀ (containers : List Container) (received : List (PerContainerMetrics F))
          (numCores : Int),
        (GetOverallMetrics (.ok containers) received numCores).2 = none ∧
        fetchedContainers (.ok containers) = containers) :=
  ⟨fun _ _ _ => ⟨rfl, rfl⟩, ⟨rfl, rfl, rfl, rfl, rfl, rfl, rfl⟩, fun _ _ _ => ⟨rfl, rfl⟩⟩

/-! ## The refresh rate of the producers -/

/-- Claim C12, the code at the failing input: for the refresh rate `2^62` the product
`4 * r` wraps around to 0, so the producer gets the interval 0 and not `4 * r / 5`. -/
theorem alteredRefreshRate_overflows :
    (4611686018427387904 : Nat) < 2 ^ 64 ∧ alteredRefreshRate 4611686018427387904 = 0 ∧
      4 * 4611686018427387904 / 5 = 3689348814741910323 := by
  decide

/-- Below `2^62` the interval is `4 * r / 5` rounded down, and for every `uint64` value it
does not exceed `r`. -/
theorem alteredRefreshRate_small (r : Nat) :
    (r < 2 ^ 62 → alteredRefreshRate r = 4 * r / 5) ∧
      (r < 2 ^ 64 → alteredRefreshRate r ≤ r) := by
  unfold alteredRefreshRate
  constructor
  · intro h
    rw [Nat.mod_eq_of_lt (by omega)]
  · intro h
    omega

/-! ## The IDs of the entries -/

theorem getMetrics_id {F C : Type} [GoFloat F] (getCPUPercent : StatsJSON C → F)
    (stats : Container → FetchResult C) (c : Container) (m : PerContainerMetrics F)
    (h : getMetrics getCPUPercent c (stats c) = some m) : m.ID = entryId stats c := by
  unfold entryId
  cases hr : stats c with
  | statsError =>
    rw [hr] at h
    simp only [getMetrics, Option.some.injEq] at h
    rw [← h]; rfl
  | decodeError =>
    rw [hr] at h
    simp only [getMetrics, Option.some.injEq] at h
    rw [← h]; rfl
  | ok data =>
    rw [hr] at h
    simp only [getMetrics] at h
    split at h
    · exact absurd h (by simp)
    · simp only [Option.some.injEq] at h
      rw [← h]; rfl

theorem sent_ids {F C : Type} [GoFloat F] (getCPUPercent : StatsJSON C → F)
    (stats : Container → FetchResult C) (containers : List Container)
    (sent : List (PerContainerMetrics F)) (hs : Sent getCPUPercent stats containers sent) :
    sent.map (fun m => m.ID) = containers.map (entryId stats) := by
  unfold Sent at hs
  induction hs with
  | nil => rfl
  | cons hcm _ ih =>
    simp only [List.map_cons, ih, getMetrics_id getCPUPercent stats _ _ hcm]

theorem sent_okAll_long : Sent cpu01 okAll [cLong1, cLong2] [okEntry cLong1, okEntry cLong2] := by
  unfold Sent
  refine List.Forall₂.cons ?_ (List.Forall₂.cons ?_ List.Forall₂.nil)
  · have h : ¬ (cLong1.ID.utf8ByteSize < 10) := by decide
    simp only [okEntry, okAll, getMetrics, if_neg h, Option.getD_some]
  · have h : ¬ (cLong2.ID.utf8ByteSize < 10) := by decide
    simp only [okEntry, okAll, getMetrics, if_neg h, Option.getD_some]

theorem sent_failAll :
    Sent cpu01 failAll [cA, cC]
      [PerContainerMetrics.zeroValue Binary64, PerContainerMetrics.zeroValue Binary64] := by
  unfold Sent
  exact List.Forall₂.cons rfl (List.Forall₂.cons rfl List.Forall₂.nil)

/-- Claim C16, counterexample: two containers with the distinct IDs `0123456789a` and
`0123456789b`, both fetched successfully, give two entries with the ID `0123456789`; and two
containers with distinct IDs whose fetches both fail give two entries with the empty ID. -/
theorem perContainer_ids_collide :
    [cLong1, cLong2].map (fun c => c.ID) = ["0123456789a", "0123456789b"] ∧
      ([cLong1, cLong2].map (fun c => c.ID)).Nodup ∧
      Sent cpu01 okAll [cLong1, cLong2] [okEntry cLong1, okEntry cLong2] ∧
      (GetOverallMetrics (.ok [cLong1, cLong2]) [okEntry cLong1, okEntry cLong2]
        1).1.PerContainer.map (fun m => m.ID) = ["0123456789", "0123456789"] ∧
      ([cA, cC].map (fun c => c.ID)).Nodup ∧
      Sent cpu01 failAll [cA, cC]
        [PerContainerMetrics.zeroValue Binary64, PerContainerMetrics.zeroValue Binary64] ∧
      (GetOverallMetrics (.ok [cA, cC])
        [PerContainerMetrics.zeroValue Binary64, PerContainerMetrics.zeroValue Binary64]
        1).1.PerContainer.map (fun m => m.ID) = ["", ""] ∧
      ¬ ((GetOverallMetrics (.ok [cLong1, cLong2]) [okEntry cLong1, okEntry cLong2]
        1).1.PerContainer.map (fun m => m.ID)).Nodup := by
  have h1 : (GetOverallMetrics (.ok [cLong1, cLong2]) [okEntry cLong1, okEntry cLong2]
      1).1.PerContainer.map (fun m => m.ID) = ["0123456789", "0123456789"] := by
    simp only [GetOverallMetrics, aggregate_eq]
    rw [sent_ids cpu01 okAll _ _ sent_okAll_long]
    decide
  refine ⟨by decide, by decide, sent_okAll_long, h1, by decide, sent_failAll, ?_, ?_⟩
  · simp only [GetOverallMetrics, aggregate_eq]
    rfl
  · rw [h1]
    decide

/-- Claim C16, as amended: the ID fields of the entries in `PerContainer` are, up to order,
the first 10 bytes of the ID of every container whose fetch succeeded and the empty string
for every container whose fetch failed; they are pairwise distinct whenever these strings
are. -/
theorem perContainer_ids {F C : Type} [GoFloat F] (getCPUPercent : StatsJSON C → F)
    (stats : Container → FetchResult C) (containers : List Container)
    (sent received : List (PerContainerMetrics F)) (numCores : Int)
    (hs : Sent getCPUPercent stats containers sent) (hp : received.Perm sent) :
    ((GetOverallMetrics (.ok containers) received numCores).1.PerContainer.map
        (fun m => m.ID)).Perm (containers.map (entryId stats)) ∧
      ((containers.map (entryId stats)).Nodup →
        ((GetOverallMetrics (.ok containers) received numCores).1.PerContainer.map
          (fun m => m.ID)).Nodup) := by
  have h : ((GetOverallMetrics (.ok containers) received numCores).1.PerContainer.map
      (fun m => m.ID)).Perm (containers.map (entryId stats)) := by
    simp only [GetOverallMetrics, aggregate_eq]
    rw [← sent_ids getCPUPercent stats containers sent hs]
    exact hp.map _
  exact ⟨h, fun hn => h.nodup_iff.2 hn⟩

/-- Claim C16, witness: the containers a, b, c of which b fails, received in reverse order;
the IDs are those of a and c and one empty string, pairwise distinct. -/
theorem perContainer_ids_witness :
    Sent cpu01 failB [cA, cB, cC] [entryOf cA, entryOf cB, entryOf cC] ∧
      [entryOf cC, entryOf cB, entryOf cA].Perm [entryOf cA, entryOf cB, entryOf cC] ∧
      ([cA, cB, cC].map (entryId failB)).Nodup ∧
      ((GetOverallMetrics (.ok [cA, cB, cC]) [entryOf cC, entryOf cB, entryOf cA]
        4).1.PerContainer.map (fun m => m.ID)).Nodup :=
  ⟨sent_failB, List.reverse_perm [entryOf cA, entryOf cB, entryOf cC], by decide,
    (perContainer_ids cpu01 failB [cA, cB, cC] _ _ 4 sent_failB
      (List.reverse_perm [entryOf cA, entryOf cB, entryOf cC])).2 (by decide)⟩

/-! ## The movement of the window -/

theorem calcPos_topRow (t : Table) (h : 1 ≤ t.Rows.length)
    (ht1 : -9223372036854775808 ≤ t.TopRow) (ht2 : t.TopRow < (t.Rows.length : Int))
    (hd1 : 2 ≤ t.InnerDy)
    (hsmall : (t.Rows.length : Int) + t.InnerDy < 9223372036854775808) :
    (t.TopRow ≤ t.calcPos.SelectedRow ∧ t.calcPos.SelectedRow ≤ t.TopRow + (t.InnerDy - 1) - 1 →
        t.calcPos.TopRow = t.TopRow) ∧
      (t.calcPos.SelectedRow < t.TopRow → t.calcPos.TopRow = t.calcPos.SelectedRow) ∧
      (t.calcPos.SelectedRow > t.TopRow + (t.InnerDy - 1) - 1 →
        t.calcPos.TopRow = t.calcPos.SelectedRow - ((t.InnerDy - 1) - 1)) := by
  have h1 : (1 : Int) ≤ (t.Rows.length : Int) := by exact_mod_cast h
  unfold Table.calcPos wrapInt
  dsimp only
  split_ifs <;> dsimp only at * <;> omega

theorem calcPos_with_topRow (t : Table) (x : Int) (hint : t.IntFields) (h : 1 ≤ t.Rows.length)
    (hvis : 1 ≤ t.visibleHeight) (htop : t.TopRow < (t.Rows.length : Int))
    (hsmall : (t.Rows.length : Int) + t.InnerDy < 9223372036854775808) :
    (t.TopRow ≤ (Table.calcPos { t with SelectedRow := x }).SelectedRow ∧
        (Table.calcPos { t with SelectedRow := x }).SelectedRow ≤
          t.TopRow + t.visibleHeight - 1 →
        (Table.calcPos { t with SelectedRow := x }).TopRow = t.TopRow) ∧
      ((Table.calcPos { t with SelectedRow := x }).SelectedRow < t.TopRow →
        (Table.calcPos { t with SelectedRow := x }).TopRow =
          (Table.calcPos { t with SelectedRow := x }).SelectedRow) ∧
      ((Table.calcPos { t with SelectedRow := x }).SelectedRow >
          t.TopRow + t.visibleHeight - 1 →
        (Table.calcPos { t with SelectedRow := x }).TopRow =
          (Table.calcPos { t with SelectedRow := x }).SelectedRow - (t.visibleHeight - 1)) := by
  obtain ⟨_, _, ht1, _, _, _, _⟩ := hint
  unfold Table.visibleHeight at hvis ⊢
  exact calcPos_topRow { t with SelectedRow := x } h ht1 htop (by dsimp only; omega) hsmall

/-- Claim C18, counterexample: one row, `SelectedRow = 5`, `TopRow = 0`, two visible rows;
after `ScrollToIndex(7)` the selection 5 lies below the old window and `TopRow` is still 0,
not `5 - 1`. And with five rows, `SelectedRow = TopRow = 4` and an inner height of
`2^63 - 1`, `ScrollUp` selects row 3, above the old window, and the sum
`TopRow + (Inner.Dy() - 2)` wraps around, so that `TopRow` becomes `6 - 2^63`, not 3. -/
theorem scroll_topRow_not_minimal :
    1 ≤ (Table.mk4 [["a"]] 5 0 3).Rows.length ∧ 1 ≤ (Table.mk4 [["a"]] 5 0 3).visibleHeight ∧
      ((Table.mk4 [["a"]] 5 0 3).scroll (.toIndex 7)).SelectedRow >
        (Table.mk4 [["a"]] 5 0 3).TopRow + (Table.mk4 [["a"]] 5 0 3).visibleHeight - 1 ∧
      ((Table.mk4 [["a"]] 5 0 3).scroll (.toIndex 7)).TopRow ≠
        ((Table.mk4 [["a"]] 5 0 3).scroll (.toIndex 7)).SelectedRow -
          ((Table.mk4 [["a"]] 5 0 3).visibleHeight - 1) ∧
      ((Table.mk4 [["a"], ["b"], ["c"], ["d"], ["e"]] 4 4 9223372036854775807).scroll
        .up).SelectedRow = 3 ∧
      ((Table.mk4 [["a"], ["b"], ["c"], ["d"], ["e"]] 4 4 9223372036854775807).scroll
        .up).TopRow = -9223372036854775802 := by
  decide

/-- Claim C18, as amended: for every table with at least one row, a visible height of at
least one row, `TopRow < len(Rows)` and `len(Rows) + Inner.Dy()` in the range of `int`,
after any scroll operation - `ScrollToIndex` with an index inside the table - `TopRow` is
unchanged when the new `SelectedRow` lies in the old window, equals `SelectedRow` when it
lies above it, and equals `SelectedRow - (visibleHeight - 1)` when it lies below it. -/
theorem scroll_topRow_minimal (t : Table) (op : Scroll) (hint : t.IntFields)
    (h : 1 ≤ t.Rows.length) (hvis : 1 ≤ t.visibleHeight)
    (htop : t.TopRow < (t.Rows.length : Int))
    (hsmall : (t.Rows.length : Int) + t.InnerDy < 9223372036854775808)
    (hidx : ∀ idx, op = .toIndex idx → 0 ≤ idx ∧ idx < (t.Rows.length : Int)) :
    (t.TopRow ≤ (t.scroll op).SelectedRow ∧
        (t.scroll op).SelectedRow ≤ t.TopRow + t.visibleHeight - 1 →
        (t.scroll op).TopRow = t.TopRow) ∧
      ((t.scroll op).SelectedRow < t.TopRow → (t.scroll op).TopRow = (t.scroll op).SelectedRow) ∧
      ((t.scroll op).SelectedRow > t.TopRow + t.visibleHeight - 1 →
        (t.scroll op).TopRow = (t.scroll op).SelectedRow - (t.visibleHeight - 1)) := by
  cases op with
  | toIndex idx =>
    have hi := hidx idx rfl
    have hg : ¬ (idx < 0 ∨ idx ≥ (t.Rows.length : Int)) := by omega
    simp only [Table.scroll, Table.ScrollToIndex, if_neg hg]
    exact calcPos_with_topRow t idx hint h hvis htop hsmall
  | _ => exact calcPos_with_topRow t _ hint h hvis htop hsmall

/-- Claim C18, witness: three rows of which two are visible, the selection on the last row;
`ScrollTop` selects row 0, above the old window, and `TopRow` becomes 0. -/
theorem scroll_topRow_minimal_witness :
    (Table.mk4 [["a"], ["b"], ["c"]] 2 1 3).IntFields ∧
      ((Table.mk4 [["a"], ["b"], ["c"]] 2 1 3).scroll .top).SelectedRow <
        (Table.mk4 [["a"], ["b"], ["c"]] 2 1 3).TopRow ∧
      ((Table.mk4 [["a"], ["b"], ["c"]] 2 1 3).scroll .top).TopRow =
        ((Table.mk4 [["a"], ["b"], ["c"]] 2 1 3).scroll .top).SelectedRow :=
  ⟨by decide, by decide,
    (scroll_topRow_minimal (Table.mk4 [["a"], ["b"], ["c"]] 2 1 3) .top (by decide) (by decide)
      (by decide) (by decide) (by decide) (fun idx hop => by cases hop)).2.1 (by decide)⟩

/-! ## Further properties of the process page -/

@[simp] theorem updateUI_scrollableWidget (s : State) :
    s.updateUI.scrollableWidget = s.scrollableWidget := by
  unfold State.updateUI; split <;> rfl

@[simp] theorem pointTo_scrollableWidget (s : State) (v : Widget) :
    (s.pointTo v).scrollableWidget = v := by
  unfold State.pointTo State.onScrollable
  cases v <;> rfl

/-- The state and the calls after `<Escape>`. -/
theorem step_escape (d : Deps) (s : State) (w : World) :
    step d s w (.key "<Escape>") =
      .running
        { ((((({ s with utilitySelected := .None } : State).onScrollable
              Table.DisableCursor).pointTo .procTable).updateUI).updateUI) with
          previousKey := "<Escape>" }
        [.updateUI, .updateUI] := by
  simp [step, onKey, keySwitch]

/-- Claim C20: in every state - the help overlay, the kill prompt and the error overlay in
particular - `<Escape>` leads to the state `None` with the process table as the widget that
receives the scroll keys, and the only calls made are two calls of `updateUI`: no process
is looked up and no signal is sent. -/
theorem escape_returns_to_normal (d : Deps) (s : State) (w : World) :
    ∃ s1, step d s w (.key "<Escape>") = .running s1 [.updateUI, .updateUI] ∧
      s1.utilitySelected = .None ∧ s1.scrollableWidget = .procTable ∧
      ∀ pid sig : Int,
        Effect.lookup pid ∉ [Effect.updateUI, Effect.updateUI] ∧
        Effect.signal pid sig ∉ [Effect.updateUI, Effect.updateUI] :=
  ⟨_, step_escape d s w, by simp, by simp, fun _ _ => by simp⟩

/-! ## The sort keys -/

@[simp] theorem updateUI_rows (s : State) : s.updateUI.procTable.Rows = s.procTable.Rows := by
  unfold State.updateUI; split <;> rfl

@[simp] theorem updateUI_header (s : State) :
    s.updateUI.procTable.Header = s.procTable.Header := by
  unfold State.updateUI; split <;> rfl

@[simp] theorem updateUI_sortIdx (s : State) : s.updateUI.sortIdx = s.sortIdx := by
  unfold State.updateUI; split <;> rfl

@[simp] theorem updateUI_sortAsc (s : State) : s.updateUI.sortAsc = s.sortAsc := by
  unfold State.updateUI; split <;> rfl

theorem keySwitch_fkey (d : Deps) (s : State) (w : World) (n : Nat) (h1 : 1 ≤ n)
    (h8 : n ≤ 8) : keySwitch d s w (fkey n) = functionKey d s (fkey n) := by
  interval_cases n <;> simp [keySwitch, fkey, digit]

theorem atoi_fkey (n : Nat) (h1 : 1 ≤ n) (h8 : n ≤ 8) :
    Atoi ((fkey n).extract ⟨2⟩ ⟨3⟩) = some (n : Int) := by
  interval_cases n <;> decide

theorem digit_mem_sort (n : Nat) (h1 : 1 ≤ n) (h8 : n ≤ 8) :
    digit n ∈ ["1", "2", "3", "4", "5", "6", "7", "8"] := by
  interval_cases n <;> decide

/-- A sort key in the state `None`: the column, the direction, the rows and the header
afterwards. -/
theorem step_sortKey (d : Deps) (s : State) (w : World) (asc : Bool) (n : Nat) (h1 : 1 ≤ n)
    (h8 : n ≤ 8) (hu : s.utilitySelected = .None) :
    ∃ s1 log, step d s w (.key (sortKey asc n)) = .running s1 log ∧
      s1.utilitySelected = .None ∧ s1.sortIdx = (n : Int) - 1 ∧ s1.sortAsc = asc ∧
      s1.procTable.Rows = d.SortData s.procTable.Rows ((n : Int) - 1) asc ∧
      s1.procTable.Header =
        header.set (n - 1)
          (header.getD (n - 1) "" ++ " " ++ (if asc then UpArrow else DownArrow)) := by
  have hidx : wrapInt ((n : Int) - 1) = (n : Int) - 1 := by unfold wrapInt; omega
  have hnat : ((n : Int) - 1).toNat = n - 1 := by omega
  cases asc with
  | true =>
    have hmem := digit_mem_sort n h1 h8
    simp only [sortKey, if_true, step, onKey, keySwitch_digit d s w n (by omega), digitKey, hu,
      hmem, atoi_digit n (by omega), Option.getD_some, hidx, hnat]
    exact ⟨_, _, rfl, by simp [hu], by simp, by simp, by simp, by simp⟩
  | false =>
    simp only [sortKey, Bool.false_eq_true, if_false, step, onKey, keySwitch_fkey d s w n h1 h8,
      functionKey, hu, atoi_fkey n h1 h8, Option.getD_some, hidx, hnat]
    exact ⟨_, _, rfl, by simp [hu], by simp, by simp, by simp, by simp⟩

/-- Claim C11, counterexample: the processes 2 and 1 arrive in this order, both with the
command `sh`. The key `1` sorts by pid and the key `2` then sorts these sorted rows by
command, which leaves the order 1, 2; sorting the rows as they arrived by command gives the
order 2, 1. -/
theorem second_sort_starts_from_sorted_rows :
    twoState.utilitySelected = .None ∧
      twoState.procTable.Rows = getData [procWithPid 2, procWithPid 1] ∧
      (run stableDeps twoState [(calmWorld, .key "1"), (calmWorld, .key "2")]).state?.map
          (fun s => s.procTable.Rows) =
        some (getData [procWithPid 1, procWithPid 2]) ∧
      stableDeps.SortData (getData [procWithPid 2, procWithPid 1]) 1 true =
        getData [procWithPid 2, procWithPid 1] ∧
      (run stableDeps twoState [(calmWorld, .key "1"), (calmWorld, .key "2")]).state?.map
          (fun s => s.procTable.Rows) ≠
        some (stableDeps.SortData (getData [procWithPid 2, procWithPid 1]) 1 true) := by
  decide

/-- Claim C11, as amended: two consecutive sort keys in the state `None`, with no data in
between, sort the rows held by the table one after the other: the rows after the second
key are `SortData` by the second key of the rows as `SortData` by the first key left
them. The column and the direction afterwards are those of the second key. -/
theorem second_sort_of_sorted_rows (d : Deps) (s : State) (w1 w2 : World) (asc1 asc2 : Bool)
    (n1 n2 : Nat) (h1 : 1 ≤ n1 ∧ n1 ≤ 8) (h2 : 1 ≤ n2 ∧ n2 ≤ 8)
    (hu : s.utilitySelected = .None) :
    ∃ s1 log1 s2 log2,
      step d s w1 (.key (sortKey asc1 n1)) = .running s1 log1 ∧
      step d s1 w2 (.key (sortKey asc2 n2)) = .running s2 log2 ∧
      s2.procTable.Rows =
        d.SortData (d.SortData s.procTable.Rows ((n1 : Int) - 1) asc1) ((n2 : Int) - 1) asc2 ∧
      s2.sortIdx = (n2 : Int) - 1 ∧ s2.sortAsc = asc2 := by
  obtain ⟨s1, log1, hs1, hu1, _, _, hr1, _⟩ := step_sortKey d s w1 asc1 n1 h1.1 h1.2 hu
  obtain ⟨s2, log2, hs2, _, hi2, ha2, hr2, _⟩ := step_sortKey d s1 w2 asc2 n2 h2.1 h2.2 hu1
  exact ⟨s1, log1, s2, log2, hs1, hs2, by rw [hr2, hr1], hi2, ha2⟩

/-- Claim C11, witness: the keys `1` and `2` on the rows of the processes 2 and 1. -/
theorem second_sort_of_sorted_rows_witness :
    twoState.utilitySelected = .None ∧
      ∃ s1 log1 s2 log2,
        step stableDeps twoState calmWorld (.key (sortKey true 1)) = .running s1 log1 ∧
        step stableDeps s1 calmWorld (.key (sortKey true 2)) = .running s2 log2 ∧
        s2.procTable.Rows =
          stableDeps.SortData
            (stableDeps.SortData twoState.procTable.Rows (((1 : Nat) : Int) - 1) true)
            (((2 : Nat) : Int) - 1) true ∧
        s2.sortIdx = ((2 : Nat) : Int) - 1 ∧ s2.sortAsc = true :=
  ⟨by decide,
    second_sort_of_sorted_rows stableDeps twoState calmWorld calmWorld true true 1 2
      (by decide) (by decide) (by decide)⟩

/-! ## The kill key -/

theorem keySwitch_K (d : Deps) (s : State) (w : World) (id : String)
    (hid : id = "K" ∨ id = "<F9>") : keySwitch d s w id = killKey s w := by
  rcases hid with h | h <;> subst h <;> simp [keySwitch]

/-! ## The reversal of the package list -/

theorem getD_append_cons (xs : List String) (a : String) (r : List String) (d : String) :
    (xs ++ a :: r).getD xs.length d = a := by
  induction xs with
  | nil => rfl
  | cons x xs ih => simpa using ih

theorem set_append_cons (xs : List String) (a b : String) (r : List String) :
    (xs ++ a :: r).set xs.length b = xs ++ b :: r := by
  induction xs with
  | nil => rfl
  | cons x xs ih => simp

/-- One iteration of the loop on a slice in which `a` is at index `i` and `b` at the opposite
index. -/
theorem reverseLoop_succ (xs mid zs t : List String) (a b : String)
    (hlen : xs.length = zs.length) (ht : t.length = 2) :
    reverseLoop (xs.length + 1) (xs ++ a :: (mid ++ b :: (zs ++ t))) =
      reverseLoop xs.length (xs ++ b :: (mid ++ a :: (zs ++ t))) := by
  have hopp : ((xs ++ a :: (mid ++ b :: (zs ++ t))).length : Int) - 3 - (xs.length : Int) =
      ((xs ++ a :: mid).length : Int) := by
    simp only [List.length_append, List.length_cons, Nat.cast_add, Nat.cast_one, ht, hlen]
    omega
  have hl : (xs ++ a :: (mid ++ b :: (zs ++ t))) = (xs ++ a :: mid) ++ b :: (zs ++ t) := by
    simp
  have hl2 : (xs ++ b :: (mid ++ b :: (zs ++ t))) = (xs ++ b :: mid) ++ b :: (zs ++ t) := by
    simp
  have hlen2 : (xs ++ b :: mid).length = (xs ++ a :: mid).length := by simp
  have hcond : ¬ (((xs ++ a :: mid).length : Int) < 0 ∨
      ((xs ++ a :: (mid ++ b :: (zs ++ t))).length : Int) ≤ ((xs ++ a :: mid).length : Int) ∨
      (xs ++ a :: (mid ++ b :: (zs ++ t))).length ≤ xs.length) := by
    simp only [List.length_append, List.length_cons, Nat.cast_add, Nat.cast_one]
    omega
  rw [reverseLoop]
  simp only [hopp, if_neg hcond, Int.toNat_ofNat]
  congr 1
  rw [getD_append_cons, set_append_cons, hl, getD_append_cons, hl2, ← hlen2, set_append_cons]
  simp

theorem reverseLoop_append (xs : List String) :
    ∀ (mid zs t : List String), xs.length = zs.length → t.length = 2 →
      reverseLoop xs.length (xs ++ (mid ++ (zs ++ t))) =
        some (zs.reverse ++ (mid ++ (xs.reverse ++ t))) := by
  induction xs using List.reverseRecOn with
  | nil =>
    intro mid zs t hlen _
    have hz : zs = [] := List.length_eq_zero.mp hlen.symm
    subst hz
    simp [reverseLoop]
  | append_singleton xs a ih =>
    intro mid zs t hlen ht
    cases zs with
    | nil => simp at hlen
    | cons b zs =>
      have hlen1 : xs.length = zs.length := by simpa using hlen
      have h1 := reverseLoop_succ xs mid zs t a b hlen1 ht
      have h2 := ih (b :: (mid ++ [a])) zs t hlen1 ht
      simp only [List.length_append, List.length_singleton, List.append_assoc,
        List.singleton_append, List.cons_append, List.reverse_append, List.reverse_cons,
        List.reverse_nil, List.nil_append] at h1 h2 ⊢
      rw [h1, h2]

/-- The first iteration on an odd number of lines swaps the middle package line with itself. -/
theorem reverseLoop_middle (xs zs t : List String) (c : String)
    (hlen : xs.length = zs.length) (ht : t.length = 2) :
    reverseLoop (xs.length + 1) (xs ++ c :: (zs ++ t)) =
      reverseLoop xs.length (xs ++ c :: (zs ++ t)) := by
  have hopp : ((xs ++ c :: (zs ++ t)).length : Int) - 3 - (xs.length : Int) =
      (xs.length : Int) := by
    simp only [List.length_append, List.length_cons, Nat.cast_add, Nat.cast_one, ht, hlen]
    omega
  have hcond : ¬ ((xs.length : Int) < 0 ∨
      ((xs ++ c :: (zs ++ t)).length : Int) ≤ (xs.length : Int) ∨
      (xs ++ c :: (zs ++ t)).length ≤ xs.length) := by
    simp only [List.length_append, List.length_cons, Nat.cast_add, Nat.cast_one]
    omega
  rw [reverseLoop]
  simp only [hopp, if_neg hcond, Int.toNat_ofNat]
  congr 1
  rw [getD_append_cons, set_append_cons, set_append_cons]

theorem odd_length_split (pkgs : List String) (k : Nat) (h : pkgs.length = 2 * k + 3) :
    ∃ (xs zs t : List String) (c : String), pkgs = xs ++ c :: (zs ++ t) ∧
      xs.length = k ∧ zs.length = k ∧ t.length = 2 := by
  have h1 : pkgs = pkgs.take k ++ pkgs.drop k := (List.take_append_drop k pkgs).symm
  have hd : (pkgs.drop k).length = k + 3 := by rw [List.length_drop]; omega
  cases hr : pkgs.drop k with
  | nil => rw [hr] at hd; simp at hd
  | cons c rest =>
    rw [hr] at hd h1
    have hrest : rest.length = k + 2 := by simpa using hd
    refine ⟨pkgs.take k, rest.take k, rest.drop k, c, ?_, ?_, ?_, ?_⟩
    · rw [List.take_append_drop]
      exact h1
    · rw [List.length_take]; omega
    · rw [List.length_take]; omega
    · rw [List.length_drop]; omega

/-- For an odd number of lines the loop reverses the package lines and leaves the last two
lines in place. -/
theorem reversePackages_odd_length (pkgs : List String) (k : Nat)
    (h : pkgs.length = 2 * k + 3) :
    reversePackages pkgs = some (reversedPackageLines pkgs) := by
  obtain ⟨xs, zs, t, c, rfl, hx, hz, ht⟩ := odd_length_split pkgs k h
  have hhalf : (xs ++ c :: (zs ++ t)).length / 2 = xs.length + 1 := by
    rw [h]; omega
  have hm : (xs ++ c :: (zs ++ t)).length - 2 = (xs ++ c :: zs).length := by
    simp only [List.length_append, List.length_cons]
    omega
  have hl : xs ++ c :: (zs ++ t) = (xs ++ c :: zs) ++ t := by simp
  unfold reversePackages reversedPackageLines
  rw [hhalf, reverseLoop_middle xs zs t c (by omega) ht, hm]
  have h2 := reverseLoop_append xs [c] zs t (by omega) ht
  simp only [List.singleton_append] at h2
  rw [h2, hl, List.take_left' rfl, List.drop_left' rfl]
  simp


/-- The first iteration on an even number of lines swaps the two middle package lines, the
index `i` being the upper one. -/
theorem reverseLoop_upper (xs zs t : List String) (a b : String)
    (hlen : xs.length = zs.length) (ht : t.length = 2) :
    reverseLoop (xs.length + 1 + 1) (xs ++ a :: b :: (zs ++ t)) =
      reverseLoop (xs.length + 1) (xs ++ b :: a :: (zs ++ t)) := by
  have hopp : ((xs ++ a :: b :: (zs ++ t)).length : Int) - 3 - ((xs.length + 1 : Nat) : Int) =
      (xs.length : Int) := by
    simp only [List.length_append, List.length_cons, Nat.cast_add, Nat.cast_one, ht, hlen]
    omega
  have hcond : ¬ ((xs.length : Int) < 0 ∨
      ((xs ++ a :: b :: (zs ++ t)).length : Int) ≤ (xs.length : Int) ∨
      (xs ++ a :: b :: (zs ++ t)).length ≤ xs.length + 1) := by
    simp only [List.length_append, List.length_cons, Nat.cast_add, Nat.cast_one]
    omega
  have hl : xs ++ a :: b :: (zs ++ t) = (xs ++ [a]) ++ b :: (zs ++ t) := by simp
  have hl2 : xs ++ a :: a :: (zs ++ t) = (xs ++ [a]) ++ a :: (zs ++ t) := by simp
  have hlen2 : xs.length + 1 = (xs ++ [a]).length := by simp
  rw [reverseLoop]
  simp only [hopp, if_neg hcond, Int.toNat_ofNat]
  congr 1
  rw [getD_append_cons, hl, hlen2, getD_append_cons, set_append_cons, ← hl2, set_append_cons]

/-- For an even number of lines the two middle package lines are swapped twice: the outcome
is the reversal with these two lines in their old order. -/
theorem reversePackages_even (xs zs t : List String) (a b : String)
    (hlen : xs.length = zs.length) (ht : t.length = 2) :
    reversePackages (xs ++ a :: b :: (zs ++ t)) =
        some (zs.reverse ++ a :: b :: (xs.reverse ++ t)) ∧
      reversedPackageLines (xs ++ a :: b :: (zs ++ t)) =
        zs.reverse ++ b :: a :: (xs.reverse ++ t) := by
  have hhalf : (xs ++ a :: b :: (zs ++ t)).length / 2 = xs.length + 1 + 1 := by
    simp only [List.length_append, List.length_cons, ht, hlen]
    omega
  have hm : (xs ++ a :: b :: (zs ++ t)).length - 2 = (xs ++ a :: b :: zs).length := by
    simp only [List.length_append, List.length_cons]
    omega
  have hl : xs ++ a :: b :: (zs ++ t) = (xs ++ a :: b :: zs) ++ t := by simp
  constructor
  · unfold reversePackages
    rw [hhalf, reverseLoop_upper xs zs t a b hlen ht]
    have h1 := reverseLoop_succ xs [] zs t b a hlen ht
    have h2 := reverseLoop_append xs [a, b] zs t hlen ht
    simp only [List.nil_append, List.cons_append] at h1 h2
    rw [h1, h2]
  · unfold reversedPackageLines
    rw [hm, hl, List.take_left' rfl, List.drop_left' rfl]
    simp

/-- Two package lines, whatever they are, are swapped twice and stay in place. -/
theorem reversePackages_two_packages (a b cmds titles : String) :
    reversePackages [a, b, cmds, titles] = some [a, b, cmds, titles] := by
  simp [reversePackages, reverseLoop]

/-- Without a package line the first iteration computes the index `-1`. -/
theorem reversePackages_no_package (cmds titles : String) :
    reversePackages [cmds, titles] = none := by
  simp [reversePackages, reverseLoop]

/-- Claim C22, the code at the failing inputs: with four lines (two packages) the loop swaps
the two package lines twice and leaves them in place; with six lines the two middle package
lines stay in place; with two lines (no package) the first iteration reads `pkgs[-1]`. With
three and with five lines the package lines are reversed. -/
theorem reversePackages_even_length :
    reversePackages ["a", "b", "cmds", "titles"] = some ["a", "b", "cmds", "titles"] ∧
      reversedPackageLines ["a", "b", "cmds", "titles"] = ["b", "a", "cmds", "titles"] ∧
      reversePackages ["a", "b", "c", "d", "cmds", "titles"] =
        some ["d", "b", "c", "a", "cmds", "titles"] ∧
      reversedPackageLines ["a", "b", "c", "d", "cmds", "titles"] =
        ["d", "c", "b", "a", "cmds", "titles"] ∧
      reversePackages ["cmds", "titles"] = none ∧
      reversePackages ["a", "cmds", "titles"] = some ["a", "cmds", "titles"] ∧
      reversePackages ["a", "b", "c", "cmds", "titles"] =
        some ["c", "b", "a", "cmds", "titles"] := by
  decide

/-! ## The size of the help menu -/

theorem tdiv_two_spec (a : Int) :
    (0 ≤ a → 2 * Int.tdiv a 2 ≤ a ∧ a < 2 * Int.tdiv a 2 + 2) ∧
      (a < 0 → a ≤ 2 * Int.tdiv a 2 ∧ 2 * Int.tdiv a 2 < a + 2) := by
  constructor
  · intro h
    rw [Int.tdiv_eq_ediv h (by decide)]
    omega
  · intro h
    have e : a = -(-a) := by omega
    rw [e, Int.neg_tdiv, Int.tdiv_eq_ediv (by omega) (by decide)]
    omega

theorem helpTextWidth_foldl (keybindings : List (List String)) (acc tw : Int)
    (hacc : 50 ≤ acc ∧ acc < 4611686018427387904 + 2)
    (hlen : ∀ line ∈ keybindings, ∀ cell, line.head? = some cell →
      cell.utf8ByteSize < 4611686018427387904)
    (h : keybindings.foldl
        (fun acc line =>
          match acc, line.head? with
          | some textWidth, some cell =>
            if textWidth < (cell.utf8ByteSize : Int) then
              some (wrapInt ((cell.utf8ByteSize : Int) + 2))
            else some textWidth
          | _, _ => none)
        (some acc) = some tw) :
    acc ≤ tw ∧ tw < 4611686018427387904 + 2 ∧
      ∀ line ∈ keybindings, ∀ cell, line.head? = some cell → (cell.utf8ByteSize : Int) ≤ tw := by
  induction keybindings generalizing acc with
  | nil =>
    simp only [List.foldl_nil, Option.some.injEq] at h
    subst h
    exact ⟨le_refl _, hacc.2, fun line hl => absurd hl (List.not_mem_nil _)⟩
  | cons line rest ih =>
    rw [List.foldl_cons] at h
    cases hh : line.head? with
    | none =>
      rw [hh] at h
      simp only at h
      exfalso
      clear ih hlen hacc hh
      induction rest with
      | nil => simp at h
      | cons l r ihr => exact ihr (by simpa using h)
    | some cell =>
      rw [hh] at h
      simp only at h
      have hc : cell.utf8ByteSize < 4611686018427387904 :=
        hlen line (List.mem_cons_self _ _) cell hh
      have hrest : ∀ l ∈ rest, ∀ c, l.head? = some c → c.utf8ByteSize < 4611686018427387904 :=
        fun l hl => hlen l (List.mem_cons_of_mem _ hl)
      by_cases hlt : acc < (cell.utf8ByteSize : Int)
      · rw [if_pos hlt] at h
        have hwrap : wrapInt ((cell.utf8ByteSize : Int) + 2) = (cell.utf8ByteSize : Int) + 2 := by
          unfold wrapInt; omega
        rw [hwrap] at h
        obtain ⟨h1, h2, h3⟩ := ih ((cell.utf8ByteSize : Int) + 2) (by omega) hrest h
        refine ⟨by omega, h2, fun l hl c hcl => ?_⟩
        rcases List.mem_cons.mp hl with rfl | hl
        · rw [hh] at hcl
          cases hcl
          omega
        · exact h3 l hl c hcl
      · rw [if_neg hlt] at h
        obtain ⟨h1, h2, h3⟩ := ih acc hacc hrest h
        refine ⟨h1, h2, fun l hl c hcl => ?_⟩
        rcases List.mem_cons.mp hl with rfl | hl
        · rw [hh] at hcl
          cases hcl
          omega
        · exact h3 l hl c hcl


theorem helpTextWidth_bounds (keybindings : List (List String)) (tw : Int)
    (hlen : ∀ line ∈ keybindings, ∀ cell, line.head? = some cell →
      cell.utf8ByteSize < 4611686018427387904)
    (h : helpTextWidth keybindings = some tw) :
    50 ≤ tw ∧ tw < 4611686018427387904 + 2 ∧
      ∀ line ∈ keybindings, ∀ cell, line.head? = some cell → (cell.utf8ByteSize : Int) ≤ tw :=
  helpTextWidth_foldl keybindings 50 tw (by omega) hlen h

/-- Unless the terminal is exactly one column narrower, or one row lower, than the text, the
rectangle lies inside the terminal; and in a terminal at least as wide as the text its width is
the text width, which is at least 50 and at least the length of every key binding. -/
theorem helpResize_inside (keybindings : List (List String)) (tw termWidth termHeight : Int)
    (hn : keybindings.length < 4611686018427387904)
    (hlen : ∀ line ∈ keybindings, ∀ cell, line.head? = some cell →
      cell.utf8ByteSize < 4611686018427387904)
    (h : helpTextWidth keybindings = some tw)
    (hw0 : 0 ≤ termWidth) (hw1 : termWidth < 4611686018427387904)
    (hh0 : 0 ≤ termHeight) (hh1 : termHeight < 4611686018427387904)
    (hx : termWidth - tw ≠ -1) (hy : termHeight - ((keybindings.length : Int) + 3) ≠ -1) :
    ∃ x0 y0 x1 y1, helpResize keybindings termWidth termHeight = some (x0, y0, x1, y1) ∧
      0 ≤ x0 ∧ x0 ≤ x1 ∧ x1 ≤ termWidth ∧ 0 ≤ y0 ∧ y0 ≤ y1 ∧ y1 ≤ termHeight ∧
      (tw ≤ termWidth → x1 - x0 = tw ∧ 50 ≤ tw ∧
        ∀ line ∈ keybindings, ∀ cell, line.head? = some cell →
          (cell.utf8ByteSize : Int) ≤ tw) := by
  obtain ⟨b1, b2, b3⟩ := helpTextWidth_bounds keybindings tw hlen h
  have hn1 : (keybindings.length : Int) < 4611686018427387904 := by exact_mod_cast hn
  have e1 : wrapInt ((keybindings.length : Int) + 3) = (keybindings.length : Int) + 3 := by
    unfold wrapInt; omega
  have e2 : wrapInt (termWidth - tw) = termWidth - tw := by unfold wrapInt; omega
  have e3 : wrapInt (termHeight - ((keybindings.length : Int) + 3)) =
      termHeight - ((keybindings.length : Int) + 3) := by unfold wrapInt; omega
  obtain ⟨px, nx⟩ := tdiv_two_spec (termWidth - tw)
  obtain ⟨py, ny⟩ := tdiv_two_spec (termHeight - ((keybindings.length : Int) + 3))
  simp only [helpResize, h, e1, e2, e3]
  generalize Int.tdiv (termWidth - tw) 2 = qx at *
  generalize Int.tdiv (termHeight - ((keybindings.length : Int) + 3)) 2 = qy at *
  refine ⟨_, _, _, _, rfl, ?_⟩
  unfold wrapInt
  refine ⟨?_, ?_, ?_, ?_, ?_, ?_, fun hle => ⟨?_, b1, b3⟩⟩ <;> split_ifs <;> omega

/-- A key binding without a column: `line[0]` panics and no rectangle is set. -/
theorem helpResize_empty_line : helpResize [[]] 80 24 = none := by
  decide

/-- In a terminal one column narrower than the text, whatever the key bindings are, the
quotient `(-1) / 2` is 0: the width is not reduced and the rectangle ends one column beyond
the terminal. -/
theorem helpResize_one_column_short (keybindings : List (List String)) (textWidth : Int)
    (termHeight : Int) (h : helpTextWidth keybindings = some textWidth)
    (h1 : 50 ≤ textWidth) (h2 : textWidth < 4611686018427387904) :
    ∃ y0 y1, helpResize keybindings (textWidth - 1) termHeight = some (0, y0, textWidth, y1) := by
  have hd : wrapInt (textWidth - 1 - textWidth) = -1 := by unfold wrapInt; omega
  have hq : Int.tdiv (-1) 2 = 0 := by decide
  have hw : wrapInt (textWidth + 0) = textWidth := by unfold wrapInt; omega
  simp only [helpResize, h, hd, hq, lt_irrefl, if_false, hw]
  exact ⟨_, _, rfl⟩

/-- Claim C26, the code at the failing inputs: in a terminal 49 columns wide the quotient
`(49 - 50) / 2` is 0, so the width stays 50 and the rectangle ends at column 50; in a
terminal 3 rows high with one key binding (text height 4) the rectangle ends at row 4. -/
theorem helpResize_overhangs :
    helpResize [["Quit: q"]] 49 30 = some (0, 13, 50, 17) ∧ ¬ ((50 : Int) ≤ 49) ∧
      helpResize [["Quit: q"]] 80 3 = some (15, 0, 65, 4) ∧ ¬ ((4 : Int) ≤ 3) := by
  decide

/-! ## The widget that receives the scroll keys -/

@[simp] theorem updateProcs_scrollableWidget (s : State) (w : World) :
    (s.updateProcs w).1.scrollableWidget = s.scrollableWidget := by
  unfold State.updateProcs; split
  · split <;> rfl
  · rfl

/-- In every kill prompt, the tick that finds the process gone leads to the state `None`
and leaves `scrollableWidget` as it was. -/
theorem tick_gone_keeps_widget (d : Deps) (s : State) (w : World)
    (hk : s.utilitySelected = .Kill) (hgone : w.pidExists = false) :
    ∃ s1 log, step d s w .tick = .running s1 log ∧ s1.utilitySelected = .None ∧
      s1.scrollableWidget = s.scrollableWidget :=
  ⟨_, _, step_tick_gone d s w hk hgone, by simp, by simp⟩

/-- Claim C23, the code at the failing inputs. After a batch, `K` and a tick that finds the
process gone, the state is `None` while the scroll keys still go to the signal list: the key
`j` then moves the selection of the signal list and not that of the process table. After `?`
and `<Enter>` the help overlay is active while the scroll keys go to the process table.
After a batch, `K` and a second `K` whose signal is delivered, the kill prompt is active while
the scroll keys go to the process table. -/
theorem scroll_widget_out_of_step :
    (run plainDeps (State.init emptyPage someHelp someSignals)
        [(calmWorld, .data [procWithPid 42]), (calmWorld, .key "K"),
          (goneWorld, .tick)]).state?.map
        (fun s => (s.utilitySelected, s.scrollableWidget)) = some (.None, .signalsTable) ∧
      (run plainDeps (State.init emptyPage someHelp someSignals)
        [(calmWorld, .data [procWithPid 42]), (calmWorld, .key "K"),
          (goneWorld, .tick), (goneWorld, .key "j")]).state?.map
        (fun s => (s.utilitySelected, s.procTable.SelectedRow, s.signalsTable.SelectedRow)) =
        some (.None, 0, 1) ∧
      (run plainDeps (State.init emptyPage someHelp someSignals)
        [(calmWorld, .key "?"), (calmWorld, .key "<Enter>")]).state?.map
        (fun s => (s.utilitySelected, s.scrollableWidget)) = some (.Help, .procTable) ∧
      (run plainDeps (State.init emptyPage someHelp someSignals)
        [(calmWorld, .data [procWithPid 42]), (calmWorld, .key "K"),
          (calmWorld, .key "K")]).state?.map
        (fun s => (s.utilitySelected, s.scrollableWidget)) = some (.Kill, .procTable) := by
  decide

/-! ## The kill key on an empty table -/

/-- Claim C24, the code at the failing input: on the empty process table the key `k` (and
likewise `j`) leaves `SelectedRow = -1`, which passes the test `SelectedRow < len(Rows)`, so
the key `K` (and likewise `<F9>`) then indexes `Rows[-1]` and the function panics. Without a
scroll key before it, `K` on the empty table changes nothing but `previousKey`. -/
theorem kill_key_on_empty_table_after_scroll :
    (run plainDeps (State.init emptyPage someHelp someSignals)
        [(calmWorld, .key "k")]).state?.map
        (fun s => (s.utilitySelected, s.procTable.Rows, s.procTable.SelectedRow)) =
        some (.None, [], -1) ∧
      run plainDeps (State.init emptyPage someHelp someSignals)
        [(calmWorld, .key "k"), (calmWorld, .key "K")] = .panicked ∧
      run plainDeps (State.init emptyPage someHelp someSignals)
        [(calmWorld, .key "j"), (calmWorld, .key "<F9>")] = .panicked ∧
      run plainDeps (State.init emptyPage someHelp someSignals) [(calmWorld, .key "K")] =
        .running { State.init emptyPage someHelp someSignals with previousKey := "K" } [] := by
  decide

/-! ## The refresh after the kill prompt -/

/-- In every state `<Escape>` leads to the state `None` and leaves `runAllProc` as it was. -/
theorem escape_keeps_runAllProc (d : Deps) (s : State) (w : World) :
    ∃ s1 log, step d s w (.key "<Escape>") = .running s1 log ∧ s1.utilitySelected = .None ∧
      s1.runAllProc = s.runAllProc :=
  ⟨_, _, step_escape d s w, by simp, by simp⟩

/-- Claim C25, the code at the failing input: after a batch, `K` and `<Escape>` the state is
`None` and `runAllProc` is still false, and the next batch leaves the rows of the process
table as they were. After `<Enter>`, and after a tick that finds the process gone, the state
is `None` and `runAllProc` is true. -/
theorem escape_from_kill_prompt_keeps_pause :
    (run plainDeps (State.init emptyPage someHelp someSignals)
        [(calmWorld, .data [procWithPid 42]), (calmWorld, .key "K"),
          (calmWorld, .key "<Escape>")]).state?.map
        (fun s => (s.utilitySelected, s.runAllProc, s.procTable.Rows)) =
        some (.None, false, getData [procWithPid 42]) ∧
      (run plainDeps (State.init emptyPage someHelp someSignals)
        [(calmWorld, .data [procWithPid 42]), (calmWorld, .key "K"),
          (calmWorld, .key "<Escape>"), (calmWorld, .data [procWithPid 7])]).state?.map
        (fun s => (s.utilitySelected, s.runAllProc, s.procTable.Rows)) =
        some (.None, false, getData [procWithPid 42]) ∧
      getData [procWithPid 7] ≠ getData [procWithPid 42] ∧
      (run plainDeps (State.init emptyPage someHelp someSignals)
        [(calmWorld, .data [procWithPid 42]), (calmWorld, .key "K"),
          (calmWorld, .key "<Enter>")]).state?.map
        (fun s => (s.utilitySelected, s.runAllProc)) = some (.None, true) ∧
      (run plainDeps (State.init emptyPage someHelp someSignals)
        [(calmWorld, .data [procWithPid 42]), (calmWorld, .key "K"),
          (goneWorld, .tick)]).state?.map
        (fun s => (s.utilitySelected, s.runAllProc)) = some (.None, true) := by
  decide

/-! ## The header and the sort column -/

theorem calcPos_header (t : Table) : t.calcPos.Header = t.Header := by
  unfold Table.calcPos
  simp only []
  split_ifs <;> simp

theorem scrollMethod_header (f : Table → Table) (hf : IsScrollMethod f) (t : Table) :
    (f t).Header = t.Header := by
  rcases hf with h | h | h | h | h | h | h | h <;> subst h <;>
    simp [Table.ScrollDown, Table.ScrollUp, Table.ScrollHalfPageDown, Table.ScrollHalfPageUp,
      Table.ScrollPageDown, Table.ScrollPageUp, Table.ScrollTop, Table.ScrollBottom,
      calcPos_header]

@[simp] theorem onScrollable_sortIdx (s : State) (f : Table → Table) :
    (s.onScrollable f).sortIdx = s.sortIdx := by
  unfold State.onScrollable; split <;> rfl

theorem onScrollable_header (s : State) (f : Table → Table)
    (hf : ∀ t, (f t).Header = t.Header) :
    (s.onScrollable f).procTable.Header = s.procTable.Header := by
  unfold State.onScrollable
  split
  · exact hf _
  · rfl
  · rfl

@[simp] theorem pointTo_sortIdx (s : State) (v : Widget) : (s.pointTo v).sortIdx = s.sortIdx := by
  unfold State.pointTo; simp

@[simp] theorem pointTo_header (s : State) (v : Widget) :
    (s.pointTo v).procTable.Header = s.procTable.Header := by
  unfold State.pointTo
  exact onScrollable_header _ _ (fun t => rfl)

@[simp] theorem updateProcs_sortIdx (s : State) (w : World) :
    (s.updateProcs w).1.sortIdx = s.sortIdx := by
  unfold State.updateProcs; split
  · split <;> rfl
  · rfl

@[simp] theorem updateProcs_header (s : State) (w : World) :
    (s.updateProcs w).1.procTable.Header = s.procTable.Header := by
  unfold State.updateProcs; split
  · split <;> rfl
  · rfl

@[simp] theorem kill_sortIdx (s : State) (w : World) (sig : Int) :
    (s.kill w sig).1.sortIdx = s.sortIdx := by
  unfold State.kill
  dsimp only
  split
  · split <;> rfl
  · rfl

@[simp] theorem kill_header (s : State) (w : World) (sig : Int) :
    (s.kill w sig).1.procTable.Header = s.procTable.Header := by
  unfold State.kill
  dsimp only
  split
  · split <;> rfl
  · rfl

theorem headerOK_of_same (s s1 : State) (h : HeaderOK s) (h1 : s1.sortIdx = s.sortIdx)
    (h2 : s1.procTable.Header = s.procTable.Header) : HeaderOK s1 := by
  unfold HeaderOK at *
  rw [h1, h2]
  exact h

/-- The cases of the statement `switch e.ID`, one premise for each kind of case. -/
theorem keySwitch_all (P : State → Prop) (d : Deps) (s : State) (w : World) (id : String)
    (hui : P s.updateUI)
    (hhelp : P ({ (s.onScrollable Table.DisableCursor).pointTo .helpTable with
        utilitySelected := .Help } : State).updateUI)
    (hpause : P { s with runAllProc := !s.runAllProc })
    (hesc : P ((({ s with utilitySelected := .None } : State).onScrollable
        Table.DisableCursor).pointTo .procTable).updateUI)
    (hscroll : ∀ f, IsScrollMethod f → P (s.onScrollable f))
    (hsame : P s)
    (hkill : (killKey s w).all P)
    (hdigit : (digitKey d s id).all P)
    (hfn : id ∈ ["<F1>", "<F2>", "<F3>", "<F4>", "<F5>", "<F6>", "<F7>", "<F8>"] →
      (functionKey d s id).all P)
    (henter : (enterKey d s w).all P) :
    (keySwitch d s w id).all P := by
  unfold keySwitch
  by_cases hc : id = "q" ∨ id = "<C-c>"
  · rw [if_pos hc]
    rfl
  rw [if_neg hc]
  clear hc
  by_cases hc : id = "<Resize>"
  · rw [if_pos hc]
    exact hui
  rw [if_neg hc]
  clear hc
  by_cases hc : id = "?"
  · rw [if_pos hc]
    exact hhelp
  rw [if_neg hc]
  clear hc
  by_cases hc : id = "p"
  · rw [if_pos hc]
    exact hpause
  rw [if_neg hc]
  clear hc
  by_cases hc : id = "<Escape>"
  · rw [if_pos hc]
    exact hesc
  rw [if_neg hc]
  clear hc
  by_cases hc : id = "j" ∨ id = "<Down>"
  · rw [if_pos hc]
    exact hscroll _ (Or.inl rfl)
  rw [if_neg hc]
  clear hc
  by_cases hc : id = "k" ∨ id = "<Up>"
  · rw [if_pos hc]
    exact hscroll _ (Or.inr (Or.inl rfl))
  rw [if_neg hc]
  clear hc
  by_cases hc : id = "<C-d>"
  · rw [if_pos hc]
    exact hscroll _ (Or.inr (Or.inr (Or.inl rfl)))
  rw [if_neg hc]
  clear hc
  by_cases hc : id = "<C-u>"
  · rw [if_pos hc]
    exact hscroll _ (Or.inr (Or.inr (Or.inr (Or.inl rfl))))
  rw [if_neg hc]
  clear hc
  by_cases hc : id = "<C-f>"
  · rw [if_pos hc]
    exact hscroll _ (Or.inr (Or.inr (Or.inr (Or.inr (Or.inl rfl)))))
  rw [if_neg hc]
  clear hc
  by_cases hc : id = "<C-b>"
  · rw [if_pos hc]
    exact hscroll _ (Or.inr (Or.inr (Or.inr (Or.inr (Or.inr (Or.inl rfl))))))
  rw [if_neg hc]
  clear hc
  by_cases hc : id = "g"
  · rw [if_pos hc]
    by_cases hg : s.previousKey = "g"
    · rw [if_pos hg]
      exact hscroll _ (Or.inr (Or.inr (Or.inr (Or.inr (Or.inr (Or.inr (Or.inl rfl)))))))
    · rw [if_neg hg]
      exact hsame
  rw [if_neg hc]
  clear hc
  by_cases hc : id = "<Home>"
  · rw [if_pos hc]
    exact hscroll _ (Or.inr (Or.inr (Or.inr (Or.inr (Or.inr (Or.inr (Or.inl rfl)))))))
  rw [if_neg hc]
  clear hc
  by_cases hc : id = "G" ∨ id = "<End>"
  · rw [if_pos hc]
    exact hscroll _ (Or.inr (Or.inr (Or.inr (Or.inr (Or.inr (Or.inr (Or.inr rfl)))))))
  rw [if_neg hc]
  clear hc
  by_cases hc : id = "K" ∨ id = "<F9>"
  · rw [if_pos hc]
    exact hkill
  rw [if_neg hc]
  clear hc
  by_cases hc : id ∈ ["0", "1", "2", "3", "4", "5", "6", "7", "8", "9"]
  · rw [if_pos hc]
    exact hdigit
  rw [if_neg hc]
  clear hc
  by_cases hc : id ∈ ["<F1>", "<F2>", "<F3>", "<F4>", "<F5>", "<F6>", "<F7>", "<F8>"]
  · rw [if_pos hc]
    exact hfn hc
  rw [if_neg hc]
  clear hc
  by_cases hc : id = "<Enter>"
  · rw [if_pos hc]
    exact henter
  rw [if_neg hc]
  exact hsame

theorem killKey_headerOK (s : State) (w : World) (h : HeaderOK s) :
    (killKey s w).all HeaderOK := by
  unfold killKey
  split
  · split
    · split
      · rfl
      · split
        · rfl
        · split
          · rfl
          · split
            · rfl
            · exact headerOK_of_same s _ h (by simp) (by simp)
    · exact h
  · exact headerOK_of_same s _ h (by simp) (by simp)
  · exact h

theorem digitKey_headerOK (d : Deps) (s : State) (id : String) (h : HeaderOK s) :
    (digitKey d s id).all HeaderOK := by
  unfold digitKey
  split
  · exact headerOK_of_same s _ h rfl rfl
  · by_cases hm : id ∈ ["1", "2", "3", "4", "5", "6", "7", "8"]
    · rw [if_pos hm]
      simp only [List.mem_cons, List.mem_singleton, List.not_mem_nil, or_false] at hm
      rcases hm with rfl | rfl | rfl | rfl | rfl | rfl | rfl | rfl
      · refine Or.inr ⟨1, by decide, by decide, ?_, UpArrow, ?_⟩ <;> dsimp only <;> decide
      · refine Or.inr ⟨2, by decide, by decide, ?_, UpArrow, ?_⟩ <;> dsimp only <;> decide
      · refine Or.inr ⟨3, by decide, by decide, ?_, UpArrow, ?_⟩ <;> dsimp only <;> decide
      · refine Or.inr ⟨4, by decide, by decide, ?_, UpArrow, ?_⟩ <;> dsimp only <;> decide
      · refine Or.inr ⟨5, by decide, by decide, ?_, UpArrow, ?_⟩ <;> dsimp only <;> decide
      · refine Or.inr ⟨6, by decide, by decide, ?_, UpArrow, ?_⟩ <;> dsimp only <;> decide
      · refine Or.inr ⟨7, by decide, by decide, ?_, UpArrow, ?_⟩ <;> dsimp only <;> decide
      · refine Or.inr ⟨8, by decide, by decide, ?_, UpArrow, ?_⟩ <;> dsimp only <;> decide
    · rw [if_neg hm]
      by_cases h0 : id = "0"
      · rw [if_pos h0]
        exact Or.inl ⟨rfl, rfl⟩
      · rw [if_neg h0]
        exact h
  · exact h

theorem functionKey_headerOK (d : Deps) (s : State) (id : String) (h : HeaderOK s)
    (hm : id ∈ ["<F1>", "<F2>", "<F3>", "<F4>", "<F5>", "<F6>", "<F7>", "<F8>"]) :
    (functionKey d s id).all HeaderOK := by
  unfold functionKey
  split
  · simp only [List.mem_cons, List.mem_singleton, List.not_mem_nil, or_false] at hm
    rcases hm with rfl | rfl | rfl | rfl | rfl | rfl | rfl | rfl
    · refine Or.inr ⟨1, by decide, by decide, ?_, DownArrow, ?_⟩ <;> dsimp only <;> decide
    · refine Or.inr ⟨2, by decide, by decide, ?_, DownArrow, ?_⟩ <;> dsimp only <;> decide
    · refine Or.inr ⟨3, by decide, by decide, ?_, DownArrow, ?_⟩ <;> dsimp only <;> decide
    · refine Or.inr ⟨4, by decide, by decide, ?_, DownArrow, ?_⟩ <;> dsimp only <;> decide
    · refine Or.inr ⟨5, by decide, by decide, ?_, DownArrow, ?_⟩ <;> dsimp only <;> decide
    · refine Or.inr ⟨6, by decide, by decide, ?_, DownArrow, ?_⟩ <;> dsimp only <;> decide
    · refine Or.inr ⟨7, by decide, by decide, ?_, DownArrow, ?_⟩ <;> dsimp only <;> decide
    · refine Or.inr ⟨8, by decide, by decide, ?_, DownArrow, ?_⟩ <;> dsimp only <;> decide
  · exact h

theorem enterKey_headerOK (d : Deps) (s : State) (w : World) (h : HeaderOK s) :
    (enterKey d s w).all HeaderOK := by
  unfold enterKey
  split
  · exact headerOK_of_same s _ h (by simp) (by simp)
  · exact headerOK_of_same s _ h (by simp) (by simp)

theorem keySwitch_headerOK (d : Deps) (s : State) (w : World) (id : String)
    (h : HeaderOK s) : (keySwitch d s w id).all HeaderOK := by
  apply keySwitch_all
  · exact headerOK_of_same s _ h (by simp) (by simp)
  · exact headerOK_of_same s _ h (by simp)
      (by simp only [updateUI_header, pointTo_header]
          exact onScrollable_header _ _ (fun t => rfl))
  · exact headerOK_of_same s _ h rfl rfl
  · exact headerOK_of_same s _ h (by simp)
      (by simp only [updateUI_header, pointTo_header]
          exact onScrollable_header _ _ (fun t => rfl))
  · intro f hf
    exact headerOK_of_same s _ h (by simp)
      (onScrollable_header _ _ (scrollMethod_header f hf))
  · exact h
  · exact killKey_headerOK s w h
  · exact digitKey_headerOK d s id h
  · exact functionKey_headerOK d s id h
  · exact enterKey_headerOK d s w h

theorem step_headerOK (d : Deps) (s : State) (w : World) (e : Event) (s1 : State)
    (log : List Effect) (hstep : step d s w e = .running s1 log) (h : HeaderOK s) :
    HeaderOK s1 := by
  cases e with
  | done => simp [step] at hstep
  | key id =>
    have hks := keySwitch_headerOK d s w id h
    simp only [step, onKey] at hstep
    cases hr : keySwitch d s w id with
    | stop o =>
      rw [hr] at hstep hks
      simp only at hstep
      rw [hstep] at hks
      simp [KeyResult.all, Outcome.state?] at hks
    | handled s2 log2 hp =>
      rw [hr] at hstep hks
      simp only [Outcome.running.injEq] at hstep
      obtain ⟨rfl, _⟩ := hstep
      exact headerOK_of_same s2 _ hks (by simp) (by simp)
  | data procs =>
    unfold step onData at hstep
    dsimp only at hstep
    split_ifs at hstep <;> simp only [Outcome.running.injEq] at hstep <;>
      obtain ⟨rfl, _⟩ := hstep <;>
      first
        | exact h
        | exact headerOK_of_same s _ h rfl rfl
        | exact headerOK_of_same s _ h (by simp) (by simp)
  | tick =>
    simp only [step, onTick, Outcome.running.injEq] at hstep
    obtain ⟨rfl, _⟩ := hstep
    split_ifs
    · exact h
    · exact headerOK_of_same s _ h (by simp) (by simp)
    · exact headerOK_of_same s _ h rfl rfl

theorem reachable_headerOK (d : Deps) (page help signals : Table) (hp : page.Header = header)
    (s : State) (hr : Reachable d page help signals s) : HeaderOK s := by
  induction hr with
  | start => exact Or.inl ⟨rfl, hp⟩
  | next s0 s1 w e log _ hstep ih => exact step_headerOK d s0 w e s1 log hstep ih

theorem step_zero_key (d : Deps) (s : State) (w : World) (hu : s.utilitySelected = .None) :
    step d s w (.key "0") =
      .running
        { ({ s with sortIdx := -1, procTable := { s.procTable with Header := header } } :
            State).updateUI with previousKey := "0" }
        [.updateUI] := by
  have hk : keySwitch d s w "0" = digitKey d s "0" := keySwitch_digit d s w 0 (by omega)
  have hm : ¬ ("0" ∈ ["1", "2", "3", "4", "5", "6", "7", "8"]) := by decide
  simp only [step, onKey, hk, digitKey, hu, if_neg hm, if_true, List.nil_append,
    Bool.false_eq_true, if_false]

theorem reachable_cpuSortedState :
    Reachable plainDeps basePage someHelp someSignals cpuSortedState :=
  .next (State.init basePage someHelp someSignals) cpuSortedState calmWorld (.key "3")
    [.updateUI] .start (by decide)

/-- Claim C21: in the state `None`, for every `n` from 1 to 8, the digit key `n` leaves
`sortIdx = n - 1`, `sortAsc = true` and the base header with column `n - 1` replaced by its
base name, a space and the up arrow; the key `<Fn>` leaves `sortIdx = n - 1`,
`sortAsc = false` and the down arrow in that column; the key `0` leaves `sortIdx = -1` and the
base header. In every state reached from a start whose page carries the base header, a header
column that differs from the base header is column `sortIdx`. -/
theorem sort_keys_annotate_header (d : Deps) (page help signals : Table)
    (hp : page.Header = header) :
    (∀ (s : State) (w : World) (n : Nat), 1 ≤ n → n ≤ 8 → s.utilitySelected = .None →
      (∃ s1 log, step d s w (.key (digit n)) = .running s1 log ∧
        s1.sortIdx = (n : Int) - 1 ∧ s1.sortAsc = true ∧
        s1.procTable.Header =
          header.set (n - 1) (header.getD (n - 1) "" ++ " " ++ UpArrow)) ∧
      (∃ s1 log, step d s w (.key (fkey n)) = .running s1 log ∧
        s1.sortIdx = (n : Int) - 1 ∧ s1.sortAsc = false ∧
        s1.procTable.Header =
          header.set (n - 1) (header.getD (n - 1) "" ++ " " ++ DownArrow))) ∧
    (∀ (s : State) (w : World), s.utilitySelected = .None →
      ∃ s1 log, step d s w (.key "0") = .running s1 log ∧ s1.sortIdx = -1 ∧
        s1.procTable.Header = header) ∧
    (∀ s : State, Reachable d page help signals s →
      ∀ i : Nat, s.procTable.Header.getD i "" ≠ header.getD i "" → (i : Int) = s.sortIdx) := by
  refine ⟨fun s w n h1 h8 hu => ⟨?_, ?_⟩, fun s w hu => ?_, fun s hr i hne => ?_⟩
  · obtain ⟨s1, log, hs, _, h2, h3, _, h5⟩ := step_sortKey d s w true n h1 h8 hu
    exact ⟨s1, log, by simpa [sortKey] using hs, h2, h3, by simpa using h5⟩
  · obtain ⟨s1, log, hs, _, h2, h3, _, h5⟩ := step_sortKey d s w false n h1 h8 hu
    exact ⟨s1, log, by simpa [sortKey] using hs, h2, h3, by simpa using h5⟩
  · exact ⟨_, _, step_zero_key d s w hu, by simp, by simp⟩
  · rcases reachable_headerOK d page help signals hp s hr with ⟨_, hh⟩ | ⟨n, h1, _, hs, arrow, hh⟩
    · rw [hh] at hne
      exact absurd rfl hne
    · rw [hh] at hne
      by_cases hi : n - 1 = i
      · rw [hs]
        omega
      · rw [List.getD_eq_getElem?_getD, List.getElem?_set_ne hi,
          ← List.getD_eq_getElem?_getD] at hne
        exact absurd rfl hne

/-- Claim C21, witness: at the start on a page with the base header, the keys `3`, `<F3>` and
`0`; and the state after the key `3`, in which the third column alone is annotated. -/
theorem sort_keys_annotate_header_witness :
    basePage.Header = header ∧
      (∃ s1 log, step plainDeps (State.init basePage someHelp someSignals) calmWorld
          (.key (digit 3)) = .running s1 log ∧
        s1.sortIdx = ((3 : Nat) : Int) - 1 ∧ s1.sortAsc = true ∧
        s1.procTable.Header =
          header.set (3 - 1) (header.getD (3 - 1) "" ++ " " ++ UpArrow)) ∧
      (∃ s1 log, step plainDeps (State.init basePage someHelp someSignals) calmWorld
          (.key "0") = .running s1 log ∧ s1.sortIdx = -1 ∧ s1.procTable.Header = header) ∧
      Reachable plainDeps basePage someHelp someSignals cpuSortedState ∧
      cpuSortedState.procTable.Header.getD 2 "" ≠ header.getD 2 "" ∧
      ((2 : Nat) : Int) = cpuSortedState.sortIdx :=
  ⟨rfl,
    ((sort_keys_annotate_header plainDeps basePage someHelp someSignals rfl).1
      (State.init basePage someHelp someSignals) calmWorld 3 (by decide) (by decide) rfl).1,
    (sort_keys_annotate_header plainDeps basePage someHelp someSignals rfl).2.1
      (State.init basePage someHelp someSignals) calmWorld rfl,
    reachable_cpuSortedState, by decide,
    (sort_keys_annotate_header plainDeps basePage someHelp someSignals rfl).2.2
      cpuSortedState reachable_cpuSortedState 2 (by decide)⟩

/-! ## The kill key and the drawn selection -/

theorem drawRow_recolor (t : Table) (c : Color) (rowNum : Int) (row : List String) :
    ({ t with CursorColor := c } : Table).drawRow rowNum row =
      (t.drawRow rowNum row).map (fun t1 => { t1 with CursorColor := c }) := by
  unfold Table.drawRow Table.uniqueCell
  dsimp only
  split_ifs <;>
    first
      | rfl
      | (cases row.get? t.UniqueCol.toNat <;>
          first
            | rfl
            | (dsimp only; split_ifs <;> rfl))

theorem drawFrom_recolor (c : Color) (rows : List (List String)) :
    ∀ (t : Table) (rowNum : Int),
      ({ t with CursorColor := c } : Table).drawFrom rowNum rows =
        (t.drawFrom rowNum rows).map (fun t1 => { t1 with CursorColor := c }) := by
  induction rows with
  | nil => intro t rowNum; rfl
  | cons row rest ih =>
    intro t rowNum
    simp only [Table.drawFrom, drawRow_recolor]
    cases h : t.drawRow rowNum row with
    | none => rfl
    | some t1 => exact ih t1 (rowNum + 1)

/-- The colour of the cursor has no part in what `Draw` writes. -/
theorem draw_recolor (t : Table) (c : Color) :
    ({ t with CursorColor := c } : Table).Draw =
      t.Draw.map (fun t1 => { t1 with CursorColor := c }) := by
  unfold Table.Draw
  dsimp only
  split_ifs
  · rfl
  · exact drawFrom_recolor c _ t _

/-- The second batch of `staleState` is not drawn: the cursor is on the process 42, which the
first drawing selected, while `SelectedRow` still is 0, where the process 7 now stands. The
key `K` targets the process 7, and the drawing that follows moves `SelectedRow` to the row of
the process 42. After a tick, which draws the table, the table is as the drawing left it and
the key `K` targets the process 42. -/
theorem stale_selection_targets_other_process :
    State.initDrawn plainDrawing emptyPage newHelp threeSignals = some drawnStart ∧
      (staleState.utilitySelected, staleState.procTable.SelectedItem,
        staleState.procTable.SelectedRow, staleState.procTable.Rows.map (fun r => r.head?)) =
        (.None, "42", 0, [some "7", some "42"]) ∧
      staleState.procTable.Draw ≠ some staleState.procTable ∧
      (stepDrawn plainDrawing plainDeps staleState calmWorld (.key "K")).state?.map
        (fun s => (s.utilitySelected, s.pidToKill, s.procTable.SelectedItem,
          s.procTable.SelectedRow)) = some (.Kill, 7, "42", 1) ∧
      (redrawnState.procTable.SelectedItem, redrawnState.procTable.SelectedRow) = ("42", 1) ∧
      redrawnState.procTable.Draw = some redrawnState.procTable ∧
      (stepDrawn plainDrawing plainDeps redrawnState calmWorld (.key "K")).state?.map
        (fun s => (s.utilitySelected, s.pidToKill, s.procTable.SelectedItem,
          s.procTable.SelectedRow)) = some (.Kill, 42, "42", 1) := by
  decide

/-- Claim C19, counterexample: in the help overlay the key `K` changes the state: the
previous key, which was `?`, becomes `K`. -/
theorem kill_key_in_help_changes_previousKey :
    drawnHelpState.utilitySelected = .Help ∧ drawnHelpState.previousKey = "?" ∧
      (stepDrawn plainDrawing plainDeps drawnHelpState calmWorld (.key "K")).state?.map
        (fun s => s.previousKey) = some "K" ∧
      (stepDrawn plainDrawing plainDeps drawnHelpState calmWorld (.key "K")).state? ≠
        some drawnHelpState := by
  decide

/-- Claim C19, as amended: in the state `None` with `0 <= SelectedRow < len(Rows)`, a selected
row whose column 0 is the decimal integer `pid`, and a process table that is as its last
drawing left it, the keys `K` and `<F9>` set `pidToKill` to `int32(pid)` (to `pid` itself when
it fits 32 bits) and `runAllProc` to false, enter the kill prompt and make the signal list,
with its cursor enabled, the widget that receives scroll keys; the process table keeps its
rows, its selection and everything else but the colour of its cursor, the sort settings are
unchanged, the key becomes the previous key, and no process is looked up or signalled. In
the help overlay, with a help menu that is as its last drawing left it, and in the error
overlay the key changes only the previous key. -/
theorem kill_key (dr : DrawDeps) (d : Deps) (s : State) (w : World) (id : String)
    (hid : id = "K" ∨ id = "<F9>") :
    (∀ (row : List String) (cell : String) (pid : Int) (sig : Table),
        s.utilitySelected = .None → 0 ≤ s.procTable.SelectedRow →
        s.procTable.Rows.get? s.procTable.SelectedRow.toNat = some row →
        row.head? = some cell → Atoi cell = some pid →
        s.procTable.Draw = some s.procTable →
        dr.DrawSignals s.signalsTable.EnableCursor = some sig →
        ∃ s1, stepDrawn dr d s w (.key id) = .running s1 [.updateUI] ∧
          s1.pidToKill = wrapInt32 pid ∧
          (-2147483648 ≤ pid → pid < 2147483648 → s1.pidToKill = pid) ∧
          s1.runAllProc = false ∧ s1.utilitySelected = .Kill ∧
          s1.scrollableWidget = .signalsTable ∧ s1.signalsTable = sig ∧
          s1.procTable = { s.procTable with CursorColor := .magenta } ∧
          s1.procTable.Rows = s.procTable.Rows ∧
          s1.procTable.SelectedRow = s.procTable.SelectedRow ∧
          s1.procTable.SelectedItem = s.procTable.SelectedItem ∧
          s1.procTable.TopRow = s.procTable.TopRow ∧
          s1.sortIdx = s.sortIdx ∧ s1.sortAsc = s.sortAsc ∧ s1.previousKey = id) ∧
      (s.utilitySelected = .Help →
        HelpMenu.Draw dr.keybindings s.helpTable = some s.helpTable →
        stepDrawn dr d s w (.key id) = .running { s with previousKey := id } [.updateUI]) ∧
      (s.utilitySelected = .Error →
        stepDrawn dr d s w (.key id) = .running { s with previousKey := id } [.updateUI]) := by
  refine ⟨fun row cell pid sig hu h0 hrow hcell hpid hdraw hsig => ?_, fun hu hdraw => ?_,
    fun hu => ?_⟩
  · have hlen : s.procTable.SelectedRow < (s.procTable.Rows.length : Int) := by
      have := (List.get?_eq_some.1 hrow).1
      omega
    have h32 : -2147483648 ≤ pid → pid < 2147483648 → wrapInt32 pid = pid := by
      intro ha hb; unfold wrapInt32; omega
    have hstep : step d s w (.key id) =
        .running
          { s with
            pidToKill := wrapInt32 pid, runAllProc := false, utilitySelected := .Kill,
            scrollableWidget := .signalsTable,
            signalsTable := s.signalsTable.EnableCursor,
            procTable := { s.procTable with CursorColor := .magenta },
            previousKey := id }
          [.updateUI] := by
      simp only [step, onKey, keySwitch_K d s w id hid, killKey, hu, if_pos hlen,
        if_neg (not_lt.2 h0), hrow, hcell, hpid, List.nil_append]
      simp [State.updateUI, State.pointTo, State.onScrollable]
    have hd : ({ s.procTable with CursorColor := Color.magenta } : Table).Draw =
        some { s.procTable with CursorColor := .magenta } := by
      rw [draw_recolor, hdraw]
      rfl
    refine ⟨{ s with
        pidToKill := wrapInt32 pid, runAllProc := false, utilitySelected := .Kill,
        scrollableWidget := .signalsTable, signalsTable := sig,
        procTable := { s.procTable with CursorColor := .magenta },
        previousKey := id }, ?_, rfl, fun ha hb => h32 ha hb, rfl, rfl, rfl, rfl, rfl, rfl,
      rfl, rfl, rfl, rfl, rfl, rfl⟩
    simp only [stepDrawn, hstep, State.drawAll, State.draw, hsig, hd]
  · have hstep : step d s w (.key id) = .running { s with previousKey := id } [.updateUI] := by
      simp [step, onKey, keySwitch_K d s w id hid, killKey, hu, State.updateUI]
    simp only [stepDrawn, hstep, State.drawAll, State.draw, hu, hdraw]
  · have hstep : step d s w (.key id) = .running { s with previousKey := id } [.updateUI] := by
      simp [step, onKey, keySwitch_K d s w id hid, killKey, hu, State.updateUI]
    simp only [stepDrawn, hstep, State.drawAll, State.draw, hu]

/-- Claim C19, witness: the key `K` on the drawn row of the process 42, and in the drawn help
overlay. -/
theorem kill_key_witness :
    drawnLoadedState.utilitySelected = .None ∧ drawnHelpState.utilitySelected = .Help ∧
      drawnLoadedState.procTable.Draw = some drawnLoadedState.procTable ∧
      HelpMenu.Draw plainDrawing.keybindings drawnHelpState.helpTable =
        some drawnHelpState.helpTable ∧
      (∃ s1, stepDrawn plainDrawing plainDeps drawnLoadedState calmWorld (.key "K") =
          .running s1 [.updateUI] ∧
        s1.pidToKill = wrapInt32 42 ∧
        (-2147483648 ≤ (42 : Int) → (42 : Int) < 2147483648 → s1.pidToKill = 42) ∧
        s1.runAllProc = false ∧ s1.utilitySelected = .Kill ∧
        s1.scrollableWidget = .signalsTable ∧
        s1.signalsTable =
          { threeSignals.EnableCursor with SelectedItem := "1" } ∧
        s1.procTable = { drawnLoadedState.procTable with CursorColor := .magenta } ∧
        s1.procTable.Rows = drawnLoadedState.procTable.Rows ∧
        s1.procTable.SelectedRow = drawnLoadedState.procTable.SelectedRow ∧
        s1.procTable.SelectedItem = drawnLoadedState.procTable.SelectedItem ∧
        s1.procTable.TopRow = drawnLoadedState.procTable.TopRow ∧
        s1.sortIdx = drawnLoadedState.sortIdx ∧ s1.sortAsc = drawnLoadedState.sortAsc ∧
        s1.previousKey = "K") ∧
      stepDrawn plainDrawing plainDeps drawnHelpState calmWorld (.key "K") =
        .running { drawnHelpState with previousKey := "K" } [.updateUI] :=
  ⟨by decide, by decide, by decide, by decide,
    (kill_key plainDrawing plainDeps drawnLoadedState calmWorld "K" (Or.inl rfl)).1
      ["42", "sh", "0.00%", "0.10%", "S", "false", "now", "1"] "42" 42
      { threeSignals.EnableCursor with SelectedItem := "1" }
      (by decide) (by decide) (by decide) (by decide) (by decide) (by decide) (by decide),
    (kill_key plainDrawing plainDeps drawnHelpState calmWorld "K" (Or.inl rfl)).2.1
      (by decide) (by decide)⟩

/-! ## A drawn table stays as it is when it is drawn again -/

theorem table_eta_selectedRow (t : Table) : ({ t with SelectedRow := t.SelectedRow } : Table) = t := by
  cases t; rfl

/-- Without a cursor the drawing writes nothing. -/
theorem drawFrom_no_cursor (rows : List (List String)) :
    ∀ (t : Table) (i : Int), t.ShowCursor = false →
      (∀ row ∈ rows, ¬ (t.IsHelp = true ∧ row = [])) → t.drawFrom i rows = some t := by
  induction rows with
  | nil => intro t i _ _; rfl
  | cons row rest ih =>
    intro t i hc hrows
    have h1 : t.drawRow i row = some t := by
      unfold Table.drawRow
      rw [if_neg (hrows row (List.mem_cons_self _ _)), if_neg (by simp [hc])]
    simp only [Table.drawFrom, h1]
    exact ih t (i + 1) hc (fun r hr => hrows r (List.mem_cons_of_mem _ hr))

/-- With a cursor item, the drawing moves `SelectedRow` to the last row that shows the item,
whatever it was before, and leaves it when no row does. -/
theorem drawFrom_item (rows : List (List String)) :
    ∀ (t : Table) (i : Int), t.ShowCursor = true → t.SelectedItem ≠ "" →
      (∀ row ∈ rows, ¬ (t.IsHelp = true ∧ row = []) ∧ (t.uniqueCell row).isSome) →
      ∃ m : Option Int, ∀ sel : Int,
        ({ t with SelectedRow := sel } : Table).drawFrom i rows =
          some { t with SelectedRow := m.getD sel } := by
  induction rows with
  | nil => intro t i _ _ _; exact ⟨none, fun sel => rfl⟩
  | cons row rest ih =>
    intro t i hc hitem hrows
    obtain ⟨hhelp, hcell⟩ := hrows row (List.mem_cons_self _ _)
    obtain ⟨cell, hcell⟩ := Option.isSome_iff_exists.1 hcell
    obtain ⟨m, hm⟩ := ih t (i + 1) hc hitem (fun r hr => hrows r (List.mem_cons_of_mem _ hr))
    have hu : ∀ sel : Int, ({ t with SelectedRow := sel } : Table).uniqueCell row = some cell := by
      intro sel; simpa [Table.uniqueCell] using hcell
    by_cases heq : t.SelectedItem = cell
    · subst heq
      refine ⟨some (m.getD i), fun sel => ?_⟩
      have h1 : ({ t with SelectedRow := sel } : Table).drawRow i row =
          some { t with SelectedRow := i } := by
        unfold Table.drawRow
        rw [hu]
        dsimp only
        rw [if_neg hhelp, if_pos hc, if_neg hitem, if_pos rfl]
      simp only [Table.drawFrom, h1, hm i, Option.getD_some]
    · refine ⟨m, fun sel => ?_⟩
      have h1 : ({ t with SelectedRow := sel } : Table).drawRow i row =
          some { t with SelectedRow := sel } := by
        unfold Table.drawRow
        rw [hu]
        dsimp only
        rw [if_neg hhelp, if_pos hc, if_neg hitem, if_neg heq]
      simp only [Table.drawFrom, h1, hm sel]

/-- Without a cursor item, the drawing either writes nothing or makes the row `SelectedRow`
the cursor item and then moves `SelectedRow` to the last row that shows the item; drawing
the same rows with that item gives the same row, whatever `SelectedRow` was. -/
theorem drawFrom_no_item (rows : List (List String)) :
    ∀ (t : Table) (i : Int), t.ShowCursor = true → t.SelectedItem = "" →
      (∀ row ∈ rows, ¬ (t.IsHelp = true ∧ row = []) ∧ (t.uniqueCell row).isSome) →
      t.drawFrom i rows = some t ∨
        ∃ (c : String) (s1 : Int), c ≠ "" ∧
          t.drawFrom i rows = some { t with SelectedItem := c, SelectedRow := s1 } ∧
          ∀ sel : Int,
            ({ t with SelectedItem := c, SelectedRow := sel } : Table).drawFrom i rows =
              some { t with SelectedItem := c, SelectedRow := s1 } := by
  induction rows with
  | nil => intro t i _ _ _; exact Or.inl rfl
  | cons row rest ih =>
    intro t i hc hitem hrows
    obtain ⟨hhelp, hcell⟩ := hrows row (List.mem_cons_self _ _)
    obtain ⟨cell, hcell⟩ := Option.isSome_iff_exists.1 hcell
    have hrest : ∀ r ∈ rest, ¬ (t.IsHelp = true ∧ r = []) ∧ (t.uniqueCell r).isSome :=
      fun r hr => hrows r (List.mem_cons_of_mem _ hr)
    have hu : ∀ (c : String) (sel : Int),
        ({ t with SelectedItem := c, SelectedRow := sel } : Table).uniqueCell row = some cell := by
      intro c sel; simpa [Table.uniqueCell] using hcell
    -- a table with the cursor item `c` on this row
    have hrowc : ∀ (c : String) (sel : Int), c ≠ "" →
        ({ t with SelectedItem := c, SelectedRow := sel } : Table).drawRow i row =
          if c = cell then some { t with SelectedItem := c, SelectedRow := i }
          else some { t with SelectedItem := c, SelectedRow := sel } := by
      intro c sel hcne
      unfold Table.drawRow
      rw [hu]
      dsimp only
      rw [if_neg hhelp, if_pos hc, if_neg hcne]
      by_cases hcc : c = cell
      · subst hcc
        simp
      · simp [hcc]
    by_cases hsel : i = t.SelectedRow
    · by_cases hce : cell = ""
      · -- the row under the cursor shows the empty item: nothing changes
        have h1 : t.drawRow i row = some t := by
          unfold Table.drawRow
          rw [if_neg hhelp, if_pos hc, if_pos hitem, if_pos hsel, hcell]
          subst hce
          cases t
          simp_all
        rcases ih t (i + 1) hc hitem hrest with h | ⟨c, s1, hcne, h, hall⟩
        · left
          simp only [Table.drawFrom, h1, h]
        · right
          refine ⟨c, s1, hcne, by simp only [Table.drawFrom, h1, h], fun sel => ?_⟩
          have hne : ¬ c = cell := by rw [hce]; exact hcne
          simp only [Table.drawFrom, hrowc c sel hcne, if_neg hne, hall sel]
      · -- the row under the cursor becomes the cursor item
        have h1 : t.drawRow i row = some { t with SelectedItem := cell, SelectedRow := i } := by
          unfold Table.drawRow
          rw [if_neg hhelp, if_pos hc, if_pos hitem, if_pos hsel, hcell]
        obtain ⟨m, hm⟩ := drawFrom_item rest { t with SelectedItem := cell } (i + 1) hc hce
          (fun r hr => hrest r hr)
        right
        refine ⟨cell, m.getD i, hce, ?_, fun sel => ?_⟩
        · simp only [Table.drawFrom, h1]
          exact hm i
        · simp only [Table.drawFrom, hrowc cell sel hce, if_true]
          exact hm i
    · have h1 : t.drawRow i row = some t := by
        unfold Table.drawRow
        rw [if_neg hhelp, if_pos hc, if_pos hitem, if_neg hsel]
      rcases ih t (i + 1) hc hitem hrest with h | ⟨c, s1, hcne, h, hall⟩
      · left
        simp only [Table.drawFrom, h1, h]
      · right
        refine ⟨c, s1, hcne, by simp only [Table.drawFrom, h1, h], fun sel => ?_⟩
        by_cases hcc : c = cell
        · simp only [Table.drawFrom, hrowc c sel hcne, if_pos hcc, hall i]
        · simp only [Table.drawFrom, hrowc c sel hcne, if_neg hcc, hall sel]

/-- The rows from which `Draw` reads a cell have this cell: no row of a help table is empty
and every row has the column `UniqueCol`. -/
theorem draw_stable (t : Table)
    (hrows : ∀ row ∈ t.Rows, ¬ (t.IsHelp = true ∧ row = []) ∧ (t.uniqueCell row).isSome) :
    ∃ t1, t.Draw = some t1 ∧ t1.Draw = some t1 ∧ t1.Rows = t.Rows ∧
      t1.UniqueCol = t.UniqueCol ∧ t1.IsHelp = t.IsHelp := by
  have hvis : ∀ n k : Nat, ∀ row ∈ (t.Rows.drop n).take k,
      ¬ (t.IsHelp = true ∧ row = []) ∧ (t.uniqueCell row).isSome :=
    fun n k row hr => hrows row (List.mem_of_mem_drop (List.mem_of_mem_take hr))
  unfold Table.Draw
  by_cases htop : t.TopRow < 0
  · refine ⟨t, by rw [if_pos htop], by rw [if_pos htop], rfl, rfl, rfl⟩
  · rw [if_neg htop]
    cases hc : t.ShowCursor with
    | false =>
      refine ⟨t, drawFrom_no_cursor _ t _ hc (fun r hr => (hvis _ _ r hr).1), ?_, rfl, rfl, rfl⟩
      rw [if_neg htop]
      exact drawFrom_no_cursor _ t _ hc (fun r hr => (hvis _ _ r hr).1)
    | true =>
      by_cases hitem : t.SelectedItem = ""
      · rcases drawFrom_no_item _ t t.TopRow hc hitem (hvis _ _) with h | ⟨c, s1, _, h, hall⟩
        · refine ⟨t, h, ?_, rfl, rfl, rfl⟩
          rw [if_neg htop]
          exact h
        · refine ⟨_, h, ?_, rfl, rfl, rfl⟩
          dsimp only
          rw [if_neg htop]
          exact hall s1
      · obtain ⟨m, hm⟩ := drawFrom_item _ t t.TopRow hc hitem (hvis _ _)
        have h0 := hm t.SelectedRow
        rw [table_eta_selectedRow] at h0
        refine ⟨_, h0, ?_, rfl, rfl, rfl⟩
        dsimp only
        rw [if_neg htop]
        have h1 := hm (m.getD t.SelectedRow)
        have hidem : m.getD (m.getD t.SelectedRow) = m.getD t.SelectedRow := by
          cases m <;> rfl
        rw [hidem] at h1
        exact h1

theorem drawRow_fields (t t1 : Table) (i : Int) (row : List String)
    (h : t.drawRow i row = some t1) :
    t1.Rows = t.Rows ∧ t1.UniqueCol = t.UniqueCol ∧ t1.IsHelp = t.IsHelp := by
  unfold Table.drawRow at h
  split_ifs at h
  · cases hu : t.uniqueCell row with
    | none => rw [hu] at h; cases h
    | some cell => rw [hu] at h; cases h; exact ⟨rfl, rfl, rfl⟩
  · cases h; exact ⟨rfl, rfl, rfl⟩
  · cases hu : t.uniqueCell row with
    | none => rw [hu] at h; cases h
    | some cell =>
      rw [hu] at h
      dsimp only at h
      split_ifs at h <;> cases h <;> exact ⟨rfl, rfl, rfl⟩
  · cases h; exact ⟨rfl, rfl, rfl⟩

theorem drawFrom_fields (rows : List (List String)) :
    ∀ (t t1 : Table) (i : Int), t.drawFrom i rows = some t1 →
      t1.Rows = t.Rows ∧ t1.UniqueCol = t.UniqueCol ∧ t1.IsHelp = t.IsHelp := by
  induction rows with
  | nil => intro t t1 i h; cases h; exact ⟨rfl, rfl, rfl⟩
  | cons row rest ih =>
    intro t t1 i h
    simp only [Table.drawFrom] at h
    cases hr : t.drawRow i row with
    | none => rw [hr] at h; cases h
    | some t2 =>
      rw [hr] at h
      obtain ⟨a1, a2, a3⟩ := drawRow_fields t t2 i row hr
      obtain ⟨b1, b2, b3⟩ := ih t2 t1 (i + 1) h
      exact ⟨b1.trans a1, b2.trans a2, b3.trans a3⟩

/-- The drawing leaves the rows, the unique column and the help flag of a table. -/
theorem draw_fields (t t1 : Table) (h : t.Draw = some t1) :
    t1.Rows = t.Rows ∧ t1.UniqueCol = t.UniqueCol ∧ t1.IsHelp = t.IsHelp := by
  unfold Table.Draw at h
  split_ifs at h
  · cases h; exact ⟨rfl, rfl, rfl⟩
  · exact drawFrom_fields _ t t1 _ h

/-- A table that has just been drawn, and whose rows all have the cells that `Draw` reads, is
as its drawing left it: drawing it again changes nothing. -/
theorem drawn_table_stable (t t1 : Table) (h : t.Draw = some t1)
    (hrows : ∀ row ∈ t1.Rows, ¬ (t1.IsHelp = true ∧ row = []) ∧ (t1.uniqueCell row).isSome) :
    t1.Draw = some t1 := by
  obtain ⟨hr, hu, hh⟩ := draw_fields t t1 h
  have hrows0 : ∀ row ∈ t.Rows, ¬ (t.IsHelp = true ∧ row = []) ∧ (t.uniqueCell row).isSome := by
    intro row hrow
    have := hrows row (hr ▸ hrow)
    simpa [Table.uniqueCell, hu, hh] using this
  obtain ⟨t2, h2, h3, _⟩ := draw_stable t hrows0
  rw [h] at h2
  cases h2
  exact h3

theorem draw_utilitySelected (dr : DrawDeps) (s s1 : State) (e : Effect)
    (h : s.draw dr e = some s1) : s1.utilitySelected = s.utilitySelected := by
  cases e <;> simp only [State.draw] at h <;> (repeat' split at h) <;>
    first
      | (cases h; rfl)
      | cases h

theorem drawAll_append (dr : DrawDeps) (l1 l2 : List Effect) :
    ∀ s : State, s.drawAll dr (l1 ++ l2) = (s.drawAll dr l1).bind (fun s1 => s1.drawAll dr l2) := by
  induction l1 with
  | nil => intro s; rfl
  | cons e rest ih =>
    intro s
    simp only [List.cons_append, State.drawAll]
    cases s.draw dr e with
    | none => rfl
    | some s1 => exact ih s1

/-- In the state `None`, a log that ends with a call of `updateUI` leaves the process table
as that drawing left it. -/
theorem procTable_drawn_last (dr : DrawDeps) (s s2 : State) (log : List Effect)
    (h : s.drawAll dr (log ++ [.updateUI]) = some s2) (hu : s2.utilitySelected = .None)
    (hrows : ∀ row ∈ s2.procTable.Rows,
      ¬ (s2.procTable.IsHelp = true ∧ row = []) ∧ (s2.procTable.uniqueCell row).isSome) :
    s2.procTable.Draw = some s2.procTable := by
  rw [drawAll_append] at h
  cases hm : s.drawAll dr log with
  | none => rw [hm] at h; cases h
  | some sm =>
    rw [hm] at h
    simp only [Option.some_bind, State.drawAll] at h
    cases hd : sm.draw dr .updateUI with
    | none => rw [hd] at h; cases h
    | some s3 =>
      rw [hd] at h
      have e3 : s3 = s2 := Option.some.inj h
      rw [e3] at hd
      have hum : sm.utilitySelected = .None :=
        (draw_utilitySelected dr sm s2 .updateUI hd).symm.trans hu
      simp only [State.draw, hum] at hd
      cases ht : sm.procTable.Draw with
      | none => rw [ht] at hd; cases hd
      | some t =>
        rw [ht] at hd
        cases hd
        exact drawn_table_stable sm.procTable t ht hrows

/-- The switch returns or panics, or leaves a state: it never stops in a running outcome. -/
theorem keySwitch_stop (d : Deps) (s : State) (w : World) (id : String) (o : Outcome)
    (h : keySwitch d s w id = .stop o) : o.state? = none := by
  have hall : (keySwitch d s w id).all (fun _ => True) := by
    apply keySwitch_all
    · trivial
    · trivial
    · trivial
    · trivial
    · intro f _; trivial
    · trivial
    · unfold killKey
      repeat' split
      all_goals first | rfl | exact True.intro
    · unfold digitKey
      repeat' split
      all_goals first | rfl | exact True.intro
    · intro _
      unfold functionKey
      repeat' split
      all_goals first | rfl | exact True.intro
    · unfold enterKey
      repeat' split
      all_goals first | rfl | exact True.intro
  rw [h] at hall
  exact hall

/-- After a key that leaves the state `None`, the process table is as its last drawing left
it, provided its rows have the cells that `Draw` reads. -/
theorem procTable_stable_after_key (dr : DrawDeps) (d : Deps) (s s2 : State) (w : World)
    (id : String) (log : List Effect)
    (h : stepDrawn dr d s w (.key id) = .running s2 log) (hu : s2.utilitySelected = .None)
    (hrows : ∀ row ∈ s2.procTable.Rows,
      ¬ (s2.procTable.IsHelp = true ∧ row = []) ∧ (s2.procTable.uniqueCell row).isSome) :
    s2.procTable.Draw = some s2.procTable := by
  simp only [stepDrawn, step, onKey] at h
  cases hk : keySwitch d s w id with
  | stop o =>
    rw [hk] at h
    have hnone := keySwitch_stop d s w id o hk
    cases o with
    | running s0 log0 => simp [Outcome.state?] at hnone
    | canceled => simp at h
    | contextDone => simp at h
    | pidError => simp at h
    | panicked => simp at h
  | handled s1 log1 flag =>
    rw [hk] at h
    dsimp only at h
    cases hd : State.drawAll dr
        { s1.updateUI with previousKey := if flag = true then "" else id }
        (log1 ++ [.updateUI]) with
    | none => rw [hd] at h; cases h
    | some s3 =>
      rw [hd] at h
      simp only [Outcome.running.injEq] at h
      obtain ⟨rfl, _⟩ := h
      exact procTable_drawn_last dr _ s3 log1 hd hu hrows

/-- A log that ends with the call `ui.Render(page.Grid)` leaves the process table as that
drawing left it. -/
theorem procTable_rendered_last (dr : DrawDeps) (s s2 : State) (log : List Effect)
    (h : s.drawAll dr (log ++ [.renderGrid]) = some s2)
    (hrows : ∀ row ∈ s2.procTable.Rows,
      ¬ (s2.procTable.IsHelp = true ∧ row = []) ∧ (s2.procTable.uniqueCell row).isSome) :
    s2.procTable.Draw = some s2.procTable := by
  rw [drawAll_append] at h
  cases hm : s.drawAll dr log with
  | none => rw [hm] at h; cases h
  | some sm =>
    rw [hm] at h
    simp only [Option.some_bind, State.drawAll, State.draw] at h
    cases ht : sm.procTable.Draw with
    | none => rw [ht] at h; cases h
    | some t =>
      rw [ht] at h
      have e3 := Option.some.inj h
      subst e3
      exact drawn_table_stable sm.procTable t ht hrows

/-- After a tick that leaves the state `None`, the process table is as its last drawing left
it, provided its rows have the cells that `Draw` reads. -/
theorem procTable_stable_after_tick (dr : DrawDeps) (d : Deps) (s s2 : State) (w : World)
    (log : List Effect) (h : stepDrawn dr d s w .tick = .running s2 log)
    (hu : s2.utilitySelected = .None)
    (hrows : ∀ row ∈ s2.procTable.Rows,
      ¬ (s2.procTable.IsHelp = true ∧ row = []) ∧ (s2.procTable.uniqueCell row).isSome) :
    s2.procTable.Draw = some s2.procTable := by
  simp only [stepDrawn, step, onTick] at h
  split at h
  · cases h
  · rename_i s3 hd
    simp only [Outcome.running.injEq] at h
    obtain ⟨rfl, _⟩ := h
    have hu1 : ∀ (s0 s1 : State) (l : List Effect), s0.drawAll dr l = some s1 →
        s1.utilitySelected = s0.utilitySelected := by
      intro s0 s1 l
      induction l generalizing s0 with
      | nil => intro h0; cases h0; rfl
      | cons e rest ih =>
        intro h0
        simp only [State.drawAll] at h0
        cases he : s0.draw dr e with
        | none => rw [he] at h0; cases h0
        | some sx =>
          rw [he] at h0
          exact (ih sx h0).trans (draw_utilitySelected dr s0 sx e he)
    have hu0 := (hu1 _ _ _ hd).symm.trans hu
    rw [hu0] at hd
    simp only [ne_eq, reduceCtorEq, not_false_eq_true, if_true, if_false, List.nil_append,
      ← List.append_assoc] at hd
    exact procTable_rendered_last dr _ s3 _ hd hrows

end Grofer
